import Mathlib

/-!
# HMMCopyNumberVariants: the D-segment scan and its probability model

A shallow embedding of `HMMProbabilities.cpp` and `DSegmentsFinder.cpp`.

* Scores (`long double` in the source) live in an arbitrary type `α` that carries
  the operations the code applies to them.  The control-flow results are proved
  for every such `α`; the order `≤` is not even assumed reflexive, so they also
  cover a comparison that is false on an undefined value.  Numerical identities
  are proved over `ℝ`, the exact-arithmetic reading of the code.
* The C library functions `log`, `exp` and the constant
  `std::numeric_limits<double>::quiet_NaN()` are parameters of the definitions
  that call them.
* `std::map::at` throws `std::out_of_range`; such code returns `Except Error`.
* Positions are `Int` (the result of `atoi`).  Read-start counts are `Nat`: a
  negative count would index outside the four-element arrays.
-/

set_option linter.unusedSectionVars false
set_option linter.unusedVariables false

/-- The exception `std::out_of_range` raised by `std::map::at`. -/
inductive Error where
  | OutOfRange
  deriving DecidableEq, Repr

/-! ## HMMProbabilities -/

/-- The data members of `HMMProbabilities`.  A nested `map<int, map<int, long double>>`
is a partial function of two keys; the `[3][3]` and `[3]` arrays are functions of
their indices (only indices `0..2` are inside the arrays). -/
structure HMMProbabilities (α : Type) where
  numStates : Int
  emissionResidueMap : String → Option Int
  emissionProbabilities : Int → Int → Option α
  logEmissionProbabilities : Int → Int → Option α
  transitionProbabilities : Int → Int → α
  logTransitionProbabilities : Int → Int → α
  initiationProbabilities : Int → α
  logInitiationProbabilities : Int → α

/-- The expression `m.at(state).at(index)` on a nested map. -/
def mapAt {α : Type} (m : Int → Int → Option α) (state index : Int) : Except Error α :=
  match m state index with
  | some v => Except.ok v
  | none => Except.error Error.OutOfRange

/-- The assignment `m[state][index] = value` on a nested map. -/
def mapSet {α : Type} (m : Int → Int → Option α) (state index : Int) (value : α) :
    Int → Int → Option α :=
  fun s i => if s = state ∧ i = index then some value else m s i

/-- The assignment `a[i][j] = value` on a two-dimensional array. -/
def arraySet2 {α : Type} (a : Int → Int → α) (i j : Int) (value : α) : Int → Int → α :=
  fun x y => if x = i ∧ y = j then value else a x y

/-- The assignment `a[i] = value` on an array. -/
def arraySet {α : Type} (a : Int → α) (i : Int) (value : α) : Int → α :=
  fun x => if x = i then value else a x

namespace HMMProbabilities

variable {α : Type}

/-- `createEmissionResidueMap`: the keys "0".."3" map to the indices 0..3. -/
def createEmissionResidueMap (p : HMMProbabilities α) : HMMProbabilities α :=
  { p with emissionResidueMap := fun residue =>
      if residue = "3" then some 3
      else if residue = "2" then some 2
      else if residue = "1" then some 1
      else if residue = "0" then some 0
      else p.emissionResidueMap residue }

/-- `getEmissionResidueIndex`: `emissionResidueMap.at(residue)`. -/
def getEmissionResidueIndex (p : HMMProbabilities α) (residue : String) : Except Error Int :=
  match p.emissionResidueMap residue with
  | some i => Except.ok i
  | none => Except.error Error.OutOfRange

/-- `emissionProbability(state, residue)`. -/
def emissionProbability (p : HMMProbabilities α) (state : Int) (residue : String) :
    Except Error α :=
  match p.getEmissionResidueIndex residue with
  | Except.error e => Except.error e
  | Except.ok i => mapAt p.emissionProbabilities state i

/-- `initiationProbability(state)`: a plain array read. -/
def initiationProbability (p : HMMProbabilities α) (state : Int) : α :=
  p.initiationProbabilities state

/-- `transitionProbability(beginState, endState)`: a plain array read. -/
def transitionProbability (p : HMMProbabilities α) (beginState endState : Int) : α :=
  p.transitionProbabilities beginState endState

/-- `logEmissionProbability(state, residue)`. -/
def logEmissionProbability (p : HMMProbabilities α) (state : Int) (residue : String) :
    Except Error α :=
  match p.getEmissionResidueIndex residue with
  | Except.error e => Except.error e
  | Except.ok i => mapAt p.logEmissionProbabilities state i

/-- `logInitiationProbability(state)`: a plain array read. -/
def logInitiationProbability (p : HMMProbabilities α) (state : Int) : α :=
  p.logInitiationProbabilities state

/-- `logTransitionProbability(beginState, endState)`: a plain array read. -/
def logTransitionProbability (p : HMMProbabilities α) (beginState endState : Int) : α :=
  p.logTransitionProbabilities beginState endState

/-- `dSegmentScore(readStarts)`: the state-2 score minus the state-1 score, each
`log(emission * selfTransition) / log(2)`. -/
def dSegmentScore [Mul α] [Div α] [Sub α] [OfNat α (nat_lit 2)] (log : α → α)
    (p : HMMProbabilities α) (readStarts : Int) : Except Error α :=
  match mapAt p.emissionProbabilities 1 readStarts with
  | Except.error e => Except.error e
  | Except.ok e1 =>
    let state1Score := log (e1 * p.transitionProbability 1 1) / log 2
    match mapAt p.emissionProbabilities 2 readStarts with
    | Except.error e => Except.error e
    | Except.ok e2 =>
      let state2Score := log (e2 * p.transitionProbability 2 2) / log 2
      Except.ok (state2Score - state1Score)

/-- The value stored in a log mirror: the sentinel for `value == 0`, else `log(value)`. -/
def logVal [Zero α] [DecidableEq α] (log : α → α) (nan : α) (value : α) : α :=
  if value = 0 then nan else log value

/-- `setEmissionProbability(state, residue, value)`. -/
def setEmissionProbability [Zero α] [DecidableEq α] (log : α → α) (nan : α)
    (p : HMMProbabilities α) (state : Int) (residue : String) (value : α) :
    Except Error (HMMProbabilities α) :=
  match p.getEmissionResidueIndex residue with
  | Except.error e => Except.error e
  | Except.ok i =>
    Except.ok { p with
      emissionProbabilities := mapSet p.emissionProbabilities state i value
      logEmissionProbabilities :=
        mapSet p.logEmissionProbabilities state i (logVal log nan value) }

/-- `setInitiationProbability(state, value)`. -/
def setInitiationProbability [Zero α] [DecidableEq α] (log : α → α) (nan : α)
    (p : HMMProbabilities α) (state : Int) (value : α) : HMMProbabilities α :=
  { p with
    initiationProbabilities := arraySet p.initiationProbabilities state value
    logInitiationProbabilities :=
      arraySet p.logInitiationProbabilities state (logVal log nan value) }

/-- `setTransitionProbability(beginState, endState, value)`. -/
def setTransitionProbability [Zero α] [DecidableEq α] (log : α → α) (nan : α)
    (p : HMMProbabilities α) (beginState endState : Int) (value : α) : HMMProbabilities α :=
  { p with
    transitionProbabilities := arraySet2 p.transitionProbabilities beginState endState value
    logTransitionProbabilities :=
      arraySet2 p.logTransitionProbabilities beginState endState (logVal log nan value) }

/-- `factorial(value)` on the non-negative arguments it is called with. -/
def factorial : Nat → Int
  | 0 => 1
  | n + 1 => ((n + 1 : Nat) : Int) * factorial n

/-- `calculatePoissonProbability(mean, observedValue)`:
`pow(mean, observedValue) * exp(-mean) / factorial(observedValue)`. -/
def calculatePoissonProbability [Mul α] [Div α] [Neg α] [Pow α Nat] [IntCast α]
    (exp : α → α) (mean : α) (observedValue : Nat) : α :=
  (mean ^ observedValue * exp (-mean)) / ((factorial observedValue : Int) : α)

/-- `populateEmissionProbabilities(state, poissonMean)`. -/
def populateEmissionProbabilities [Zero α] [One α] [Add α] [Sub α] [Mul α] [Div α] [Neg α]
    [Pow α Nat] [IntCast α] [DecidableEq α] (log exp : α → α) (nan : α)
    (p : HMMProbabilities α) (state : Int) (poissonMean : α) :
    Except Error (HMMProbabilities α) :=
  let zeroProb := calculatePoissonProbability exp poissonMean 0
  match setEmissionProbability log nan p state "0" zeroProb with
  | Except.error e => Except.error e
  | Except.ok p0 =>
    let oneProb := calculatePoissonProbability exp poissonMean 1
    match setEmissionProbability log nan p0 state "1" oneProb with
    | Except.error e => Except.error e
    | Except.ok p1 =>
      let twoProb := calculatePoissonProbability exp poissonMean 2
      match setEmissionProbability log nan p1 state "2" twoProb with
      | Except.error e => Except.error e
      | Except.ok p2 =>
        let threeProb := 1 - (zeroProb + oneProb + twoProb)
        setEmissionProbability log nan p2 state "3" threeProb

/-- The object before a constructor body runs: the maps are empty, `numStates`
and the arrays hold whatever `mem` holds. -/
def uninitialized (mem : HMMProbabilities α) : HMMProbabilities α :=
  { mem with
    emissionResidueMap := fun _ => none
    emissionProbabilities := fun _ _ => none
    logEmissionProbabilities := fun _ _ => none }

/-- The constructor
`HMMProbabilities(normalLength, elevatedLength, normalMean, elevatedMean)`. -/
def new [Zero α] [One α] [Add α] [Sub α] [Mul α] [Div α] [Neg α]
    [Pow α Nat] [IntCast α] [DecidableEq α] (log exp : α → α) (nan : α)
    (mem : HMMProbabilities α) (normalLength elevatedLength : Int)
    (normalMean elevatedMean : α) : Except Error (HMMProbabilities α) :=
  let p0 := createEmissionResidueMap { uninitialized mem with numStates := 3 }
  let p1 := setTransitionProbability log nan p0 1 1 (1 - (1 / (normalLength : α)))
  let p2 := setTransitionProbability log nan p1 1 2 (1 / (normalLength : α))
  let p3 := setTransitionProbability log nan p2 2 1 (1 / (elevatedLength : α))
  let p4 := setTransitionProbability log nan p3 2 2 (1 - (1 / (elevatedLength : α)))
  match populateEmissionProbabilities log exp nan p4 1 normalMean with
  | Except.error e => Except.error e
  | Except.ok p5 => populateEmissionProbabilities log exp nan p5 2 elevatedMean

end HMMProbabilities

/-! ## DSegmentsFinder -/

/-- The struct `Segment`. -/
structure Segment (α : Type) where
  start : Int
  end_ : Int
  score : α

/-- The data members of `DSegmentsFinder`; the two `int[4]` arrays are indexed by `Fin 4`. -/
structure DSegmentsFinder (α : Type) where
  probabilities : HMMProbabilities α
  segments : List (Segment α)
  readStartCounts : Fin 4 → Int
  dSegmentReadStartCounts : Fin 4 → Int
  threshold : α

/-- The finder together with the local variables of `findDSegments` that the
loop carries from one line of the input to the next. -/
structure ScanState (α : Type) where
  finder : DSegmentsFinder α
  currentSegmentReadStartCounts : Fin 4 → Int
  cum : α
  max : α
  start : Int
  end_ : Int

/-- The clamping `if (readStarts > 3) readStarts = 3;`, as an array index. -/
def clampReadStarts (readStarts : Nat) : Fin 4 :=
  if h : readStarts > 3 then ⟨3, by decide⟩ else ⟨readStarts, by omega⟩

/-- The statement `counts[readStarts]++`. -/
def increment (counts : Fin 4 → Int) (readStarts : Fin 4) : Fin 4 → Int :=
  fun i => if i = readStarts then counts i + 1 else counts i

namespace DSegmentsFinder

variable {α : Type}

/-- The constructor `DSegmentsFinder(probs)`. -/
def new [Add α] [Sub α] [Div α] [OfNat α (nat_lit 2)] (log : α → α)
    (probs : HMMProbabilities α) : DSegmentsFinder α :=
  let sameSegProb := probs.logTransitionProbability 1 1 + probs.logTransitionProbability 2 2
  let switchSegProb := probs.logTransitionProbability 1 2 + probs.logTransitionProbability 2 1
  { probabilities := probs
    segments := []
    readStartCounts := fun _ => 0
    dSegmentReadStartCounts := fun _ => 0
    threshold := (sameSegProb - switchSegProb) / log 2 }

/-- The block that creates a segment from the open window, appends it and adds
the window counts to the D-segment counts (lines 93-102 and 117-126). -/
def emitSegment (s : ScanState α) : DSegmentsFinder α :=
  { s.finder with
    segments := s.finder.segments ++ [{ start := s.start, end_ := s.end_, score := s.max }]
    dSegmentReadStartCounts := fun i =>
      s.finder.dSegmentReadStartCounts i + s.currentSegmentReadStartCounts i }

/-- The local variables at loop entry (lines 55-63). -/
def initialState [Zero α] (finder : DSegmentsFinder α) : ScanState α :=
  { finder := finder
    currentSegmentReadStartCounts := fun _ => 0
    cum := 0
    max := 0
    start := 1
    end_ := 1 }

/-- The loop body (lines 73-112) for one line `(position, readStarts)`, given the
value `score` that `probabilities->dSegmentScore(readStarts)` returned. -/
def scanBody [Zero α] [Add α] [Sub α] [LE α] [∀ a b : α, Decidable (a ≤ b)]
    (s : ScanState α) (position : Int) (readStarts : Fin 4) (score : α) : ScanState α :=
  let readStartCounts := increment s.finder.readStartCounts readStarts
  let currentSegmentReadStartCounts := increment s.currentSegmentReadStartCounts readStarts
  let cum := s.cum + score
  let max := if cum ≥ s.max then cum else s.max
  let end_ := if cum ≥ s.max then position else s.end_
  let s1 : ScanState α :=
    { finder := { s.finder with readStartCounts := readStartCounts }
      currentSegmentReadStartCounts := currentSegmentReadStartCounts
      cum := cum
      max := max
      start := s.start
      end_ := end_ }
  if cum ≤ 0 ∨ cum ≤ max - s.finder.threshold then
    { finder := if max ≥ s.finder.threshold then emitSegment s1 else s1.finder
      currentSegmentReadStartCounts := fun _ => 0
      cum := 0
      max := 0
      start := position + 1
      end_ := position + 1 }
  else s1

/-- One iteration of the `while` loop: clamp the count, ask the model for the
score (the only call that can throw) and run the body. -/
def scanStep [Zero α] [Add α] [Sub α] [Mul α] [Div α] [OfNat α (nat_lit 2)] [LE α]
    [∀ a b : α, Decidable (a ≤ b)] (log : α → α)
    (s : ScanState α) (line : Int × Nat) : Except Error (ScanState α) :=
  let readStarts := clampReadStarts line.2
  match s.finder.probabilities.dSegmentScore log ((readStarts.val : Nat) : Int) with
  | Except.error e => Except.error e
  | Except.ok score => Except.ok (scanBody s line.1 readStarts score)

/-- The `while (getline ...)` loop over the lines of the input. -/
def scanLoop [Zero α] [Add α] [Sub α] [Mul α] [Div α] [OfNat α (nat_lit 2)] [LE α]
    [∀ a b : α, Decidable (a ≤ b)] (log : α → α) :
    ScanState α → List (Int × Nat) → Except Error (ScanState α)
  | s, [] => Except.ok s
  | s, line :: rest =>
    match scanStep log s line with
    | Except.error e => Except.error e
    | Except.ok s1 => scanLoop log s1 rest

/-- The check after the loop (lines 115-127). -/
def flush [LE α] [∀ a b : α, Decidable (a ≤ b)] (s : ScanState α) : DSegmentsFinder α :=
  if s.max ≥ s.finder.threshold then emitSegment s else s.finder

/-- `findDSegments`, on the parsed lines of the input file. -/
def findDSegments [Zero α] [Add α] [Sub α] [Mul α] [Div α] [OfNat α (nat_lit 2)] [LE α]
    [∀ a b : α, Decidable (a ≤ b)] (log : α → α)
    (finder : DSegmentsFinder α) (input : List (Int × Nat)) :
    Except Error (DSegmentsFinder α) :=
  match scanLoop log (initialState finder) input with
  | Except.error e => Except.error e
  | Except.ok s => Except.ok (flush s)

end DSegmentsFinder

/-! ## Auxiliary definitions used to state and prove the results -/

namespace DSegmentsFinder

variable {α : Type}

/-- The state after lines 73-88 of the loop body: counts incremented, score added,
running maximum and candidate end updated; the reset test not yet applied. -/
def advance [Add α] [LE α] [∀ a b : α, Decidable (a ≤ b)]
    (s : ScanState α) (position : Int) (readStarts : Fin 4) (score : α) : ScanState α :=
  { finder := { s.finder with readStartCounts := increment s.finder.readStartCounts readStarts }
    currentSegmentReadStartCounts := increment s.currentSegmentReadStartCounts readStarts
    cum := s.cum + score
    max := if s.cum + score ≥ s.max then s.cum + score else s.max
    start := s.start
    end_ := if s.cum + score ≥ s.max then position else s.end_ }

/-- The state after the reset on lines 105-111, with the finder as given. -/
def resetWindow [Zero α] (finder : DSegmentsFinder α) (position : Int) : ScanState α :=
  { finder := finder
    currentSegmentReadStartCounts := fun _ => 0
    cum := 0
    max := 0
    start := position + 1
    end_ := position + 1 }

/-- The test on line 91, on the state after lines 73-88. -/
def resetTest [Zero α] [Sub α] [LE α] (s : ScanState α) : Prop :=
  s.cum ≤ 0 ∨ s.cum ≤ s.max - s.finder.threshold

instance resetTest.decidable [Zero α] [Sub α] [LE α] [∀ a b : α, Decidable (a ≤ b)]
    (s : ScanState α) : Decidable (resetTest s) :=
  inferInstanceAs (Decidable (s.cum ≤ 0 ∨ s.cum ≤ s.max - s.finder.threshold))

end DSegmentsFinder

/-- The tables of a model that the four-parameter constructor has filled: the
residue map, the four transition entries with their log mirrors, and the emission entries of states 1
and 2 for the buckets 0..3. -/
structure HMMProbabilities.Built {α : Type} [Zero α] [One α] [Add α] [Sub α] [Mul α] [Div α]
    [Neg α] [Pow α Nat] [IntCast α] [DecidableEq α] (log exp : α → α) (nan : α)
    (normalLength elevatedLength : Int) (normalMean elevatedMean : α)
    (p : HMMProbabilities α) : Prop where
  r0 : p.emissionResidueMap "0" = some 0
  r1 : p.emissionResidueMap "1" = some 1
  r2 : p.emissionResidueMap "2" = some 2
  r3 : p.emissionResidueMap "3" = some 3
  t11 : p.transitionProbabilities 1 1 = 1 - (1 / (normalLength : α))
  t12 : p.transitionProbabilities 1 2 = 1 / (normalLength : α)
  t21 : p.transitionProbabilities 2 1 = 1 / (elevatedLength : α)
  t22 : p.transitionProbabilities 2 2 = 1 - (1 / (elevatedLength : α))
  l11 : p.logTransitionProbabilities 1 1 =
    HMMProbabilities.logVal log nan (1 - (1 / (normalLength : α)))
  l12 : p.logTransitionProbabilities 1 2 =
    HMMProbabilities.logVal log nan (1 / (normalLength : α))
  l21 : p.logTransitionProbabilities 2 1 =
    HMMProbabilities.logVal log nan (1 / (elevatedLength : α))
  l22 : p.logTransitionProbabilities 2 2 =
    HMMProbabilities.logVal log nan (1 - (1 / (elevatedLength : α)))
  e10 : p.emissionProbabilities 1 0 =
    some (HMMProbabilities.calculatePoissonProbability exp normalMean 0)
  e11 : p.emissionProbabilities 1 1 =
    some (HMMProbabilities.calculatePoissonProbability exp normalMean 1)
  e12 : p.emissionProbabilities 1 2 =
    some (HMMProbabilities.calculatePoissonProbability exp normalMean 2)
  e13 : p.emissionProbabilities 1 3 =
    some (1 - (HMMProbabilities.calculatePoissonProbability exp normalMean 0
      + HMMProbabilities.calculatePoissonProbability exp normalMean 1
      + HMMProbabilities.calculatePoissonProbability exp normalMean 2))
  e20 : p.emissionProbabilities 2 0 =
    some (HMMProbabilities.calculatePoissonProbability exp elevatedMean 0)
  e21 : p.emissionProbabilities 2 1 =
    some (HMMProbabilities.calculatePoissonProbability exp elevatedMean 1)
  e22 : p.emissionProbabilities 2 2 =
    some (HMMProbabilities.calculatePoissonProbability exp elevatedMean 2)
  e23 : p.emissionProbabilities 2 3 =
    some (1 - (HMMProbabilities.calculatePoissonProbability exp elevatedMean 0
      + HMMProbabilities.calculatePoissonProbability exp elevatedMean 1
      + HMMProbabilities.calculatePoissonProbability exp elevatedMean 2))

/-- A memory content for the object before construction: every array entry zero. -/
def HMMProbabilities.zeroMemory {α : Type} [Zero α] : HMMProbabilities α :=
  { numStates := 0
    emissionResidueMap := fun _ => none
    emissionProbabilities := fun _ _ => none
    logEmissionProbabilities := fun _ _ => none
    transitionProbabilities := fun _ _ => 0
    logTransitionProbabilities := fun _ _ => 0
    initiationProbabilities := fun _ => 0
    logInitiationProbabilities := fun _ => 0 }

/-- A small model for worked examples: the four-parameter constructor with both
lengths 3 (so `P11 = P22 = 2/3`, `P12 = P21 = 1/3`), after which the emission rows
are set through `setEmissionProbability` to `1/2, 1/4, 1/8, 1/8` for state 1 and
`1/4, 1/4, 1/4, 1/4` for state 2.  Its scores are `-1, 0, 1, 1` for the buckets
0..3 and its threshold is 2. -/
def exampleModel {α : Type} [Field α] [DecidableEq α] (log exp : α → α) (nan : α) :
    Except Error (HMMProbabilities α) :=
  HMMProbabilities.new log exp nan HMMProbabilities.zeroMemory 3 3 1 1 >>= fun p0 =>
  p0.setEmissionProbability log nan 1 "0" (1 / 2) >>= fun p1 =>
  p1.setEmissionProbability log nan 1 "1" (1 / 4) >>= fun p2 =>
  p2.setEmissionProbability log nan 1 "2" (1 / 8) >>= fun p3 =>
  p3.setEmissionProbability log nan 1 "3" (1 / 8) >>= fun p4 =>
  p4.setEmissionProbability log nan 2 "0" (1 / 4) >>= fun p5 =>
  p5.setEmissionProbability log nan 2 "1" (1 / 4) >>= fun p6 =>
  p6.setEmissionProbability log nan 2 "2" (1 / 4) >>= fun p7 =>
  p7.setEmissionProbability log nan 2 "3" (1 / 4)

/-- The input lines of a run of `n` observations that all have the count `count`,
at the contiguous positions `a + 1, ..., a + n`. -/
def constRun (count : Nat) : Int → Nat → List (Int × Nat)
  | _, 0 => []
  | a, n + 1 => (a + 1, count) :: constRun count (a + 1) n

/-- The input of C3: `m` observations of count 0, then `k` of count 3, then `n` of
count 0, at the contiguous positions `1, ..., m + k + n`. -/
def embeddedRun (m k n : Nat) : List (Int × Nat) :=
  constRun 0 0 m ++ (constRun 3 (m : Int) k ++ constRun 0 ((m : Int) + (k : Int)) n)

/-- The number of input lines whose position lies inside one of the segments
(`start ≤ position ≤ end`) and whose clamped count is the bucket `b`: what the
segment-restricted histogram is documented to hold. -/
def insideSegmentsCount {α : Type} (segments : List (Segment α)) (input : List (Int × Nat))
    (b : Fin 4) : Nat :=
  input.countP (fun line =>
    segments.any (fun seg => decide (seg.start ≤ line.1) && decide (line.1 ≤ seg.end_))
      && decide (clampReadStarts line.2 = b))

/-- The total length `end - start + 1` of the segments. -/
def totalLength {α : Type} (segments : List (Segment α)) : Int :=
  (segments.map (fun seg => seg.end_ - seg.start + 1)).sum

/-- The loop invariant behind C2, relative to the segment list `base` the scan
started from and the last position `p` read so far (0 before the first line). -/
def OrderedUpTo {α : Type} (base : List (Segment α)) (s : ScanState α) (p : Int) : Prop :=
  ∃ new, s.finder.segments = base ++ new ∧
    (∀ seg ∈ new, seg.start ≤ seg.end_ ∧ seg.end_ < s.start) ∧
    new.Pairwise (fun a b => a.end_ < b.start) ∧
    s.start ≤ s.end_ ∧ s.end_ ≤ p + 1 ∧ s.start ≤ p + 1

/-- The rounding of a segment score in `segmentsResultsString` (lines 219-223):
`score = (score * 10) + .05; score = floor(score); score = score / 10`. -/
def DSegmentsFinder.roundScore {α : Type} [LinearOrderedField α] [FloorRing α] (score : α) : α :=
  ((Int.floor (score * 10 + 5 / 100) : Int) : α) / 10

/-- Rounding half up at one decimal place, as the rounding law describes it:
the nearest multiple of `1/10`, a tie going up. -/
def roundHalfUp1 {α : Type} [LinearOrderedField α] [FloorRing α] (score : α) : α :=
  ((Int.floor (score * 10 + 1 / 2) : Int) : α) / 10

/-- The positions of the lines are `a + 1, a + 2, ...`: contiguous, with no gap. -/
def ContiguousFrom : Int → List (Int × Nat) → Prop
  | _, [] => True
  | a, line :: rest => line.1 = a + 1 ∧ ContiguousFrom (a + 1) rest

/-- The score the model gives to one input line: `dSegmentScore` of the clamped
count (0 where the lookup throws). -/
def lineScore {α : Type} [Zero α] [Mul α] [Div α] [Sub α] [OfNat α (nat_lit 2)] (log : α → α)
    (p : HMMProbabilities α) (line : Int × Nat) : α :=
  match p.dSegmentScore log (((clampReadStarts line.2).val : Nat) : Int) with
  | Except.ok v => v
  | Except.error _ => 0

/-- The sum of the scores of the input lines at the positions `first .. last`. -/
def windowScore {α : Type} [Zero α] [Add α] [Mul α] [Div α] [Sub α] [OfNat α (nat_lit 2)]
    (log : α → α) (p : HMMProbabilities α) (input : List (Int × Nat)) (first last : Int) : α :=
  ((input.filter (fun line => decide (first ≤ line.1) && decide (line.1 ≤ last))).map
    (lineScore log p)).sum

/-- Two scan states that run in step, one of a scan started on the finder `A` and
one of a scan started on `B`: same model, threshold and local variables, the same
segments appended so far, and the same amounts added to the two histograms. -/
def InStep {α : Type} (A B : DSegmentsFinder α) (s t : ScanState α) : Prop :=
  s.finder.probabilities = t.finder.probabilities ∧
  s.finder.threshold = t.finder.threshold ∧
  s.currentSegmentReadStartCounts = t.currentSegmentReadStartCounts ∧
  s.cum = t.cum ∧ s.max = t.max ∧ s.start = t.start ∧ s.end_ = t.end_ ∧
  (∃ new, s.finder.segments = A.segments ++ new ∧ t.finder.segments = B.segments ++ new) ∧
  (∀ b, s.finder.readStartCounts b - A.readStartCounts b
    = t.finder.readStartCounts b - B.readStartCounts b) ∧
  (∀ b, s.finder.dSegmentReadStartCounts b - A.dSegmentReadStartCounts b
    = t.finder.dSegmentReadStartCounts b - B.dSegmentReadStartCounts b)

/-- The segment `seg` is the best prefix of the window that runs from its start
to the position `r`, over the input lines `input`: its score is the sum of the line
scores at `start .. end`, no prefix `start .. q` of the window scores more, and
every prefix that ends after `end` scores strictly less. -/
def BestPrefix {α : Type} [LinearOrderedField α] (log : α → α) (p : HMMProbabilities α)
    (input : List (Int × Nat)) (seg : Segment α) (r : Int) : Prop :=
  seg.start ≤ seg.end_ ∧ seg.end_ ≤ r ∧ r ≤ (input.length : Int) ∧
  seg.score = windowScore log p input seg.start seg.end_ ∧
  ∀ q : Int, seg.start ≤ q → q ≤ r →
    windowScore log p input seg.start q ≤ seg.score ∧
    (seg.end_ < q → windowScore log p input seg.start q < seg.score)

/-- The window that ends at `r` was closed by the reset test of the loop: the
cumulative score at `r` is at most 0 or at most the segment score minus the
threshold. -/
def ClosedByReset {α : Type} [LinearOrderedField α] (log : α → α) (p : HMMProbabilities α)
    (thr : α) (input : List (Int × Nat)) (seg : Segment α) (r : Int) : Prop :=
  windowScore log p input seg.start r ≤ 0 ∨
    windowScore log p input seg.start r ≤ seg.score - thr

/-- The loop invariant behind C19, by positions, after the lines `pre` (at the positions
`1 .. pre.length`) have been read: the cumulative score is the window score up to
the last position, the window is either new or has its running maximum at the
candidate end as best prefix, and each segment appended so far is the best prefix
of a window closed by a reset. -/
def WindowInvariant {α : Type} [LinearOrderedField α] (log : α → α) (p : HMMProbabilities α)
    (thr : α) (base : List (Segment α)) (pre : List (Int × Nat)) (s : ScanState α) : Prop :=
  s.finder.probabilities = p ∧ s.finder.threshold = thr ∧
  (∀ line ∈ pre, line.1 ≤ (pre.length : Int)) ∧
  s.start ≤ (pre.length : Int) + 1 ∧
  s.cum = windowScore log p pre s.start (pre.length : Int) ∧
  ((s.cum = 0 ∧ s.max = 0 ∧ s.start = (pre.length : Int) + 1) ∨
    BestPrefix log p pre (Segment.mk s.start s.end_ s.max) (pre.length : Int)) ∧
  ∃ new, s.finder.segments = base ++ new ∧
    ∀ seg ∈ new, ∃ r, BestPrefix log p pre seg r ∧ ClosedByReset log p thr pre seg r

/-- The text that the loop of `segmentsResultsString` (lines 215-239) writes to the
stream after the text `acc`, for the segments from index `i` on.  The stream
insertions of an `int` and of a `double` are the parameters `showInt` and
`showScore`; `counter` equals `i` throughout. -/
def DSegmentsFinder.segmentsLoop {α : Type} [LinearOrderedField α] [FloorRing α]
    (showInt : Int → String) (showScore : α → String) :
    List (Segment α) → Nat → String → String
  | [], _, acc => acc
  | segment :: rest, i, acc =>
    let score := DSegmentsFinder.roundScore segment.score
    let acc1 := acc ++ "(" ++ showInt segment.start ++ "," ++ showInt segment.end_ ++ ","
      ++ showScore score ++ ")"
    let acc2 := if i > 0 then acc1 ++ "," else acc1
    let counter := i + 1
    let acc3 := if counter % 5 = 0 then acc2 ++ "\n" else acc2
    DSegmentsFinder.segmentsLoop showInt showScore rest (i + 1) acc3

/-- `segmentsResultsString`: the text of the loop, wrapped by
`StringUtilities::xmlResult("segment_list", ...)`, which is a parameter. -/
def DSegmentsFinder.segmentsResultsString {α : Type} [LinearOrderedField α] [FloorRing α]
    (showInt : Int → String) (showScore : α → String) (xmlResult : String → String → String)
    (finder : DSegmentsFinder α) : String :=
  xmlResult "segment_list"
    (DSegmentsFinder.segmentsLoop showInt showScore finder.segments 0 "")

/-- One rendered tuple `(start,end,score)`, the score rounded as the code rounds it. -/
def renderTuple {α : Type} [LinearOrderedField α] [FloorRing α]
    (showInt : Int → String) (showScore : α → String) (segment : Segment α) : String :=
  "(" ++ showInt segment.start ++ "," ++ showInt segment.end_ ++ ","
    ++ showScore (DSegmentsFinder.roundScore segment.score) ++ ")"

/-- The documented format `(s1start,s1end,s1score),(s2start,s2end,s2score),...`:
the tuples with one comma between consecutive ones and none after the last. -/
def documentedFormat {α : Type} [LinearOrderedField α] [FloorRing α]
    (showInt : Int → String) (showScore : α → String) (segments : List (Segment α)) : String :=
  ",".intercalate (segments.map (renderTuple showInt showScore))

/-- A counter that runs along the loop of `findDSegments`: the number of lines read
since the reset on lines 105-111 last ran (since the start, if it never ran).  The
argument `n` is its value before the lines `input` are read from the state `s`. -/
def DSegmentsFinder.observationsSinceReset {α : Type} [Zero α] [Add α] [Sub α] [Mul α]
    [Div α] [OfNat α (nat_lit 2)] [LE α] [∀ a b : α, Decidable (a ≤ b)] (log : α → α) :
    ScanState α → Nat → List (Int × Nat) → Except Error Nat
  | _, n, [] => Except.ok n
  | s, n, line :: rest =>
    match s.finder.probabilities.dSegmentScore log
        (((clampReadStarts line.2).val : Nat) : Int) with
    | Except.error e => Except.error e
    | Except.ok score =>
      DSegmentsFinder.observationsSinceReset log
        (DSegmentsFinder.scanBody s line.1 (clampReadStarts line.2) score)
        (if DSegmentsFinder.resetTest
            (DSegmentsFinder.advance s line.1 (clampReadStarts line.2) score)
          then 0 else n + 1) rest

/-! ## Floating-point special values -/

/-- The values of a C floating-point type as far as its special values matter: a
finite number (taken as an exact element of `α`; rounding and the sign of zero are
left out), the two infinities, and not-a-number. -/
inductive FloatValue (α : Type) where
  | finite (x : α) : FloatValue α
  | posInf : FloatValue α
  | negInf : FloatValue α
  | nan : FloatValue α
deriving DecidableEq

namespace FloatValue

variable {α : Type} [LinearOrderedField α]

/-- IEEE 754 multiplication on the special values: NaN propagates, `0 * inf` is NaN,
otherwise the signs multiply. -/
def mul : FloatValue α → FloatValue α → FloatValue α
  | finite x, finite y => finite (x * y)
  | finite x, posInf => if x = 0 then nan else if 0 < x then posInf else negInf
  | finite x, negInf => if x = 0 then nan else if 0 < x then negInf else posInf
  | finite _, nan => nan
  | posInf, finite y => if y = 0 then nan else if 0 < y then posInf else negInf
  | posInf, posInf => posInf
  | posInf, negInf => negInf
  | posInf, nan => nan
  | negInf, finite y => if y = 0 then nan else if 0 < y then negInf else posInf
  | negInf, posInf => negInf
  | negInf, negInf => posInf
  | negInf, nan => nan
  | nan, _ => nan

/-- IEEE 754 division on the special values: NaN propagates, `0 / 0` and `inf / inf`
are NaN, a non-zero number over zero is an infinity, a finite number over an
infinity is zero (zero is taken as `+0`). -/
def div : FloatValue α → FloatValue α → FloatValue α
  | finite x, finite y =>
    if y = 0 then (if x = 0 then nan else if 0 < x then posInf else negInf)
    else finite (x / y)
  | finite _, posInf => finite 0
  | finite _, negInf => finite 0
  | finite _, nan => nan
  | posInf, finite y => if 0 ≤ y then posInf else negInf
  | posInf, posInf => nan
  | posInf, negInf => nan
  | posInf, nan => nan
  | negInf, finite y => if 0 ≤ y then negInf else posInf
  | negInf, posInf => nan
  | negInf, negInf => nan
  | negInf, nan => nan
  | nan, _ => nan

/-- IEEE 754 addition on the special values: NaN propagates, `inf + (-inf)` is NaN,
an infinity absorbs every finite number. -/
def add : FloatValue α → FloatValue α → FloatValue α
  | finite x, finite y => finite (x + y)
  | finite _, posInf => posInf
  | finite _, negInf => negInf
  | finite _, nan => nan
  | posInf, finite _ => posInf
  | posInf, posInf => posInf
  | posInf, negInf => nan
  | posInf, nan => nan
  | negInf, finite _ => negInf
  | negInf, posInf => nan
  | negInf, negInf => negInf
  | negInf, nan => nan
  | nan, _ => nan

/-- IEEE 754 subtraction on the special values: NaN propagates, `inf - inf` is NaN. -/
def sub : FloatValue α → FloatValue α → FloatValue α
  | finite x, finite y => finite (x - y)
  | finite _, posInf => negInf
  | finite _, negInf => posInf
  | finite _, nan => nan
  | posInf, finite _ => posInf
  | posInf, posInf => nan
  | posInf, negInf => posInf
  | posInf, nan => nan
  | negInf, finite _ => negInf
  | negInf, posInf => negInf
  | negInf, negInf => nan
  | negInf, nan => nan
  | nan, _ => nan

/-- The C library function `log` on the special values (C11 F.10.3.7): `log(0)` is
`-inf`, the log of a negative number or of `-inf` is NaN, `log(+inf)` is `+inf`; on
a positive finite number it is the function `ln`. -/
def log (ln : α → α) : FloatValue α → FloatValue α
  | finite x => if x = 0 then negInf else if x < 0 then nan else finite (ln x)
  | posInf => posInf
  | negInf => nan
  | nan => nan

instance : Zero (FloatValue α) := ⟨finite 0⟩

instance : OfNat (FloatValue α) (nat_lit 2) := ⟨finite 2⟩

instance : Mul (FloatValue α) := ⟨mul⟩

instance : Div (FloatValue α) := ⟨div⟩

instance : Add (FloatValue α) := ⟨add⟩

instance : Sub (FloatValue α) := ⟨sub⟩

/-- The IEEE 754 comparison `a <= b`: false as soon as one side is NaN, `-inf` is
below and `+inf` above every number, and each infinity is `<=` itself. -/
def le : FloatValue α → FloatValue α → Prop
  | finite x, finite y => x ≤ y
  | finite _, posInf => True
  | finite _, negInf => False
  | finite _, nan => False
  | posInf, finite _ => False
  | posInf, posInf => True
  | posInf, negInf => False
  | posInf, nan => False
  | negInf, finite _ => True
  | negInf, posInf => True
  | negInf, negInf => True
  | negInf, nan => False
  | nan, _ => False

/-- The IEEE 754 comparison `a < b`: false as soon as one side is NaN, and no
infinity is below itself. -/
def lt : FloatValue α → FloatValue α → Prop
  | finite x, finite y => x < y
  | finite _, posInf => True
  | finite _, negInf => False
  | finite _, nan => False
  | posInf, finite _ => False
  | posInf, posInf => False
  | posInf, negInf => False
  | posInf, nan => False
  | negInf, finite _ => True
  | negInf, posInf => True
  | negInf, negInf => False
  | negInf, nan => False
  | nan, _ => False

instance : LE (FloatValue α) := ⟨le⟩

instance : LT (FloatValue α) := ⟨lt⟩

instance decidableLe : ∀ a b : FloatValue α, Decidable (a ≤ b)
  | finite x, finite y => inferInstanceAs (Decidable (x ≤ y))
  | finite _, posInf => isTrue trivial
  | finite _, negInf => isFalse not_false
  | finite _, nan => isFalse not_false
  | posInf, finite _ => isFalse not_false
  | posInf, posInf => isTrue trivial
  | posInf, negInf => isFalse not_false
  | posInf, nan => isFalse not_false
  | negInf, finite _ => isTrue trivial
  | negInf, posInf => isTrue trivial
  | negInf, negInf => isTrue trivial
  | negInf, nan => isFalse not_false
  | nan, _ => isFalse not_false

end FloatValue

/-- A model over floating-point values in which bucket 0 has the emission
probabilities `e1` (state 1) and `e2` (state 2), set through
`setEmissionProbability`, and both self-transition probabilities are `2/3`, set
through `setTransitionProbability`. -/
def zeroEmissionModel {α : Type} [LinearOrderedField α] (ln : α → α) (e1 e2 : α) :
    Except Error (HMMProbabilities (FloatValue α)) :=
  let p0 : HMMProbabilities (FloatValue α) :=
    HMMProbabilities.createEmissionResidueMap HMMProbabilities.zeroMemory
  let p1 := p0.setTransitionProbability (FloatValue.log ln) FloatValue.nan 1 1
    (FloatValue.finite (2 / 3))
  let p2 := p1.setTransitionProbability (FloatValue.log ln) FloatValue.nan 2 2
    (FloatValue.finite (2 / 3))
  p2.setEmissionProbability (FloatValue.log ln) FloatValue.nan 1 "0" (FloatValue.finite e1)
    >>= fun p3 =>
  p3.setEmissionProbability (FloatValue.log ln) FloatValue.nan 2 "0" (FloatValue.finite e2)

/-- The transition tables of `specialValuesModel`, written by
`setTransitionProbability` on the memory of a new object whose residue map has
been created: `P11 = P22 = 2/3`, `P12 = P21 = 1/3`. -/
def specialValuesTransitions {α : Type} [LinearOrderedField α] (ln : α → α) :
    HMMProbabilities (FloatValue α) :=
  let p0 : HMMProbabilities (FloatValue α) :=
    HMMProbabilities.createEmissionResidueMap HMMProbabilities.zeroMemory
  let p1 := p0.setTransitionProbability (FloatValue.log ln) FloatValue.nan 1 1
    (FloatValue.finite (2 / 3))
  let p2 := p1.setTransitionProbability (FloatValue.log ln) FloatValue.nan 1 2
    (FloatValue.finite (1 / 3))
  let p3 := p2.setTransitionProbability (FloatValue.log ln) FloatValue.nan 2 1
    (FloatValue.finite (1 / 3))
  p3.setTransitionProbability (FloatValue.log ln) FloatValue.nan 2 2
    (FloatValue.finite (2 / 3))

/-- A model over floating-point values with probabilities of exactly 0 in its
emission tables, all set through the setters.  Transitions: `P11 = P22 = 2/3`,
`P12 = P21 = 1/3`.  Emissions of state 1: `3/4, 0, 1/4, 0` for the buckets 0..3;
of state 2: `3/8, 0, 1/2, 1/8`.  Every row sums to 1. -/
def specialValuesModel {α : Type} [LinearOrderedField α] (ln : α → α) :
    Except Error (HMMProbabilities (FloatValue α)) :=
  (specialValuesTransitions ln).setEmissionProbability (FloatValue.log ln) FloatValue.nan
    1 "0" (FloatValue.finite (3 / 4)) >>= fun q1 =>
  q1.setEmissionProbability (FloatValue.log ln) FloatValue.nan 1 "1"
    (FloatValue.finite 0) >>= fun q2 =>
  q2.setEmissionProbability (FloatValue.log ln) FloatValue.nan 1 "2"
    (FloatValue.finite (1 / 4)) >>= fun q3 =>
  q3.setEmissionProbability (FloatValue.log ln) FloatValue.nan 1 "3"
    (FloatValue.finite 0) >>= fun q4 =>
  q4.setEmissionProbability (FloatValue.log ln) FloatValue.nan 2 "0"
    (FloatValue.finite (3 / 8)) >>= fun q5 =>
  q5.setEmissionProbability (FloatValue.log ln) FloatValue.nan 2 "1"
    (FloatValue.finite 0) >>= fun q6 =>
  q6.setEmissionProbability (FloatValue.log ln) FloatValue.nan 2 "2"
    (FloatValue.finite (1 / 2)) >>= fun q7 =>
  q7.setEmissionProbability (FloatValue.log ln) FloatValue.nan 2 "3"
    (FloatValue.finite (1 / 8))

/-- The position at which the window that follows the lines `before` starts: 1 at
the start of the input, else one past the position of the last line of `before`
(the line at which the loop reset, lines 108-109). -/
def windowStart (before : List (Int × Nat)) : Int :=
  match before.getLast? with
  | none => 1
  | some line => line.1 + 1

/-- The cumulative score of the lines `lines`: the sum of their scores. -/
def linesScore {α : Type} [Zero α] [Add α] [Mul α] [Div α] [Sub α] [OfNat α (nat_lit 2)]
    (log : α → α) (p : HMMProbabilities α) (lines : List (Int × Nat)) : α :=
  (lines.map (lineScore log p)).sum

/-- The segment `seg` is the best prefix of the lines `window`: it ends at the
position of the last line of a non-empty prefix `best` of the window, its score is
the cumulative score of `best`, the cumulative score of no prefix of the window is
higher, and the cumulative score of every longer prefix is lower. -/
def BestLines {α : Type} [LinearOrderedField α] (log : α → α) (p : HMMProbabilities α)
    (window : List (Int × Nat)) (seg : Segment α) : Prop :=
  ∃ (best : List (Int × Nat)) (last : Int × Nat),
    best <+: window ∧ best.getLast? = some last ∧ seg.end_ = last.1 ∧
    seg.score = linesScore log p best ∧
    (∀ w : List (Int × Nat), w <+: window → linesScore log p w ≤ seg.score) ∧
    (∀ w : List (Int × Nat), w <+: window → best.length < w.length →
      linesScore log p w < seg.score)

/-- The segment `seg` was emitted at a reset, after the lines `pre` of the input:
the lines split into those before its window, its window and those after it; the
window starts where the scan from `s0` was in a state with `cum = max = 0`, the
segment is the best prefix of the window, and the reset test held on the last line
of the window. -/
def ClosedLines {α : Type} [LinearOrderedField α] (log : α → α) (p : HMMProbabilities α)
    (thr : α) (s0 : ScanState α) (pre : List (Int × Nat)) (seg : Segment α) : Prop :=
  ∃ (before window after : List (Int × Nat)) (sb : ScanState α),
    pre = before ++ window ++ after ∧
    DSegmentsFinder.scanLoop log s0 before = Except.ok sb ∧ sb.cum = 0 ∧ sb.max = 0 ∧
    sb.start = seg.start ∧ (before ≠ [] → seg.start = windowStart before) ∧
    BestLines log p window seg ∧
    (linesScore log p window ≤ 0 ∨ linesScore log p window ≤ seg.score - thr)

/-- The loop invariant behind C20, after the lines `pre` have been read from the
state `s0`: the lines split into those up to the last reset and the open window,
the cumulative score is that of the open window, the open window is empty (with
running maximum 0) or has its running maximum at the candidate end as best prefix,
and each segment appended so far is the best prefix of a window closed by a
reset. -/
def LinesInvariant {α : Type} [LinearOrderedField α] (log : α → α) (p : HMMProbabilities α)
    (thr : α) (base : List (Segment α)) (s0 : ScanState α) (pre : List (Int × Nat))
    (s : ScanState α) : Prop :=
  s.finder.probabilities = p ∧ s.finder.threshold = thr ∧
  DSegmentsFinder.scanLoop log s0 pre = Except.ok s ∧
  (∃ (before window : List (Int × Nat)) (sb : ScanState α),
    pre = before ++ window ∧
    DSegmentsFinder.scanLoop log s0 before = Except.ok sb ∧ sb.cum = 0 ∧ sb.max = 0 ∧
    sb.start = s.start ∧ (before ≠ [] → s.start = windowStart before) ∧
    s.cum = linesScore log p window ∧
    ((window = [] ∧ s.max = 0) ∨ BestLines log p window (Segment.mk s.start s.end_ s.max))) ∧
  ∃ new, s.finder.segments = base ++ new ∧ ∀ seg ∈ new, ClosedLines log p thr s0 pre seg

/-! ## General facts about the scan -/

section ScanLemmas

variable {α : Type} [Zero α] [Add α] [Sub α] [LE α] [∀ a b : α, Decidable (a ≤ b)]

open DSegmentsFinder

theorem scanBody_eq (s : ScanState α) (position : Int) (readStarts : Fin 4) (score : α) :
    scanBody s position readStarts score =
      if resetTest (advance s position readStarts score) then
        resetWindow
          (if (advance s position readStarts score).max ≥ s.finder.threshold then
            emitSegment (advance s position readStarts score)
          else (advance s position readStarts score).finder) position
      else advance s position readStarts score := rfl

/-- Case analysis on the three ways the loop body can end. -/
theorem scanBody_cases (P : ScanState α → Prop) (s : ScanState α) (position : Int)
    (readStarts : Fin 4) (score : α)
    (hkeep : ¬ resetTest (advance s position readStarts score) →
      P (advance s position readStarts score))
    (hemit : resetTest (advance s position readStarts score) →
      s.finder.threshold ≤ (advance s position readStarts score).max →
      P (resetWindow (emitSegment (advance s position readStarts score)) position))
    (hdrop : resetTest (advance s position readStarts score) →
      ¬ s.finder.threshold ≤ (advance s position readStarts score).max →
      P (resetWindow (advance s position readStarts score).finder position)) :
    P (scanBody s position readStarts score) := by
  rw [scanBody_eq]
  by_cases h1 : resetTest (advance s position readStarts score)
  · rw [if_pos h1]
    by_cases h2 : s.finder.threshold ≤ (advance s position readStarts score).max
    · rw [if_pos h2]; exact hemit h1 h2
    · rw [if_neg h2]; exact hdrop h1 h2
  · rw [if_neg h1]; exact hkeep h1

/-- The scan never changes the model or the threshold. -/
theorem scanBody_threshold (s : ScanState α) (position : Int) (readStarts : Fin 4)
    (score : α) :
    (scanBody s position readStarts score).finder.threshold = s.finder.threshold ∧
    (scanBody s position readStarts score).finder.probabilities = s.finder.probabilities := by
  apply scanBody_cases (fun t => t.finder.threshold = s.finder.threshold ∧
    t.finder.probabilities = s.finder.probabilities) <;> intros <;> exact ⟨rfl, rfl⟩

variable [Mul α] [Div α] [OfNat α (nat_lit 2)]

theorem scanStep_ok (log : α → α) (s s1 : ScanState α) (line : Int × Nat)
    (h : scanStep log s line = Except.ok s1) :
    ∃ score, s.finder.probabilities.dSegmentScore log
        (((clampReadStarts line.2).val : Nat) : Int) = Except.ok score ∧
      s1 = scanBody s line.1 (clampReadStarts line.2) score := by
  unfold scanStep at h
  simp only at h
  split at h
  · cases h
  · rename_i score hs
    exact ⟨score, hs, by cases h; rfl⟩

theorem scanLoop_nil (log : α → α) (s : ScanState α) :
    scanLoop log s [] = Except.ok s := rfl

theorem scanLoop_cons_ok (log : α → α) (s s' : ScanState α) (line : Int × Nat)
    (rest : List (Int × Nat)) (h : scanLoop log s (line :: rest) = Except.ok s') :
    ∃ s1, scanStep log s line = Except.ok s1 ∧ scanLoop log s1 rest = Except.ok s' := by
  rw [scanLoop] at h
  split at h
  · cases h
  · rename_i s1 hs
    exact ⟨s1, hs, h⟩

/-- An invariant of the loop body is an invariant of the loop. -/
theorem scanLoop_invariant (log : α → α) (P : ScanState α → Prop)
    (hbody : ∀ s position readStarts score, P s → P (scanBody s position readStarts score)) :
    ∀ (input : List (Int × Nat)) (s s' : ScanState α),
      P s → scanLoop log s input = Except.ok s' → P s' := by
  intro input
  induction input with
  | nil =>
    intro s s' hP h
    rw [scanLoop_nil] at h
    cases h
    exact hP
  | cons line rest ih =>
    intro s s' hP h
    obtain ⟨s1, h1, h2⟩ := scanLoop_cons_ok log s s' line rest h
    obtain ⟨score, -, rfl⟩ := scanStep_ok log s s1 line h1
    exact ih _ _ (hbody _ _ _ _ hP) h2

theorem findDSegments_ok (log : α → α) (finder f' : DSegmentsFinder α)
    (input : List (Int × Nat)) (h : findDSegments log finder input = Except.ok f') :
    ∃ s, scanLoop log (initialState finder) input = Except.ok s ∧ f' = flush s := by
  unfold findDSegments at h
  split at h
  · cases h
  · rename_i s hs
    exact ⟨s, hs, by cases h; rfl⟩

end ScanLemmas

/-! ## The four-parameter constructor -/

section Constructor

variable {α : Type} [Zero α] [One α] [Add α] [Sub α] [Mul α] [Div α] [Neg α]
  [Pow α Nat] [IntCast α] [DecidableEq α]

open HMMProbabilities

theorem setEmissionProbability_created (log : α → α) (nan : α) (p : HMMProbabilities α)
    (state : Int) (residue : String) (value : α) (i : Int)
    (h : p.emissionResidueMap residue = some i) :
    setEmissionProbability log nan p state residue value =
      Except.ok { p with
        emissionProbabilities := mapSet p.emissionProbabilities state i value
        logEmissionProbabilities :=
          mapSet p.logEmissionProbabilities state i (logVal log nan value) } := by
  simp [setEmissionProbability, getEmissionResidueIndex, h]

/-- With the residue map of `createEmissionResidueMap` in place,
`populateEmissionProbabilities` succeeds and stores the four values. -/
theorem populateEmissionProbabilities_ok (log exp : α → α) (nan : α) (p : HMMProbabilities α)
    (state : Int) (poissonMean : α)
    (h0 : p.emissionResidueMap "0" = some 0) (h1 : p.emissionResidueMap "1" = some 1)
    (h2 : p.emissionResidueMap "2" = some 2) (h3 : p.emissionResidueMap "3" = some 3) :
    populateEmissionProbabilities log exp nan p state poissonMean =
      Except.ok { p with
        emissionProbabilities :=
          mapSet (mapSet (mapSet (mapSet p.emissionProbabilities
            state 0 (calculatePoissonProbability exp poissonMean 0))
            state 1 (calculatePoissonProbability exp poissonMean 1))
            state 2 (calculatePoissonProbability exp poissonMean 2))
            state 3 (1 - (calculatePoissonProbability exp poissonMean 0
              + calculatePoissonProbability exp poissonMean 1
              + calculatePoissonProbability exp poissonMean 2))
        logEmissionProbabilities :=
          mapSet (mapSet (mapSet (mapSet p.logEmissionProbabilities
            state 0 (logVal log nan (calculatePoissonProbability exp poissonMean 0)))
            state 1 (logVal log nan (calculatePoissonProbability exp poissonMean 1)))
            state 2 (logVal log nan (calculatePoissonProbability exp poissonMean 2)))
            state 3 (logVal log nan (1 - (calculatePoissonProbability exp poissonMean 0
              + calculatePoissonProbability exp poissonMean 1
              + calculatePoissonProbability exp poissonMean 2))) } := by
  simp [populateEmissionProbabilities, setEmissionProbability, getEmissionResidueIndex, h0, h1, h2, h3]

/-- The four-parameter constructor never throws, and fills the tables as `Built` says. -/
theorem HMMProbabilities.new_built (log exp : α → α) (nan : α) (mem : HMMProbabilities α)
    (normalLength elevatedLength : Int) (normalMean elevatedMean : α) :
    ∃ p, HMMProbabilities.new log exp nan mem normalLength elevatedLength normalMean
        elevatedMean = Except.ok p ∧
      HMMProbabilities.Built log exp nan normalLength elevatedLength normalMean elevatedMean p := by
  unfold HMMProbabilities.new
  simp only
  rw [populateEmissionProbabilities_ok _ _ _ _ _ _ rfl rfl rfl rfl]
  simp only
  rw [populateEmissionProbabilities_ok _ _ _ _ _ _ rfl rfl rfl rfl]
  refine ⟨_, rfl, ?_⟩
  constructor <;> simp [mapSet, arraySet2, setTransitionProbability, createEmissionResidueMap,
    uninitialized]

end Constructor

/-! ## Totality of the scan -/

section ScoreDefined

variable {α : Type} [Sub α] [Mul α] [Div α] [OfNat α (nat_lit 2)]

/-- The score lookup succeeds on the buckets 0..3 as soon as both emission rows
have the four entries. -/
theorem dSegmentScore_defined (log : α → α) (p : HMMProbabilities α)
    (h1 : ∀ b : Fin 4, (p.emissionProbabilities 1 ((b.val : Nat) : Int)).isSome)
    (h2 : ∀ b : Fin 4, (p.emissionProbabilities 2 ((b.val : Nat) : Int)).isSome)
    (b : Fin 4) : ∃ v, p.dSegmentScore log ((b.val : Nat) : Int) = Except.ok v := by
  obtain ⟨e1, he1⟩ := Option.isSome_iff_exists.mp (h1 b)
  obtain ⟨e2, he2⟩ := Option.isSome_iff_exists.mp (h2 b)
  simp [HMMProbabilities.dSegmentScore, mapAt, he1, he2]

end ScoreDefined

section Totality

variable {α : Type} [Zero α] [Add α] [Sub α] [Mul α] [Div α] [OfNat α (nat_lit 2)] [LE α]
  [∀ a b : α, Decidable (a ≤ b)]

open DSegmentsFinder

theorem scanLoop_total (log : α → α) (input : List (Int × Nat)) :
    ∀ s : ScanState α,
      (∀ b : Fin 4, ∃ v, s.finder.probabilities.dSegmentScore log ((b.val : Nat) : Int)
        = Except.ok v) →
      ∃ s', scanLoop log s input = Except.ok s' := by
  induction input with
  | nil => intro s _; exact ⟨s, rfl⟩
  | cons line rest ih =>
    intro s hdef
    obtain ⟨v, hv⟩ := hdef (clampReadStarts line.2)
    have hstep : scanStep log s line =
        Except.ok (scanBody s line.1 (clampReadStarts line.2) v) := by
      simp [scanStep, hv]
    obtain ⟨s', hs'⟩ := ih (scanBody s line.1 (clampReadStarts line.2) v) (by
      rw [(scanBody_threshold s line.1 (clampReadStarts line.2) v).2]; exact hdef)
    exact ⟨s', by rw [scanLoop, hstep]; exact hs'⟩

/-- The scan returns normally whenever the model can score the buckets 0..3. -/
theorem findDSegments_total (log : α → α) (finder : DSegmentsFinder α)
    (input : List (Int × Nat))
    (hdef : ∀ b : Fin 4, ∃ v, finder.probabilities.dSegmentScore log ((b.val : Nat) : Int)
      = Except.ok v) :
    ∃ f', findDSegments log finder input = Except.ok f' := by
  obtain ⟨s', hs'⟩ := scanLoop_total log input (initialState finder) hdef
  exact ⟨flush s', by simp [findDSegments, hs']⟩

end Totality

/-! ## C1: emitted segments meet the threshold -/

section C1

variable {α : Type} [Zero α] [Add α] [Sub α] [Mul α] [Div α] [OfNat α (nat_lit 2)] [LE α]
  [∀ a b : α, Decidable (a ≤ b)]

open DSegmentsFinder

/-- C1. Every segment that `findDSegments` appends to the segment list, at a reset
step or at the end-of-input flush, has `score ≥ threshold`: the list after the scan
is the list before it followed by segments whose score is at least the threshold. -/
theorem C1_appended_segments_meet_threshold (log : α → α) (finder f' : DSegmentsFinder α)
    (input : List (Int × Nat)) (h : findDSegments log finder input = Except.ok f') :
    ∃ new, f'.segments = finder.segments ++ new ∧
      ∀ seg ∈ new, seg.score ≥ finder.threshold := by
  obtain ⟨s, hs, rfl⟩ := findDSegments_ok log finder f' input h
  have hinv := scanLoop_invariant log
    (fun t : ScanState α => t.finder.threshold = finder.threshold ∧
      ∃ new, t.finder.segments = finder.segments ++ new ∧
        ∀ seg ∈ new, seg.score ≥ finder.threshold)
    (by
      intro t position readStarts score ⟨hthr, new, hseg, hall⟩
      refine scanBody_cases (fun u : ScanState α => u.finder.threshold = finder.threshold ∧
        ∃ new, u.finder.segments = finder.segments ++ new ∧
          ∀ seg ∈ new, seg.score ≥ finder.threshold) t position readStarts score ?_ ?_ ?_
      · intro _; exact ⟨hthr, new, hseg, hall⟩
      · intro _ hmax
        refine ⟨hthr, new ++ [Segment.mk (advance t position readStarts score).start
          (advance t position readStarts score).end_
          (advance t position readStarts score).max], ?_, ?_⟩
        · simp only [resetWindow, emitSegment, advance, hseg, List.append_assoc]
        · intro seg hmem
          rcases List.mem_append.mp hmem with hm | hm
          · exact hall seg hm
          · rw [List.mem_singleton.mp hm, ← hthr]; exact hmax
      · intro _ _; exact ⟨hthr, new, hseg, hall⟩)
    input (initialState finder) s ⟨rfl, [], by simp [initialState], by simp⟩ hs
  obtain ⟨hthr, new, hseg, hall⟩ := hinv
  unfold flush
  split
  · rename_i hmax
    refine ⟨new ++ [Segment.mk s.start s.end_ s.max], ?_, ?_⟩
    · simp only [emitSegment, hseg, List.append_assoc]
    · intro seg hmem
      rcases List.mem_append.mp hmem with hm | hm
      · exact hall seg hm
      · rw [List.mem_singleton.mp hm, ← hthr]; exact hmax
  · exact ⟨new, hseg, hall⟩

end C1

section BuiltModel

variable {α : Type} [Zero α] [One α] [Add α] [Sub α] [Mul α] [Div α] [Neg α]
  [Pow α Nat] [IntCast α] [DecidableEq α] [OfNat α (nat_lit 2)]

/-- A model filled by the four-parameter constructor scores every bucket 0..3. -/
theorem HMMProbabilities.Built.score_defined {log exp : α → α} {nan : α}
    {normalLength elevatedLength : Int} {normalMean elevatedMean : α}
    {p : HMMProbabilities α}
    (hp : HMMProbabilities.Built log exp nan normalLength elevatedLength normalMean
      elevatedMean p) (log' : α → α) (b : Fin 4) :
    ∃ v, p.dSegmentScore log' ((b.val : Nat) : Int) = Except.ok v := by
  apply dSegmentScore_defined
  · intro c
    fin_cases c
    · simp [hp.e10]
    · simp [hp.e11]
    · simp [hp.e12]
    · simp [hp.e13]
  · intro c
    fin_cases c
    · simp [hp.e20]
    · simp [hp.e21]
    · simp [hp.e22]
    · simp [hp.e23]

end BuiltModel

/-! ## C2: emitted segments are well-formed, ordered and disjoint -/

section C2

variable {α : Type} [Zero α] [Add α] [Sub α] [LE α] [∀ a b : α, Decidable (a ≤ b)]

open DSegmentsFinder

theorem scanBody_orderedUpTo (base : List (Segment α)) (s : ScanState α) (p position : Int)
    (readStarts : Fin 4) (score : α) (hinv : OrderedUpTo base s p) (hlt : p < position) :
    OrderedUpTo base (scanBody s position readStarts score) position := by
  obtain ⟨new, hseg, hall, hpair, hse, hep, hsp⟩ := hinv
  have hend : (advance s position readStarts score).end_ ≤ position ∧
      s.start ≤ (advance s position readStarts score).end_ := by
    unfold advance
    simp only
    split
    · exact ⟨le_refl _, by omega⟩
    · exact ⟨by omega, hse⟩
  refine scanBody_cases (fun u => OrderedUpTo base u position) s position readStarts score
    ?_ ?_ ?_
  · intro _
    exact ⟨new, hseg, hall, hpair, hend.2, by have := hend.1; omega,
      by show s.start ≤ position + 1; omega⟩
  · intro _ _
    refine ⟨new ++ [Segment.mk (advance s position readStarts score).start
      (advance s position readStarts score).end_
      (advance s position readStarts score).max], ?_, ?_, ?_, ?_, ?_, ?_⟩
    · simp only [resetWindow, emitSegment, advance, hseg, List.append_assoc]
    · intro seg hmem
      show seg.start ≤ seg.end_ ∧ seg.end_ < position + 1
      rcases List.mem_append.mp hmem with hm | hm
      · have := hall seg hm
        exact ⟨this.1, by omega⟩
      · rw [List.mem_singleton.mp hm]
        exact ⟨hend.2, by have := hend.1; show (advance s position readStarts score).end_ < _; omega⟩
    · rw [List.pairwise_append]
      refine ⟨hpair, List.pairwise_singleton _ _, ?_⟩
      intro a ha b hb
      rw [List.mem_singleton.mp hb]
      exact (hall a ha).2
    · exact le_refl _
    · exact le_refl _
    · exact le_refl _
  · intro _ _
    refine ⟨new, hseg, ?_, hpair, le_refl _, le_refl _, le_refl _⟩
    intro seg hm
    have := hall seg hm
    exact ⟨this.1, by show seg.end_ < position + 1; omega⟩

end C2

section C2Loop

variable {α : Type} [Zero α] [Add α] [Sub α] [Mul α] [Div α] [OfNat α (nat_lit 2)] [LE α]
  [∀ a b : α, Decidable (a ≤ b)]

open DSegmentsFinder

theorem scanLoop_orderedUpTo (log : α → α) (base : List (Segment α)) :
    ∀ (input : List (Int × Nat)) (s s' : ScanState α) (p : Int),
      OrderedUpTo base s p → (∀ line ∈ input, p < line.1) →
      input.Pairwise (fun a b => a.1 < b.1) →
      scanLoop log s input = Except.ok s' → ∃ p', OrderedUpTo base s' p' := by
  intro input
  induction input with
  | nil =>
    intro s s' p hinv _ _ h
    rw [scanLoop_nil] at h
    cases h
    exact ⟨p, hinv⟩
  | cons line rest ih =>
    intro s s' p hinv hgt hinc h
    obtain ⟨s1, h1, h2⟩ := scanLoop_cons_ok log s s' line rest h
    obtain ⟨score, -, rfl⟩ := scanStep_ok log s s1 line h1
    rw [List.pairwise_cons] at hinc
    exact ih _ _ line.1
      (scanBody_orderedUpTo base s p line.1 _ score hinv (hgt line (List.mem_cons_self _ _)))
      (fun l hl => hinc.1 l hl) hinc.2 h2

/-- C2. On an input whose positions are strictly increasing and at least 1, every
segment the scan appends has `start ≤ end`, and of any two appended segments the
earlier one ends strictly before the later one starts (in particular consecutive
ones), so the segments are in increasing order of start and never overlap. -/
theorem C2_segments_ordered_disjoint (log : α → α) (finder f' : DSegmentsFinder α)
    (input : List (Int × Nat)) (hpos : ∀ line ∈ input, 1 ≤ line.1)
    (hinc : input.Pairwise (fun a b => a.1 < b.1))
    (h : findDSegments log finder input = Except.ok f') :
    ∃ new, f'.segments = finder.segments ++ new ∧
      (∀ seg ∈ new, seg.start ≤ seg.end_) ∧
      new.Chain' (fun a b => a.end_ < b.start) ∧
      new.Pairwise (fun a b => a.end_ < b.start) ∧
      new.Pairwise (fun a b => a.start < b.start) := by
  obtain ⟨s, hs, rfl⟩ := findDSegments_ok log finder f' input h
  have h0 : OrderedUpTo finder.segments (initialState finder) 0 :=
    ⟨[], by simp [initialState], by simp, List.Pairwise.nil,
      by simp [initialState], by simp [initialState], by simp [initialState]⟩
  obtain ⟨p', new, hseg, hall, hpair, hse, -, -⟩ :=
    scanLoop_orderedUpTo log finder.segments input _ s 0 h0
      (fun l hl => by have := hpos l hl; omega) hinc hs
  have key : ∀ new' : List (Segment α), (∀ seg ∈ new', seg.start ≤ seg.end_) →
      new'.Pairwise (fun a b => a.end_ < b.start) →
      (∀ seg ∈ new', seg.start ≤ seg.end_) ∧
      new'.Chain' (fun a b => a.end_ < b.start) ∧
      new'.Pairwise (fun a b => a.end_ < b.start) ∧
      new'.Pairwise (fun a b => a.start < b.start) := by
    intro new' hwf hpw
    refine ⟨hwf, hpw.chain', hpw, ?_⟩
    have hand := List.Pairwise.and_mem.mp hpw
    refine hand.imp ?_
    intro a b hab
    have := hwf a hab.1
    omega
  unfold flush
  split
  · refine ⟨new ++ [Segment.mk s.start s.end_ s.max], ?_, ?_⟩
    · simp only [emitSegment, hseg, List.append_assoc]
    · apply key
      · intro seg hmem
        rcases List.mem_append.mp hmem with hm | hm
        · exact (hall seg hm).1
        · rw [List.mem_singleton.mp hm]; exact hse
      · rw [List.pairwise_append]
        refine ⟨hpair, List.pairwise_singleton _ _, ?_⟩
        intro a ha b hb
        rw [List.mem_singleton.mp hb]
        exact (hall a ha).2
  · exact ⟨new, hseg, key new (fun seg hm => (hall seg hm).1) hpair⟩

end C2Loop

/-! ## C8 and C6: the two histograms -/

section Histograms

variable {α : Type} [Zero α] [Add α] [Sub α] [LE α] [∀ a b : α, Decidable (a ≤ b)]

open DSegmentsFinder

theorem clampReadStarts_val (n : Nat) : (clampReadStarts n).val = min n 3 := by
  unfold clampReadStarts
  split
  · simp only; omega
  · simp only; omega

theorem scanBody_readStartCounts (s : ScanState α) (position : Int) (readStarts : Fin 4)
    (score : α) :
    (scanBody s position readStarts score).finder.readStartCounts =
      increment s.finder.readStartCounts readStarts := by
  refine scanBody_cases (fun u => u.finder.readStartCounts =
    increment s.finder.readStartCounts readStarts) s position readStarts score ?_ ?_ ?_ <;>
  intros <;> rfl

theorem flush_readStartCounts (s : ScanState α) :
    (flush s).readStartCounts = s.finder.readStartCounts := by
  unfold flush
  split <;> rfl

/-- The invariant behind C6: the D-segment counts plus the counts of the open
window never exceed the global counts. -/
theorem scanBody_counts_le (s : ScanState α) (position : Int) (readStarts : Fin 4)
    (score : α)
    (hinv : ∀ b, 0 ≤ s.currentSegmentReadStartCounts b ∧
      s.finder.dSegmentReadStartCounts b + s.currentSegmentReadStartCounts b
        ≤ s.finder.readStartCounts b) :
    ∀ b, 0 ≤ (scanBody s position readStarts score).currentSegmentReadStartCounts b ∧
      (scanBody s position readStarts score).finder.dSegmentReadStartCounts b
        + (scanBody s position readStarts score).currentSegmentReadStartCounts b
        ≤ (scanBody s position readStarts score).finder.readStartCounts b := by
  have hadv : ∀ b, 0 ≤ increment s.currentSegmentReadStartCounts readStarts b ∧
      s.finder.dSegmentReadStartCounts b + increment s.currentSegmentReadStartCounts readStarts b
        ≤ increment s.finder.readStartCounts readStarts b := by
    intro b
    have := hinv b
    unfold increment
    split <;> constructor <;> omega
  refine scanBody_cases (fun u => ∀ b, 0 ≤ u.currentSegmentReadStartCounts b ∧
    u.finder.dSegmentReadStartCounts b + u.currentSegmentReadStartCounts b
      ≤ u.finder.readStartCounts b) s position readStarts score ?_ ?_ ?_
  · intro _ b; exact hadv b
  · intro _ _ b
    have := hadv b
    simp only [resetWindow, emitSegment, advance]
    omega
  · intro _ _ b
    have := hadv b
    simp only [resetWindow, advance]
    omega

end Histograms

section HistogramsLoop

variable {α : Type} [Zero α] [Add α] [Sub α] [Mul α] [Div α] [OfNat α (nat_lit 2)] [LE α]
  [∀ a b : α, Decidable (a ≤ b)]

open DSegmentsFinder

theorem scanLoop_readStartCounts (log : α → α) :
    ∀ (input : List (Int × Nat)) (s s' : ScanState α),
      scanLoop log s input = Except.ok s' →
      ∀ b : Fin 4, s'.finder.readStartCounts b =
        s.finder.readStartCounts b + (input.countP (fun line => min line.2 3 = b.val) : Nat) := by
  intro input
  induction input with
  | nil =>
    intro s s' h b
    rw [scanLoop_nil] at h
    cases h
    simp
  | cons line rest ih =>
    intro s s' h b
    obtain ⟨s1, h1, h2⟩ := scanLoop_cons_ok log s s' line rest h
    obtain ⟨score, -, rfl⟩ := scanStep_ok log s s1 line h1
    rw [ih _ _ h2 b, scanBody_readStartCounts, List.countP_cons]
    unfold increment
    by_cases hb : b = clampReadStarts line.2
    · have hv : min line.2 3 = b.val := by rw [hb, clampReadStarts_val]
      simp only [hb, if_true, clampReadStarts_val, decide_True]
      push_cast
      omega
    · have hv : ¬ min line.2 3 = b.val := by
        intro hc
        apply hb
        apply Fin.ext
        rw [clampReadStarts_val, hc]
      simp only [if_neg hb, hv, decide_False, Bool.false_eq_true, if_false]
      push_cast
      omega

theorem increment_sum (counts : Fin 4 → Int) (readStarts : Fin 4) :
    increment counts readStarts 0 + increment counts readStarts 1
      + increment counts readStarts 2 + increment counts readStarts 3
      = counts 0 + counts 1 + counts 2 + counts 3 + 1 := by
  fin_cases readStarts <;> simp [increment] <;> omega

theorem scanLoop_readStartCounts_sum (log : α → α) :
    ∀ (input : List (Int × Nat)) (s s' : ScanState α),
      scanLoop log s input = Except.ok s' →
      s'.finder.readStartCounts 0 + s'.finder.readStartCounts 1
        + s'.finder.readStartCounts 2 + s'.finder.readStartCounts 3
      = s.finder.readStartCounts 0 + s.finder.readStartCounts 1
        + s.finder.readStartCounts 2 + s.finder.readStartCounts 3 + (input.length : Nat) := by
  intro input
  induction input with
  | nil =>
    intro s s' h
    rw [scanLoop_nil] at h
    cases h
    simp
  | cons line rest ih =>
    intro s s' h
    obtain ⟨s1, h1, h2⟩ := scanLoop_cons_ok log s s' line rest h
    obtain ⟨score, -, rfl⟩ := scanStep_ok log s s1 line h1
    rw [ih _ _ h2, scanBody_readStartCounts, increment_sum, List.length_cons]
    push_cast
    omega

/-- C8. After scanning with a freshly constructed finder, the global histogram at
bucket `b` is the number of input lines whose count clamped to `min count 3` is
`b`.  So bucket 3 counts exactly the lines with a count of 3 or more, and the four
buckets sum to the number of lines. -/
theorem C8_global_histogram_counts_clamped (log : α → α) (probs : HMMProbabilities α)
    (f' : DSegmentsFinder α) (input : List (Int × Nat))
    (h : findDSegments log (DSegmentsFinder.new log probs) input = Except.ok f') :
    (∀ b : Fin 4, f'.readStartCounts b =
      (input.countP (fun line => min line.2 3 = b.val) : Nat)) ∧
    f'.readStartCounts 3 = (input.countP (fun line => 3 ≤ line.2) : Nat) ∧
    f'.readStartCounts 0 + f'.readStartCounts 1 + f'.readStartCounts 2
      + f'.readStartCounts 3 = (input.length : Nat) := by
  obtain ⟨s, hs, rfl⟩ := findDSegments_ok log _ f' input h
  have hcount : ∀ b : Fin 4, (flush s).readStartCounts b =
      (input.countP (fun line => min line.2 3 = b.val) : Nat) := by
    intro b
    rw [flush_readStartCounts, scanLoop_readStartCounts log input _ s hs b]
    simp [initialState, DSegmentsFinder.new]
  refine ⟨hcount, ?_, ?_⟩
  · rw [hcount 3]
    congr 1
    apply List.countP_congr
    intro line _
    have h3 : ((3 : Fin 4).val) = 3 := rfl
    simp only [h3, decide_eq_true_eq]
    omega
  · have := scanLoop_readStartCounts_sum log input _ s hs
    rw [flush_readStartCounts, this]
    simp [initialState, DSegmentsFinder.new]

/-- C6. For a freshly constructed finder, after the scan of any input, and in the
state the loop has reached after any prefix of it, the segment-restricted
histogram is at most the global histogram in each of the four buckets. -/
theorem C6_segment_histogram_le_global (log : α → α) (probs : HMMProbabilities α)
    (input : List (Int × Nat)) :
    (∀ f', findDSegments log (DSegmentsFinder.new log probs) input = Except.ok f' →
      ∀ b : Fin 4, f'.dSegmentReadStartCounts b ≤ f'.readStartCounts b) ∧
    (∀ pre s, pre <+: input →
      scanLoop log (initialState (DSegmentsFinder.new log probs)) pre = Except.ok s →
      ∀ b : Fin 4, s.finder.dSegmentReadStartCounts b ≤ s.finder.readStartCounts b) := by
  have hloop : ∀ (pre : List (Int × Nat)) (s : ScanState α),
      scanLoop log (initialState (DSegmentsFinder.new log probs)) pre = Except.ok s →
      ∀ b, 0 ≤ s.currentSegmentReadStartCounts b ∧
        s.finder.dSegmentReadStartCounts b + s.currentSegmentReadStartCounts b
          ≤ s.finder.readStartCounts b := by
    intro pre s hs
    exact scanLoop_invariant log
      (fun u => ∀ b, 0 ≤ u.currentSegmentReadStartCounts b ∧
        u.finder.dSegmentReadStartCounts b + u.currentSegmentReadStartCounts b
          ≤ u.finder.readStartCounts b)
      (fun u position readStarts score hu => scanBody_counts_le u position readStarts score hu)
      pre _ s (by intro b; simp [initialState, DSegmentsFinder.new]) hs
  constructor
  · intro f' h b
    obtain ⟨s, hs, rfl⟩ := findDSegments_ok log _ f' input h
    have := hloop input s hs b
    unfold flush
    split
    · simp only [emitSegment]; omega
    · omega
  · intro pre s _ hs b
    have := hloop pre s hs b
    omega

end HistogramsLoop

/-! ## C9 and C10: the threshold and the per-bucket score, over the reals -/

/-- The setter leaves the log mirror of the entry it wrote in step with the entry. -/
theorem setTransitionProbability_synced {α : Type} [Zero α] [DecidableEq α] (log : α → α)
    (nan : α) (p : HMMProbabilities α) (i j : Int) (value : α) :
    (HMMProbabilities.setTransitionProbability log nan p i j value).transitionProbabilities i j
      = value ∧
    (HMMProbabilities.setTransitionProbability log nan p i j value).logTransitionProbabilities i j
      = HMMProbabilities.logVal log nan value := by
  simp [HMMProbabilities.setTransitionProbability, arraySet2]

/-- C9. For a model whose four transition entries between states 1 and 2 are
positive and whose log mirrors hold what the setter stores for them, the threshold
computed by the `DSegmentsFinder` constructor is
`log2 (P11 * P22) - log2 (P12 * P21)`, which is
`(log2 P11 + log2 P22) - (log2 P12 + log2 P21)`. -/
theorem C9_threshold_is_log2_odds (nan : ℝ) (p : HMMProbabilities ℝ)
    (h11 : 0 < p.transitionProbability 1 1) (h22 : 0 < p.transitionProbability 2 2)
    (h12 : 0 < p.transitionProbability 1 2) (h21 : 0 < p.transitionProbability 2 1)
    (s11 : p.logTransitionProbability 1 1 =
      HMMProbabilities.logVal Real.log nan (p.transitionProbability 1 1))
    (s22 : p.logTransitionProbability 2 2 =
      HMMProbabilities.logVal Real.log nan (p.transitionProbability 2 2))
    (s12 : p.logTransitionProbability 1 2 =
      HMMProbabilities.logVal Real.log nan (p.transitionProbability 1 2))
    (s21 : p.logTransitionProbability 2 1 =
      HMMProbabilities.logVal Real.log nan (p.transitionProbability 2 1)) :
    (DSegmentsFinder.new Real.log p).threshold =
      Real.logb 2 (p.transitionProbability 1 1 * p.transitionProbability 2 2)
        - Real.logb 2 (p.transitionProbability 1 2 * p.transitionProbability 2 1) ∧
    (DSegmentsFinder.new Real.log p).threshold =
      (Real.logb 2 (p.transitionProbability 1 1) + Real.logb 2 (p.transitionProbability 2 2))
        - (Real.logb 2 (p.transitionProbability 1 2)
          + Real.logb 2 (p.transitionProbability 2 1)) := by
  have e : (DSegmentsFinder.new Real.log p).threshold =
      (p.logTransitionProbability 1 1 + p.logTransitionProbability 2 2
        - (p.logTransitionProbability 1 2 + p.logTransitionProbability 2 1)) / Real.log 2 := rfl
  rw [e, s11, s22, s12, s21]
  simp only [HMMProbabilities.logVal, if_neg (ne_of_gt h11), if_neg (ne_of_gt h22),
    if_neg (ne_of_gt h12), if_neg (ne_of_gt h21)]
  rw [Real.logb_mul (ne_of_gt h11) (ne_of_gt h22), Real.logb_mul (ne_of_gt h12) (ne_of_gt h21)]
  simp only [Real.logb]
  constructor <;> ring

/-- C10. For a bucket whose emission entries in states 1 and 2 exist and are
positive, with positive self-transition entries, `dSegmentScore` returns
`(log2 P(b | 2) + log2 P(2→2)) - (log2 P(b | 1) + log2 P(1→1))`. -/
theorem C10_dSegmentScore_is_log2_ratio (p : HMMProbabilities ℝ) (b : Fin 4) (e1 e2 : ℝ)
    (he1 : p.emissionProbabilities 1 ((b.val : Nat) : Int) = some e1)
    (he2 : p.emissionProbabilities 2 ((b.val : Nat) : Int) = some e2)
    (hpos1 : 0 < e1) (hpos2 : 0 < e2)
    (h11 : 0 < p.transitionProbability 1 1) (h22 : 0 < p.transitionProbability 2 2) :
    p.dSegmentScore Real.log ((b.val : Nat) : Int) =
      Except.ok ((Real.logb 2 e2 + Real.logb 2 (p.transitionProbability 2 2))
        - (Real.logb 2 e1 + Real.logb 2 (p.transitionProbability 1 1))) := by
  simp only [HMMProbabilities.dSegmentScore, mapAt, he1, he2]
  rw [Real.log_mul (ne_of_gt hpos1) (ne_of_gt h11), Real.log_mul (ne_of_gt hpos2) (ne_of_gt h22)]
  simp only [Real.logb]
  congr 1
  ring

/-- The transition entries of the driver's model (lengths 1000000 and 10000). -/
theorem driver_transitions {log exp : ℝ → ℝ} {nan normalMean elevatedMean : ℝ}
    {p : HMMProbabilities ℝ}
    (hp : HMMProbabilities.Built log exp nan 1000000 10000 normalMean elevatedMean p) :
    p.transitionProbability 1 1 = 999999 / 1000000 ∧
    p.transitionProbability 1 2 = 1 / 1000000 ∧
    p.transitionProbability 2 1 = 1 / 10000 ∧
    p.transitionProbability 2 2 = 9999 / 10000 := by
  refine ⟨?_, ?_, ?_, ?_⟩
  · show p.transitionProbabilities 1 1 = _
    rw [hp.t11]; norm_num
  · show p.transitionProbabilities 1 2 = _
    rw [hp.t12]; norm_num
  · show p.transitionProbabilities 2 1 = _
    rw [hp.t21]; norm_num
  · show p.transitionProbabilities 2 2 = _
    rw [hp.t22]; norm_num

/-- A model filled by the four-parameter constructor has its four transition log
mirrors in step with the entries. -/
theorem built_transitions_synced {log exp : ℝ → ℝ} {nan normalMean elevatedMean : ℝ}
    {normalLength elevatedLength : Int} {p : HMMProbabilities ℝ}
    (hp : HMMProbabilities.Built log exp nan normalLength elevatedLength normalMean
      elevatedMean p) :
    p.logTransitionProbability 1 1 =
      HMMProbabilities.logVal log nan (p.transitionProbability 1 1) ∧
    p.logTransitionProbability 2 2 =
      HMMProbabilities.logVal log nan (p.transitionProbability 2 2) ∧
    p.logTransitionProbability 1 2 =
      HMMProbabilities.logVal log nan (p.transitionProbability 1 2) ∧
    p.logTransitionProbability 2 1 =
      HMMProbabilities.logVal log nan (p.transitionProbability 2 1) := by
  simp only [HMMProbabilities.logTransitionProbability, HMMProbabilities.transitionProbability,
    hp.l11, hp.l12, hp.l21, hp.l22, hp.t11, hp.t12, hp.t21, hp.t22, and_self]

/-- The bucket-0 emission entry the constructor stores is `exp (-mean)`. -/
theorem calculatePoissonProbability_zero (mean : ℝ) :
    HMMProbabilities.calculatePoissonProbability Real.exp mean 0 = Real.exp (-mean) := by
  simp [HMMProbabilities.calculatePoissonProbability, HMMProbabilities.factorial]

/-- C9, witness: the threshold of the driver's model. -/
theorem C9_threshold_is_log2_odds_witness :
    ∃ p, HMMProbabilities.new Real.log Real.exp 0 HMMProbabilities.zeroMemory
        1000000 10000 (38 / 100) (57 / 100) = Except.ok p ∧
      (DSegmentsFinder.new Real.log p).threshold =
        Real.logb 2 (p.transitionProbability 1 1 * p.transitionProbability 2 2)
          - Real.logb 2 (p.transitionProbability 1 2 * p.transitionProbability 2 1) ∧
      (DSegmentsFinder.new Real.log p).threshold =
        (Real.logb 2 (p.transitionProbability 1 1) + Real.logb 2 (p.transitionProbability 2 2))
          - (Real.logb 2 (p.transitionProbability 1 2)
            + Real.logb 2 (p.transitionProbability 2 1)) := by
  obtain ⟨p, hp, hbuilt⟩ := HMMProbabilities.new_built Real.log Real.exp 0
    HMMProbabilities.zeroMemory 1000000 10000 (38 / 100) (57 / 100)
  obtain ⟨t11, t12, t21, t22⟩ := driver_transitions hbuilt
  obtain ⟨s11, s22, s12, s21⟩ := built_transitions_synced hbuilt
  exact ⟨p, hp, C9_threshold_is_log2_odds 0 p (by rw [t11]; norm_num) (by rw [t22]; norm_num)
    (by rw [t12]; norm_num) (by rw [t21]; norm_num) s11 s22 s12 s21⟩

/-- C10, witness: the score of bucket 0 in the driver's model. -/
theorem C10_dSegmentScore_is_log2_ratio_witness :
    ∃ p, HMMProbabilities.new Real.log Real.exp 0 HMMProbabilities.zeroMemory
        1000000 10000 (38 / 100) (57 / 100) = Except.ok p ∧
      p.dSegmentScore Real.log (((0 : Fin 4).val : Nat) : Int) =
        Except.ok ((Real.logb 2 (Real.exp (-(57 / 100)))
            + Real.logb 2 (p.transitionProbability 2 2))
          - (Real.logb 2 (Real.exp (-(38 / 100)))
            + Real.logb 2 (p.transitionProbability 1 1))) := by
  obtain ⟨p, hp, hbuilt⟩ := HMMProbabilities.new_built Real.log Real.exp 0
    HMMProbabilities.zeroMemory 1000000 10000 (38 / 100) (57 / 100)
  obtain ⟨t11, t12, t21, t22⟩ := driver_transitions hbuilt
  exact ⟨p, hp, C10_dSegmentScore_is_log2_ratio p 0 _ _
    (by rw [← calculatePoissonProbability_zero]; exact hbuilt.e10)
    (by rw [← calculatePoissonProbability_zero]; exact hbuilt.e20)
    (Real.exp_pos _) (Real.exp_pos _) (by rw [t11]; norm_num) (by rw [t22]; norm_num)⟩

/-! ## The worked example model -/

/-- What `setEmissionProbability` does when the residue is in the residue map. -/
theorem setEmissionProbability_spec {α : Type} [Zero α] [DecidableEq α] (log : α → α)
    (nan : α) (p : HMMProbabilities α) (state : Int) (residue : String) (value : α) (i : Int)
    (h : p.emissionResidueMap residue = some i) :
    ∃ p', HMMProbabilities.setEmissionProbability log nan p state residue value = Except.ok p' ∧
      p'.emissionResidueMap = p.emissionResidueMap ∧
      p'.transitionProbabilities = p.transitionProbabilities ∧
      p'.logTransitionProbabilities = p.logTransitionProbabilities ∧
      p'.emissionProbabilities = mapSet p.emissionProbabilities state i value :=
  ⟨{ p with
      emissionProbabilities := mapSet p.emissionProbabilities state i value
      logEmissionProbabilities :=
        mapSet p.logEmissionProbabilities state i (HMMProbabilities.logVal log nan value) },
    by simp [HMMProbabilities.setEmissionProbability,
      HMMProbabilities.getEmissionResidueIndex, h], rfl, rfl, rfl, rfl⟩

/-- The example model is constructed without error; its entries for the buckets 0
and 3, its transition entries and their log mirrors are as follows. -/
theorem exampleModel_spec (nan : ℝ) :
    ∃ p, exampleModel Real.log Real.exp nan = Except.ok p ∧
      p.emissionProbabilities 1 0 = some (1 / 2) ∧ p.emissionProbabilities 1 3 = some (1 / 8) ∧
      p.emissionProbabilities 2 0 = some (1 / 4) ∧ p.emissionProbabilities 2 3 = some (1 / 4) ∧
      p.transitionProbabilities 1 1 = 2 / 3 ∧ p.transitionProbabilities 2 2 = 2 / 3 ∧
      p.transitionProbabilities 1 2 = 1 / 3 ∧ p.transitionProbabilities 2 1 = 1 / 3 ∧
      p.logTransitionProbabilities 1 1 = Real.log (2 / 3) ∧
      p.logTransitionProbabilities 2 2 = Real.log (2 / 3) ∧
      p.logTransitionProbabilities 1 2 = Real.log (1 / 3) ∧
      p.logTransitionProbabilities 2 1 = Real.log (1 / 3) := by
  obtain ⟨p0, hp0, hb⟩ := HMMProbabilities.new_built Real.log Real.exp nan
    HMMProbabilities.zeroMemory 3 3 1 1
  obtain ⟨p1, hp1, r1, t1, l1, e1⟩ :=
    setEmissionProbability_spec Real.log nan p0 1 "0" (1 / 2) 0 hb.r0
  obtain ⟨p2, hp2, r2, t2, l2, e2⟩ :=
    setEmissionProbability_spec Real.log nan p1 1 "1" (1 / 4) 1 (by rw [r1]; exact hb.r1)
  obtain ⟨p3, hp3, r3, t3, l3, e3⟩ :=
    setEmissionProbability_spec Real.log nan p2 1 "2" (1 / 8) 2 (by rw [r2, r1]; exact hb.r2)
  obtain ⟨p4, hp4, r4, t4, l4, e4⟩ :=
    setEmissionProbability_spec Real.log nan p3 1 "3" (1 / 8) 3
      (by rw [r3, r2, r1]; exact hb.r3)
  obtain ⟨p5, hp5, r5, t5, l5, e5⟩ :=
    setEmissionProbability_spec Real.log nan p4 2 "0" (1 / 4) 0
      (by rw [r4, r3, r2, r1]; exact hb.r0)
  obtain ⟨p6, hp6, r6, t6, l6, e6⟩ :=
    setEmissionProbability_spec Real.log nan p5 2 "1" (1 / 4) 1
      (by rw [r5, r4, r3, r2, r1]; exact hb.r1)
  obtain ⟨p7, hp7, r7, t7, l7, e7⟩ :=
    setEmissionProbability_spec Real.log nan p6 2 "2" (1 / 4) 2
      (by rw [r6, r5, r4, r3, r2, r1]; exact hb.r2)
  obtain ⟨p8, hp8, r8, t8, l8, e8⟩ :=
    setEmissionProbability_spec Real.log nan p7 2 "3" (1 / 4) 3
      (by rw [r7, r6, r5, r4, r3, r2, r1]; exact hb.r3)
  have hem : p8.emissionProbabilities = mapSet (mapSet (mapSet (mapSet (mapSet (mapSet (mapSet
      (mapSet p0.emissionProbabilities 1 0 (1 / 2)) 1 1 (1 / 4)) 1 2 (1 / 8)) 1 3 (1 / 8))
      2 0 (1 / 4)) 2 1 (1 / 4)) 2 2 (1 / 4)) 2 3 (1 / 4) := by
    rw [e8, e7, e6, e5, e4, e3, e2, e1]
  have htr : p8.transitionProbabilities = p0.transitionProbabilities := by
    rw [t8, t7, t6, t5, t4, t3, t2, t1]
  have hlg : p8.logTransitionProbabilities = p0.logTransitionProbabilities := by
    rw [l8, l7, l6, l5, l4, l3, l2, l1]
  refine ⟨p8, ?_, ?_, ?_, ?_, ?_, ?_, ?_, ?_, ?_, ?_, ?_, ?_, ?_⟩
  · simp only [exampleModel, hp0, bind, Except.bind, hp1, hp2, hp3, hp4, hp5, hp6, hp7, hp8]
  · rw [hem]; simp [mapSet]
  · rw [hem]; simp [mapSet]
  · rw [hem]; simp [mapSet]
  · rw [hem]; simp [mapSet]
  · rw [htr, hb.t11]; norm_num
  · rw [htr, hb.t22]; norm_num
  · rw [htr, hb.t12]; norm_num
  · rw [htr, hb.t21]; norm_num
  · rw [hlg, hb.l11, HMMProbabilities.logVal, if_neg (by norm_num)]; norm_num
  · rw [hlg, hb.l22, HMMProbabilities.logVal, if_neg (by norm_num)]; norm_num
  · rw [hlg, hb.l12, HMMProbabilities.logVal, if_neg (by norm_num)]; norm_num
  · rw [hlg, hb.l21, HMMProbabilities.logVal, if_neg (by norm_num)]; norm_num

theorem log_half : Real.log (1 / 2) = -Real.log 2 := by
  rw [one_div, Real.log_inv]

theorem log_quarter : Real.log (1 / 4) = -(2 * Real.log 2) := by
  have h : (1 / 4 : ℝ) = (2 ^ 2)⁻¹ := by norm_num
  rw [h, Real.log_inv, Real.log_pow]
  norm_num

theorem log_eighth : Real.log (1 / 8) = -(3 * Real.log 2) := by
  have h : (1 / 8 : ℝ) = (2 ^ 3)⁻¹ := by norm_num
  rw [h, Real.log_inv, Real.log_pow]
  norm_num

theorem log_two_ne_zero : Real.log 2 ≠ 0 :=
  ne_of_gt (Real.log_pos (by norm_num))

/-- The example model scores bucket 0 with `-1` and bucket 3 with `1`, and the
finder constructed on it has threshold 2. -/
theorem exampleModel_scores (nan : ℝ) :
    ∃ p, exampleModel Real.log Real.exp nan = Except.ok p ∧
      p.dSegmentScore Real.log 0 = Except.ok (-1) ∧
      p.dSegmentScore Real.log 3 = Except.ok 1 ∧
      (DSegmentsFinder.new Real.log p).threshold = 2 := by
  obtain ⟨p, hp, e10, e13, e20, e23, t11, t22, t12, t21, l11, l22, l12, l21⟩ :=
    exampleModel_spec nan
  have hL := log_two_ne_zero
  refine ⟨p, hp, ?_, ?_, ?_⟩
  · simp only [HMMProbabilities.dSegmentScore, mapAt, e10, e20,
      HMMProbabilities.transitionProbability, t11, t22]
    rw [Real.log_mul (by norm_num) (by norm_num), Real.log_mul (by norm_num) (by norm_num),
      log_quarter, log_half]
    congr 1
    field_simp
    ring
  · simp only [HMMProbabilities.dSegmentScore, mapAt, e13, e23,
      HMMProbabilities.transitionProbability, t11, t22]
    rw [Real.log_mul (by norm_num) (by norm_num), Real.log_mul (by norm_num) (by norm_num),
      log_quarter, log_eighth]
    congr 1
    field_simp
    ring
  · have e : (DSegmentsFinder.new Real.log p).threshold =
        (p.logTransitionProbabilities 1 1 + p.logTransitionProbabilities 2 2
          - (p.logTransitionProbabilities 1 2 + p.logTransitionProbabilities 2 1))
          / Real.log 2 := rfl
    have h23 : Real.log (2 / 3) = Real.log 2 + Real.log (1 / 3) := by
      rw [← Real.log_mul (by norm_num) (by norm_num)]
      norm_num
    rw [e, l11, l22, l12, l21, h23]
    field_simp
    ring

/-! ## Evaluating the loop step by step -/

section Steps

variable {α : Type} [Zero α] [Add α] [Sub α] [LE α] [∀ a b : α, Decidable (a ≤ b)]

open DSegmentsFinder

theorem scanBody_of_keep (s : ScanState α) (position : Int) (readStarts : Fin 4) (score : α)
    (h : ¬ resetTest (advance s position readStarts score)) :
    scanBody s position readStarts score = advance s position readStarts score := by
  rw [scanBody_eq, if_neg h]

theorem scanBody_of_emit (s : ScanState α) (position : Int) (readStarts : Fin 4) (score : α)
    (h : resetTest (advance s position readStarts score))
    (hmax : s.finder.threshold ≤ (advance s position readStarts score).max) :
    scanBody s position readStarts score =
      resetWindow (emitSegment (advance s position readStarts score)) position := by
  rw [scanBody_eq, if_pos h, if_pos hmax]

theorem scanBody_of_drop (s : ScanState α) (position : Int) (readStarts : Fin 4) (score : α)
    (h : resetTest (advance s position readStarts score))
    (hmax : ¬ s.finder.threshold ≤ (advance s position readStarts score).max) :
    scanBody s position readStarts score =
      resetWindow (advance s position readStarts score).finder position := by
  rw [scanBody_eq, if_pos h, if_neg hmax]

theorem advance_of_ge (s : ScanState α) (position : Int) (readStarts : Fin 4) (score : α)
    (h : s.max ≤ s.cum + score) :
    (advance s position readStarts score).max = s.cum + score ∧
    (advance s position readStarts score).end_ = position := by
  unfold advance
  simp only [ge_iff_le, if_pos h, and_self]

theorem advance_of_lt (s : ScanState α) (position : Int) (readStarts : Fin 4) (score : α)
    (h : ¬ s.max ≤ s.cum + score) :
    (advance s position readStarts score).max = s.max ∧
    (advance s position readStarts score).end_ = s.end_ := by
  unfold advance
  simp only [ge_iff_le, if_neg h, and_self]

variable [Mul α] [Div α] [OfNat α (nat_lit 2)]

theorem scanLoop_cons_of_score (log : α → α) (s : ScanState α) (line : Int × Nat)
    (rest : List (Int × Nat)) (score : α)
    (h : s.finder.probabilities.dSegmentScore log
      (((clampReadStarts line.2).val : Nat) : Int) = Except.ok score) :
    scanLoop log s (line :: rest) =
      scanLoop log (scanBody s line.1 (clampReadStarts line.2) score) rest := by
  rw [scanLoop]
  simp only [scanStep, h]

theorem scanLoop_append (log : α → α) :
    ∀ (l1 l2 : List (Int × Nat)) (s s1 : ScanState α),
      scanLoop log s l1 = Except.ok s1 → scanLoop log s (l1 ++ l2) = scanLoop log s1 l2 := by
  intro l1
  induction l1 with
  | nil =>
    intro l2 s s1 h
    rw [scanLoop_nil] at h
    cases h
    rfl
  | cons line rest ih =>
    intro l2 s s1 h
    obtain ⟨t, ht, h2⟩ := scanLoop_cons_ok log s s1 line rest h
    rw [List.cons_append, scanLoop, ht]
    exact ih l2 t s1 h2

end Steps

/-! ## C3 and C4: a run of 3s in a background of 0s -/

section Runs

variable {α : Type} [LinearOrderedField α]

open DSegmentsFinder

/-- From a state with `cum = max = 0`, a run of 0s with a negative score resets at
every line and appends nothing. -/
theorem scan_zeros_clean (log : α → α) (s0 thr : α) (hs0 : s0 < 0) (hthr : 0 < thr) :
    ∀ (n : Nat) (a : Int) (s : ScanState α),
      s.finder.probabilities.dSegmentScore log 0 = Except.ok s0 →
      s.finder.threshold = thr → s.cum = 0 → s.max = 0 →
      ∃ s', scanLoop log s (constRun 0 a n) = Except.ok s' ∧ s'.cum = 0 ∧ s'.max = 0 ∧
        (0 < n → s'.start = a + n + 1) ∧ (n = 0 → s'.start = s.start) ∧
        s'.finder.segments = s.finder.segments ∧
        s'.finder.dSegmentReadStartCounts = s.finder.dSegmentReadStartCounts ∧
        s'.finder.threshold = thr ∧
        s'.finder.probabilities = s.finder.probabilities := by
  intro n
  induction n with
  | zero =>
    intro a s _ ht hc hm
    exact ⟨s, rfl, hc, hm, fun h => absurd h (lt_irrefl _), fun _ => rfl, rfl, rfl, ht, rfl⟩
  | succ n ih =>
    intro a s hsc ht hc hm
    have hcum : (advance s (a + 1) (clampReadStarts 0) s0).cum = s0 := by
      show s.cum + s0 = s0
      rw [hc, zero_add]
    have hnot : ¬ s.max ≤ s.cum + s0 := by
      rw [hc, hm, zero_add]; exact not_le.mpr hs0
    have hmax := (advance_of_lt s (a + 1) (clampReadStarts 0) s0 hnot).1
    have hreset : resetTest (advance s (a + 1) (clampReadStarts 0) s0) := by
      left; rw [hcum]; exact le_of_lt hs0
    have hdrop : ¬ s.finder.threshold ≤ (advance s (a + 1) (clampReadStarts 0) s0).max := by
      rw [hmax, hm, ht]; exact not_le.mpr hthr
    obtain ⟨s', hs', hc', hm', hst', -, hseg', hd', ht', hp'⟩ :=
      ih (a + 1) (resetWindow (advance s (a + 1) (clampReadStarts 0) s0).finder (a + 1))
        hsc ht rfl rfl
    refine ⟨s', ?_, hc', hm', ?_, fun h => absurd h (Nat.succ_ne_zero n), hseg', hd', ht', hp'⟩
    · rw [constRun, scanLoop_cons_of_score log s (a + 1, 0) _ s0 hsc,
        scanBody_of_drop s (a + 1) (clampReadStarts 0) s0 hreset hdrop]
      exact hs'
    · intro _
      rcases Nat.eq_zero_or_pos n with hn | hn
      · subst hn
        cases (show Except.ok _ = Except.ok s' from hs')
        show a + 1 + 1 = _
        push_cast
        ring
      · rw [hst' hn]
        push_cast
        ring

/-- From a state with `cum = max ≥ 0`, a run of 3s with a positive score never
resets: the cumulative score and the running maximum grow together and the
candidate end follows the position. -/
theorem scan_threes (log : α → α) (s3 thr : α) (hs3 : 0 < s3) (hthr : 0 < thr) :
    ∀ (j : Nat) (a : Int) (s : ScanState α),
      s.finder.probabilities.dSegmentScore log 3 = Except.ok s3 →
      s.finder.threshold = thr → s.cum = s.max → 0 ≤ s.cum →
      ∃ s', scanLoop log s (constRun 3 a j) = Except.ok s' ∧
        s'.cum = s.cum + (j : α) * s3 ∧ s'.max = s.cum + (j : α) * s3 ∧
        s'.start = s.start ∧ (0 < j → s'.end_ = a + j) ∧
        s'.finder.segments = s.finder.segments ∧
        s'.finder.dSegmentReadStartCounts = s.finder.dSegmentReadStartCounts ∧
        s'.finder.threshold = thr ∧
        s'.finder.probabilities = s.finder.probabilities := by
  intro j
  induction j with
  | zero =>
    intro a s _ ht _ _
    exact ⟨s, rfl, by simp, by simp [*], rfl, fun h => absurd h (lt_irrefl _), rfl, rfl, ht, rfl⟩
  | succ j ih =>
    intro a s hsc ht hcm hc
    have hge : s.max ≤ s.cum + s3 := by rw [← hcm]; linarith
    obtain ⟨hmax, hend⟩ := advance_of_ge s (a + 1) (clampReadStarts 3) s3 hge
    have hcum : (advance s (a + 1) (clampReadStarts 3) s3).cum = s.cum + s3 := rfl
    have hkeep : ¬ resetTest (advance s (a + 1) (clampReadStarts 3) s3) := by
      intro h
      rcases h with h | h
      · rw [hcum] at h; linarith
      · rw [hcum, hmax] at h
        have : (advance s (a + 1) (clampReadStarts 3) s3).finder.threshold = thr := ht
        rw [this] at h
        linarith
    obtain ⟨s', hs', hc', hm', hst', hen', hseg', hd', ht', hp'⟩ :=
      ih (a + 1) (advance s (a + 1) (clampReadStarts 3) s3) hsc ht
        (by rw [hcum, hmax]) (by rw [hcum]; linarith)
    refine ⟨s', ?_, ?_, ?_, hst', ?_, hseg', hd', ht', hp'⟩
    · rw [constRun, scanLoop_cons_of_score log s (a + 1, 3) _ s3 hsc,
        scanBody_of_keep s (a + 1) (clampReadStarts 3) s3 hkeep]
      exact hs'
    · rw [hc', hcum]; push_cast; ring
    · rw [hm', hcum]; push_cast; ring
    · intro _
      rcases Nat.eq_zero_or_pos j with hj | hj
      · subst hj
        cases (show Except.ok _ = Except.ok s' from hs')
        rw [hend]
        push_cast
        ring
      · rw [hen' hj]
        push_cast
        ring

end Runs

section RunsMain

variable {α : Type} [LinearOrderedField α]

open DSegmentsFinder

/-- From a state with `cum = max = 0`, lines that all have count 0 and a negative
score reset at every line, whatever their positions: nothing is appended and the
D-segment counts stay as they are. -/
theorem scan_all_zero (log : α → α) (s0 thr : α) (hs0 : s0 < 0) (hthr : 0 < thr) :
    ∀ (input : List (Int × Nat)) (s : ScanState α), (∀ line ∈ input, line.2 = 0) →
      s.finder.probabilities.dSegmentScore log 0 = Except.ok s0 →
      s.finder.threshold = thr → s.cum = 0 → s.max = 0 →
      ∃ s', scanLoop log s input = Except.ok s' ∧ s'.cum = 0 ∧ s'.max = 0 ∧
        s'.finder.segments = s.finder.segments ∧
        s'.finder.dSegmentReadStartCounts = s.finder.dSegmentReadStartCounts ∧
        s'.finder.threshold = thr := by
  intro input
  induction input with
  | nil =>
    intro s _ _ ht hc hm
    exact ⟨s, rfl, hc, hm, rfl, rfl, ht⟩
  | cons line rest ih =>
    intro s hz hsc ht hc hm
    have hl : line.2 = 0 := hz line (List.mem_cons_self _ _)
    have hcum : (advance s line.1 (clampReadStarts line.2) s0).cum = s0 := by
      show s.cum + s0 = s0
      rw [hc, zero_add]
    have hnot : ¬ s.max ≤ s.cum + s0 := by
      rw [hc, hm, zero_add]; exact not_le.mpr hs0
    have hmax := (advance_of_lt s line.1 (clampReadStarts line.2) s0 hnot).1
    have hreset : resetTest (advance s line.1 (clampReadStarts line.2) s0) := by
      left; rw [hcum]; exact le_of_lt hs0
    have hdrop : ¬ s.finder.threshold ≤ (advance s line.1 (clampReadStarts line.2) s0).max := by
      rw [hmax, hm, ht]; exact not_le.mpr hthr
    obtain ⟨s', hs', hc', hm', hseg', hd', ht'⟩ :=
      ih (resetWindow (advance s line.1 (clampReadStarts line.2) s0).finder line.1)
        (fun l hlm => hz l (List.mem_cons_of_mem _ hlm)) hsc ht rfl rfl
    refine ⟨s', ?_, hc', hm', hseg', hd', ht'⟩
    rw [scanLoop_cons_of_score log s line rest s0 (by rw [hl]; exact hsc),
      scanBody_of_drop s line.1 (clampReadStarts line.2) s0 hreset hdrop]
    exact hs'

/-- After a peak that reached the threshold, a run of 0s with a negative score
ends in exactly one more segment: the window from `start` to the candidate end,
emitted at the reset or, if the input ends first, by the final check. -/
theorem scan_zeros_after_peak (log : α → α) (s0 thr : α) (hs0 : s0 < 0) (hthr : 0 < thr) :
    ∀ (n : Nat) (a : Int) (s : ScanState α),
      s.finder.probabilities.dSegmentScore log 0 = Except.ok s0 →
      s.finder.threshold = thr → thr ≤ s.max → s.cum ≤ s.max →
      ∃ s', scanLoop log s (constRun 0 a n) = Except.ok s' ∧
        (flush s').segments = s.finder.segments ++ [Segment.mk s.start s.end_ s.max] := by
  intro n
  induction n with
  | zero =>
    intro a s _ ht hge _
    refine ⟨s, rfl, ?_⟩
    unfold flush
    rw [if_pos (show s.max ≥ s.finder.threshold by rw [ht]; exact hge)]
    rfl
  | succ n ih =>
    intro a s hsc ht hge hcm
    have hnot : ¬ s.max ≤ s.cum + s0 := by
      intro h; linarith
    obtain ⟨hmax, hend⟩ := advance_of_lt s (a + 1) (clampReadStarts 0) s0 hnot
    have hemit : s.finder.threshold ≤ (advance s (a + 1) (clampReadStarts 0) s0).max := by
      rw [hmax, ht]; exact hge
    rw [constRun, scanLoop_cons_of_score log s (a + 1, 0) _ s0 hsc]
    by_cases hreset : resetTest (advance s (a + 1) (clampReadStarts 0) s0)
    · rw [scanBody_of_emit s (a + 1) (clampReadStarts 0) s0 hreset hemit]
      obtain ⟨s', hs', -, hm', -, -, hseg', -, ht', -⟩ :=
        scan_zeros_clean log s0 thr hs0 hthr n (a + 1)
          (resetWindow (emitSegment (advance s (a + 1) (clampReadStarts 0) s0)) (a + 1))
          hsc ht rfl rfl
      refine ⟨s', hs', ?_⟩
      unfold flush
      rw [if_neg (show ¬ s'.max ≥ s'.finder.threshold by
        rw [hm', ht']; exact not_le.mpr hthr), hseg']
      show s.finder.segments ++ [Segment.mk s.start
        (advance s (a + 1) (clampReadStarts 0) s0).end_
        (advance s (a + 1) (clampReadStarts 0) s0).max] = _
      rw [hmax, hend]
    · rw [scanBody_of_keep s (a + 1) (clampReadStarts 0) s0 hreset]
      obtain ⟨s', hs', hfl⟩ := ih (a + 1) (advance s (a + 1) (clampReadStarts 0) s0) hsc ht
        (by rw [hmax]; exact hge)
        (by rw [hmax]; show s.cum + s0 ≤ s.max; linarith)
      refine ⟨s', hs', ?_⟩
      rw [hfl, hmax, hend]
      rfl

/-- In a model that scores bucket 0 negatively and bucket 3 positively and has a
positive threshold, the input of `m` observations of count 0, then `k ≥ 1` of count
3 with `k * dSegmentScore(3) ≥ threshold`, then `n` of count 0 is scanned without
error by a freshly constructed finder and yields exactly one segment, from `m + 1`
to `m + k`, with score `k * dSegmentScore(3)`. -/
theorem single_segment_spans_run (log : α → α) (p : HMMProbabilities α) (s0 s3 : α)
    (m k n : Nat)
    (hz : p.dSegmentScore log 0 = Except.ok s0) (ht : p.dSegmentScore log 3 = Except.ok s3)
    (hs0 : s0 < 0) (hs3 : 0 < s3) (hthr : 0 < (DSegmentsFinder.new log p).threshold)
    (hk : 1 ≤ k) (hreach : (DSegmentsFinder.new log p).threshold ≤ (k : α) * s3) :
    ∃ f', findDSegments log (DSegmentsFinder.new log p) (embeddedRun m k n) = Except.ok f' ∧
      f'.segments = [Segment.mk ((m : Int) + 1) ((m : Int) + (k : Int)) ((k : α) * s3)] := by
  obtain ⟨s1, h1, hc1, hm1, hst1, hst1', hseg1, -, ht1, hp1⟩ :=
    scan_zeros_clean log s0 _ hs0 hthr m 0 (initialState (DSegmentsFinder.new log p))
      hz rfl rfl rfl
  have hstart1 : s1.start = (m : Int) + 1 := by
    rcases Nat.eq_zero_or_pos m with hm | hm
    · rw [hst1' hm, hm]; rfl
    · rw [hst1 hm]; ring
  obtain ⟨s2, h2, hc2, hm2, hst2, hen2, hseg2, -, ht2, hp2⟩ :=
    scan_threes log s3 _ hs3 hthr k (m : Int) s1 (by rw [hp1]; exact ht) ht1
      (by rw [hc1, hm1]) (by rw [hc1])
  obtain ⟨s', h3, hfl⟩ :=
    scan_zeros_after_peak log s0 _ hs0 hthr n ((m : Int) + (k : Int)) s2
      (by rw [hp2, hp1]; exact hz) ht2
      (by rw [hm2, hc1, zero_add]; exact hreach) (by rw [hc2, hm2])
  refine ⟨flush s', ?_, ?_⟩
  · unfold findDSegments embeddedRun
    rw [scanLoop_append log _ _ _ s1 h1, scanLoop_append log _ _ _ s2 h2, h3]
  · rw [hfl, hseg2, hseg1, hst2, hstart1, hen2 (by omega), hm2, hc1, zero_add]
    rfl

end RunsMain

/-! ## C4: the driver's model on a background of 0s -/

/-- In the driver's model the score of bucket 0 is negative. -/
theorem driver_zero_score_neg {nan : ℝ} {p : HMMProbabilities ℝ}
    (hp : HMMProbabilities.Built Real.log Real.exp nan 1000000 10000 (38 / 100) (57 / 100) p) :
    ∃ s0, p.dSegmentScore Real.log 0 = Except.ok s0 ∧ s0 < 0 := by
  obtain ⟨t11, -, -, t22⟩ := driver_transitions hp
  refine ⟨Real.log (Real.exp (-(57 / 100)) * (9999 / 10000)) / Real.log 2
    - Real.log (Real.exp (-(38 / 100)) * (999999 / 1000000)) / Real.log 2, ?_, ?_⟩
  · simp only [HMMProbabilities.dSegmentScore, mapAt, hp.e10, hp.e20,
      calculatePoissonProbability_zero, t11, t22]
  · have hlt : Real.exp (-(57 / 100)) * (9999 / 10000)
        < Real.exp (-(38 / 100)) * (999999 / 1000000) := by
      apply mul_lt_mul''
      · exact Real.exp_lt_exp.mpr (by norm_num)
      · norm_num
      · exact le_of_lt (Real.exp_pos _)
      · norm_num
    have hlog := Real.log_lt_log (mul_pos (Real.exp_pos _) (by norm_num)) hlt
    have hL : 0 < Real.log 2 := Real.log_pos (by norm_num)
    have := div_lt_div_of_pos_right hlog hL
    linarith

/-- In the driver's model the threshold is positive. -/
theorem driver_threshold_pos {nan : ℝ} {normalMean elevatedMean : ℝ} {p : HMMProbabilities ℝ}
    (hp : HMMProbabilities.Built Real.log Real.exp nan 1000000 10000 normalMean
      elevatedMean p) :
    0 < (DSegmentsFinder.new Real.log p).threshold := by
  obtain ⟨t11, t12, t21, t22⟩ := driver_transitions hp
  obtain ⟨s11, s22, s12, s21⟩ := built_transitions_synced hp
  have e : (DSegmentsFinder.new Real.log p).threshold =
      (p.logTransitionProbability 1 1 + p.logTransitionProbability 2 2
        - (p.logTransitionProbability 1 2 + p.logTransitionProbability 2 1)) / Real.log 2 := rfl
  rw [e, s11, s22, s12, s21, t11, t12, t21, t22]
  simp only [HMMProbabilities.logVal]
  rw [if_neg (by norm_num), if_neg (by norm_num), if_neg (by norm_num), if_neg (by norm_num)]
  have h1 : Real.log (1 / 1000000) < Real.log (999999 / 1000000) :=
    Real.log_lt_log (by norm_num) (by norm_num)
  have h2 : Real.log (1 / 10000) < Real.log (9999 / 10000) :=
    Real.log_lt_log (by norm_num) (by norm_num)
  apply div_pos _ (Real.log_pos (by norm_num))
  linarith

/-- C4. For the model built from lengths 1000000 and 10000 and means 0.38 and 0.57,
scanning any input whose observations all have count 0 returns without error, emits
no segment and leaves the segment-restricted histogram all zero; after every prefix
of the input the running maximum is below the threshold. -/
theorem C4_all_zero_emits_nothing (nan : ℝ) (mem : HMMProbabilities ℝ)
    (input : List (Int × Nat)) (hzero : ∀ line ∈ input, line.2 = 0) :
    ∃ p f', HMMProbabilities.new Real.log Real.exp nan mem 1000000 10000 (38 / 100) (57 / 100)
        = Except.ok p ∧
      DSegmentsFinder.findDSegments Real.log (DSegmentsFinder.new Real.log p) input
        = Except.ok f' ∧
      f'.segments = [] ∧ (∀ b : Fin 4, f'.dSegmentReadStartCounts b = 0) ∧
      ∀ pre s, pre <+: input →
        DSegmentsFinder.scanLoop Real.log
          (DSegmentsFinder.initialState (DSegmentsFinder.new Real.log p)) pre = Except.ok s →
        s.max < (DSegmentsFinder.new Real.log p).threshold := by
  obtain ⟨p, hp, hbuilt⟩ := HMMProbabilities.new_built Real.log Real.exp nan mem
    1000000 10000 (38 / 100) (57 / 100)
  obtain ⟨s0, hs0, hneg⟩ := driver_zero_score_neg hbuilt
  have hthr := driver_threshold_pos hbuilt
  have hrun : ∀ pre : List (Int × Nat), (∀ line ∈ pre, line.2 = 0) →
      ∃ s', DSegmentsFinder.scanLoop Real.log
          (DSegmentsFinder.initialState (DSegmentsFinder.new Real.log p)) pre = Except.ok s' ∧
        s'.cum = 0 ∧ s'.max = 0 ∧ s'.finder.segments = [] ∧
        s'.finder.dSegmentReadStartCounts = (fun _ => 0) ∧
        s'.finder.threshold = (DSegmentsFinder.new Real.log p).threshold := fun pre hpre =>
    scan_all_zero Real.log s0 _ hneg hthr pre
      (DSegmentsFinder.initialState (DSegmentsFinder.new Real.log p)) hpre hs0 rfl rfl rfl
  obtain ⟨s', hs', -, hm', hseg', hd', ht'⟩ := hrun input hzero
  have hfl : DSegmentsFinder.flush s' = s'.finder := by
    unfold DSegmentsFinder.flush
    rw [if_neg]
    rw [hm', ht']
    exact not_le.mpr hthr
  refine ⟨p, s'.finder, hp, ?_, hseg', fun b => by rw [hd'], ?_⟩
  · unfold DSegmentsFinder.findDSegments
    rw [hs']
    exact congrArg Except.ok hfl
  · intro pre s hpre hs
    obtain ⟨t, ht, -, hmt, -, -, -⟩ := hrun pre (fun l hl => hzero l (hpre.subset hl))
    rw [ht] at hs
    cases hs
    rw [hmt]
    exact hthr

/-- C4, witness: three observations of count 0. -/
theorem C4_all_zero_emits_nothing_witness :
    ∃ p f', HMMProbabilities.new Real.log Real.exp 0 HMMProbabilities.zeroMemory
        1000000 10000 (38 / 100) (57 / 100) = Except.ok p ∧
      DSegmentsFinder.findDSegments Real.log (DSegmentsFinder.new Real.log p)
        [(1, 0), (2, 0), (3, 0)] = Except.ok f' ∧
      f'.segments = [] ∧ (∀ b : Fin 4, f'.dSegmentReadStartCounts b = 0) ∧
      ∀ pre s, pre <+: [(1, 0), (2, 0), (3, 0)] →
        DSegmentsFinder.scanLoop Real.log
          (DSegmentsFinder.initialState (DSegmentsFinder.new Real.log p)) pre = Except.ok s →
        s.max < (DSegmentsFinder.new Real.log p).threshold :=
  C4_all_zero_emits_nothing 0 HMMProbabilities.zeroMemory [(1, 0), (2, 0), (3, 0)] (by simp)

/-! ## C5: the final check -/

section C5

variable {α : Type} [Zero α] [Add α] [Sub α] [Mul α] [Div α] [OfNat α (nat_lit 2)] [LE α]
  [∀ a b : α, Decidable (a ≤ b)]

open DSegmentsFinder

/-- C5. Let `s` be the state the loop has reached at the end of the input.  Then
`findDSegments` returns the finder with the segment `{start, end, max}` of the open
window appended and the window counts added to the segment-restricted histogram if
`max ≥ threshold`, and the finder unchanged otherwise.  In particular the window is
emitted when `max` equals a threshold that compares `≤` to itself. -/
theorem C5_final_window_emitted_iff (log : α → α) (finder : DSegmentsFinder α)
    (input : List (Int × Nat)) (s : ScanState α)
    (hs : scanLoop log (initialState finder) input = Except.ok s) :
    s.finder.threshold = finder.threshold ∧
    (s.max ≥ finder.threshold →
      findDSegments log finder input = Except.ok
        { s.finder with
          segments := s.finder.segments ++ [Segment.mk s.start s.end_ s.max]
          dSegmentReadStartCounts := fun i =>
            s.finder.dSegmentReadStartCounts i + s.currentSegmentReadStartCounts i }) ∧
    (¬ s.max ≥ finder.threshold → findDSegments log finder input = Except.ok s.finder) ∧
    (s.max = finder.threshold → finder.threshold ≤ finder.threshold →
      findDSegments log finder input = Except.ok
        { s.finder with
          segments := s.finder.segments ++ [Segment.mk s.start s.end_ s.max]
          dSegmentReadStartCounts := fun i =>
            s.finder.dSegmentReadStartCounts i + s.currentSegmentReadStartCounts i }) := by
  have hthr : s.finder.threshold = finder.threshold :=
    scanLoop_invariant log (fun t => t.finder.threshold = finder.threshold)
      (fun t position readStarts score ht =>
        (scanBody_threshold t position readStarts score).1.trans ht)
      input _ s rfl hs
  have hyes : s.max ≥ finder.threshold →
      findDSegments log finder input = Except.ok
        { s.finder with
          segments := s.finder.segments ++ [Segment.mk s.start s.end_ s.max]
          dSegmentReadStartCounts := fun i =>
            s.finder.dSegmentReadStartCounts i + s.currentSegmentReadStartCounts i } := by
    intro h
    unfold findDSegments
    rw [hs]
    show Except.ok (flush s) = _
    unfold flush
    rw [if_pos (by rw [hthr]; exact h)]
    rfl
  refine ⟨hthr, hyes, ?_, ?_⟩
  · intro h
    unfold findDSegments
    rw [hs]
    show Except.ok (flush s) = _
    unfold flush
    rw [if_neg (by rw [hthr]; exact h)]
  · intro he hrefl
    apply hyes
    rw [he]
    exact hrefl

end C5

/-- C5, witness: in the example model (score 1 for bucket 3, threshold 2) the
input 3, 3 ends with an open window whose running maximum is exactly the threshold;
the final check emits it as the segment from 1 to 2. -/
theorem C5_final_window_emitted_iff_witness :
    ∃ p s, exampleModel Real.log Real.exp 0 = Except.ok p ∧
      DSegmentsFinder.scanLoop Real.log
        (DSegmentsFinder.initialState (DSegmentsFinder.new Real.log p))
        (constRun 3 0 2) = Except.ok s ∧
      s.max = (DSegmentsFinder.new Real.log p).threshold ∧
      s.finder.segments = [] ∧ s.start = 1 ∧ s.end_ = 2 ∧ s.max = 2 ∧
      DSegmentsFinder.findDSegments Real.log (DSegmentsFinder.new Real.log p)
        (constRun 3 0 2) = Except.ok
        { s.finder with
          segments := s.finder.segments ++ [Segment.mk s.start s.end_ s.max]
          dSegmentReadStartCounts := fun i =>
            s.finder.dSegmentReadStartCounts i + s.currentSegmentReadStartCounts i } := by
  obtain ⟨p, hp, h0, h3, hthr⟩ := exampleModel_scores 0
  obtain ⟨s, hs, -, hm, hst, hen, hseg, -, -, -⟩ :=
    scan_threes Real.log 1 _ (by norm_num) (by rw [hthr]; norm_num : (0 : ℝ) <
      (DSegmentsFinder.new Real.log p).threshold) 2 0
      (DSegmentsFinder.initialState (DSegmentsFinder.new Real.log p)) h3 rfl rfl (le_refl _)
  have hmax : s.max = 2 := by
    rw [hm]
    show (0 : ℝ) + ((2 : Nat) : ℝ) * 1 = 2
    norm_num
  have heq : s.max = (DSegmentsFinder.new Real.log p).threshold := by rw [hmax, hthr]
  exact ⟨p, s, hp, hs, heq, hseg, hst, by rw [hen (by norm_num)]; norm_num, hmax,
    (C5_final_window_emitted_iff Real.log _ _ s hs).2.2.2 heq (le_refl _)⟩

/-! ## The worked example, line by line -/

open DSegmentsFinder in
/-- The scan of 3, 3, 0, 0 at the positions 1..4 with scores `1` and `-1` and
threshold 2: the window opened at 1 peaks at position 2 and is reset at position 4,
and all four window counts go into the segment-restricted histogram. -/
theorem trace_3300 (finder : DSegmentsFinder ℝ)
    (h0 : finder.probabilities.dSegmentScore Real.log 0 = Except.ok (-1))
    (h3 : finder.probabilities.dSegmentScore Real.log 3 = Except.ok 1)
    (hthr : finder.threshold = 2) (hseg : finder.segments = [])
    (hd : finder.dSegmentReadStartCounts = fun _ => 0) :
    ∃ f', findDSegments Real.log finder [(1, 3), (2, 3), (3, 0), (4, 0)] = Except.ok f' ∧
      f'.segments = [Segment.mk 1 2 2] ∧
      f'.dSegmentReadStartCounts 0 = 2 ∧ f'.dSegmentReadStartCounts 1 = 0 ∧
      f'.dSegmentReadStartCounts 2 = 0 ∧ f'.dSegmentReadStartCounts 3 = 2 := by
  have c3 : clampReadStarts 3 = 3 := rfl
  have c0 : clampReadStarts 0 = 0 := rfl
  -- line 1: count 3
  have ge1 : (initialState finder).max ≤ (initialState finder).cum + 1 := by
    show (0 : ℝ) ≤ 0 + 1
    norm_num
  obtain ⟨max1, end1⟩ := advance_of_ge (initialState finder) 1 3 1 ge1
  have cum1 : (advance (initialState finder) 1 3 1).cum = 1 := by
    show (0 : ℝ) + 1 = 1
    norm_num
  replace max1 : (advance (initialState finder) 1 3 1).max = 1 := by
    rw [max1]
    show (0 : ℝ) + 1 = 1
    norm_num
  have keep1 : ¬ resetTest (advance (initialState finder) 1 3 1) := by
    intro h
    rcases h with h | h
    · rw [cum1] at h; norm_num at h
    · rw [cum1, max1] at h
      have e : (advance (initialState finder) 1 3 1).finder.threshold = 2 := hthr
      rw [e] at h
      norm_num at h
  -- line 2: count 3
  have ge2 : (advance (initialState finder) 1 3 1).max
      ≤ (advance (initialState finder) 1 3 1).cum + 1 := by
    rw [max1, cum1]; norm_num
  obtain ⟨max2, end2⟩ := advance_of_ge (advance (initialState finder) 1 3 1) 2 3 1 ge2
  have cum2 : (advance (advance (initialState finder) 1 3 1) 2 3 1).cum = 2 := by
    show (advance (initialState finder) 1 3 1).cum + 1 = 2
    rw [cum1]; norm_num
  have max2' : (advance (advance (initialState finder) 1 3 1) 2 3 1).max = 2 := by
    rw [max2, cum1]; norm_num
  have keep2 : ¬ resetTest (advance (advance (initialState finder) 1 3 1) 2 3 1) := by
    intro h
    rcases h with h | h
    · rw [cum2] at h; norm_num at h
    · rw [cum2, max2'] at h
      have e : (advance (advance (initialState finder) 1 3 1) 2 3 1).finder.threshold = 2 := hthr
      rw [e] at h
      norm_num at h
  -- line 3: count 0
  have lt3 : ¬ (advance (advance (initialState finder) 1 3 1) 2 3 1).max
      ≤ (advance (advance (initialState finder) 1 3 1) 2 3 1).cum + (-1) := by
    rw [max2', cum2]; norm_num
  obtain ⟨max3, end3⟩ :=
    advance_of_lt (advance (advance (initialState finder) 1 3 1) 2 3 1) 3 0 (-1) lt3
  have cum3 : (advance (advance (advance (initialState finder) 1 3 1) 2 3 1) 3 0 (-1)).cum
      = 1 := by
    show (advance (advance (initialState finder) 1 3 1) 2 3 1).cum + (-1) = 1
    rw [cum2]; norm_num
  rw [max2'] at max3
  rw [end2] at end3
  have keep3 : ¬ resetTest
      (advance (advance (advance (initialState finder) 1 3 1) 2 3 1) 3 0 (-1)) := by
    intro h
    rcases h with h | h
    · rw [cum3] at h; norm_num at h
    · rw [cum3, max3] at h
      have e : (advance (advance (advance (initialState finder) 1 3 1) 2 3 1) 3 0
        (-1)).finder.threshold = 2 := hthr
      rw [e] at h
      norm_num at h
  -- line 4: count 0
  have lt4 : ¬ (advance (advance (advance (initialState finder) 1 3 1) 2 3 1) 3 0 (-1)).max
      ≤ (advance (advance (advance (initialState finder) 1 3 1) 2 3 1) 3 0 (-1)).cum
        + (-1) := by
    rw [max3, cum3]; norm_num
  obtain ⟨max4, end4⟩ := advance_of_lt
    (advance (advance (advance (initialState finder) 1 3 1) 2 3 1) 3 0 (-1)) 4 0 (-1) lt4
  have cum4 : (advance (advance (advance (advance (initialState finder) 1 3 1) 2 3 1) 3 0
      (-1)) 4 0 (-1)).cum = 0 := by
    show (advance (advance (advance (initialState finder) 1 3 1) 2 3 1) 3 0 (-1)).cum
      + (-1) = 0
    rw [cum3]; norm_num
  rw [max3] at max4
  rw [end3] at end4
  have reset4 : resetTest (advance (advance (advance (advance (initialState finder) 1 3 1)
      2 3 1) 3 0 (-1)) 4 0 (-1)) := by
    left; rw [cum4]
  have emit4 : (advance (advance (advance (initialState finder) 1 3 1) 2 3 1) 3 0
      (-1)).finder.threshold ≤ (advance (advance (advance (advance (initialState finder)
        1 3 1) 2 3 1) 3 0 (-1)) 4 0 (-1)).max := by
    rw [max4]
    show finder.threshold ≤ 2
    rw [hthr]
  -- the loop and the final check
  have hloop : scanLoop Real.log (initialState finder) [(1, 3), (2, 3), (3, 0), (4, 0)] =
      Except.ok (resetWindow (emitSegment (advance (advance (advance (advance
        (initialState finder) 1 3 1) 2 3 1) 3 0 (-1)) 4 0 (-1))) 4) := by
    rw [scanLoop_cons_of_score Real.log _ (1, 3) _ 1 h3, c3, scanBody_of_keep _ _ _ _ keep1,
      scanLoop_cons_of_score Real.log _ (2, 3) _ 1 h3, c3, scanBody_of_keep _ _ _ _ keep2,
      scanLoop_cons_of_score Real.log _ (3, 0) _ (-1) h0, c0, scanBody_of_keep _ _ _ _ keep3,
      scanLoop_cons_of_score Real.log _ (4, 0) _ (-1) h0, c0,
      scanBody_of_emit _ _ _ _ reset4 emit4, scanLoop_nil]
  refine ⟨emitSegment (advance (advance (advance (advance (initialState finder) 1 3 1)
    2 3 1) 3 0 (-1)) 4 0 (-1)), ?_, ?_, ?_, ?_, ?_, ?_⟩
  · unfold findDSegments
    rw [hloop]
    show Except.ok (flush _) = _
    unfold flush
    rw [if_neg]
    · rfl
    · show ¬ (0 : ℝ) ≥ finder.threshold
      rw [hthr]
      norm_num
  · show finder.segments ++ [Segment.mk 1 _ _] = _
    rw [hseg, end4, max4]
    rfl
  · show finder.dSegmentReadStartCounts 0 + _ = 2
    rw [hd]
    rfl
  · show finder.dSegmentReadStartCounts 1 + _ = 0
    rw [hd]
    rfl
  · show finder.dSegmentReadStartCounts 2 + _ = 0
    rw [hd]
    rfl
  · show finder.dSegmentReadStartCounts 3 + _ = 2
    rw [hd]
    rfl

/-! ## Witnesses on the worked example -/

/-- C1, witness: in the example model the scan of 3, 3, 0, 0 returns with the
segment from 1 to 2 appended, whose score 2 meets the threshold 2. -/
theorem C1_appended_segments_meet_threshold_witness :
    ∃ p f', exampleModel Real.log Real.exp 0 = Except.ok p ∧
      DSegmentsFinder.findDSegments Real.log (DSegmentsFinder.new Real.log p)
        [(1, 3), (2, 3), (3, 0), (4, 0)] = Except.ok f' ∧
      f'.segments = [Segment.mk 1 2 2] ∧
      ∃ new, f'.segments = (DSegmentsFinder.new Real.log p).segments ++ new ∧
        ∀ seg ∈ new, seg.score ≥ (DSegmentsFinder.new Real.log p).threshold := by
  obtain ⟨p, hp, h0, h3, hthr⟩ := exampleModel_scores 0
  obtain ⟨f', hf, hseg, -⟩ := trace_3300 (DSegmentsFinder.new Real.log p) h0 h3 hthr rfl rfl
  exact ⟨p, f', hp, hf, hseg, C1_appended_segments_meet_threshold Real.log _ f' _ hf⟩

/-- C2, witness: the same scan; its positions 1, 2, 3, 4 are increasing and at
least 1. -/
theorem C2_segments_ordered_disjoint_witness :
    ∃ p f', exampleModel Real.log Real.exp 0 = Except.ok p ∧
      DSegmentsFinder.findDSegments Real.log (DSegmentsFinder.new Real.log p)
        [(1, 3), (2, 3), (3, 0), (4, 0)] = Except.ok f' ∧
      f'.segments = [Segment.mk 1 2 2] ∧
      ∃ new, f'.segments = (DSegmentsFinder.new Real.log p).segments ++ new ∧
        (∀ seg ∈ new, seg.start ≤ seg.end_) ∧
        new.Chain' (fun a b => a.end_ < b.start) ∧
        new.Pairwise (fun a b => a.end_ < b.start) ∧
        new.Pairwise (fun a b => a.start < b.start) := by
  obtain ⟨p, hp, h0, h3, hthr⟩ := exampleModel_scores 0
  obtain ⟨f', hf, hseg, -⟩ := trace_3300 (DSegmentsFinder.new Real.log p) h0 h3 hthr rfl rfl
  exact ⟨p, f', hp, hf, hseg, C2_segments_ordered_disjoint Real.log _ f'
    [(1, 3), (2, 3), (3, 0), (4, 0)] (by simp) (by simp) hf⟩

/-- C8, witness: the scan of 3, 3, 0, 0 in the example model. -/
theorem C8_global_histogram_counts_clamped_witness :
    ∃ p f', exampleModel Real.log Real.exp 0 = Except.ok p ∧
      DSegmentsFinder.findDSegments Real.log (DSegmentsFinder.new Real.log p)
        [(1, 3), (2, 3), (3, 0), (4, 0)] = Except.ok f' ∧
      ((∀ b : Fin 4, f'.readStartCounts b =
        (([(1, 3), (2, 3), (3, 0), (4, 0)] : List (Int × Nat)).countP
          (fun line => min line.2 3 = b.val) : Nat)) ∧
      f'.readStartCounts 3 =
        (([(1, 3), (2, 3), (3, 0), (4, 0)] : List (Int × Nat)).countP
          (fun line => 3 ≤ line.2) : Nat) ∧
      f'.readStartCounts 0 + f'.readStartCounts 1 + f'.readStartCounts 2
        + f'.readStartCounts 3
        = (([(1, 3), (2, 3), (3, 0), (4, 0)] : List (Int × Nat)).length : Nat)) := by
  obtain ⟨p, hp, h0, h3, hthr⟩ := exampleModel_scores 0
  obtain ⟨f', hf, -⟩ := trace_3300 (DSegmentsFinder.new Real.log p) h0 h3 hthr rfl rfl
  exact ⟨p, f', hp, hf, C8_global_histogram_counts_clamped Real.log p f' _ hf⟩

/-- C6, witness: the same scan, in which a segment is emitted and its window
counts enter the segment-restricted histogram. -/
theorem C6_segment_histogram_le_global_witness :
    ∃ p f', exampleModel Real.log Real.exp 0 = Except.ok p ∧
      DSegmentsFinder.findDSegments Real.log (DSegmentsFinder.new Real.log p)
        [(1, 3), (2, 3), (3, 0), (4, 0)] = Except.ok f' ∧
      f'.dSegmentReadStartCounts 0 = 2 ∧
      ∀ b : Fin 4, f'.dSegmentReadStartCounts b ≤ f'.readStartCounts b := by
  obtain ⟨p, hp, h0, h3, hthr⟩ := exampleModel_scores 0
  obtain ⟨f', hf, -, d0, -⟩ := trace_3300 (DSegmentsFinder.new Real.log p) h0 h3 hthr rfl rfl
  exact ⟨p, f', hp, hf, d0,
    (C6_segment_histogram_le_global Real.log p [(1, 3), (2, 3), (3, 0), (4, 0)]).1 f' hf⟩

/-! ## C3: the statement, with the driver's model -/

theorem exp_neg_057_le : Real.exp (-(57 / 100)) ≤ 5658 / 10000 := by
  have h := Real.sum_le_exp_of_nonneg (x := 57 / 100) (by norm_num) 5
  simp only [Finset.sum_range_succ, Finset.sum_range_zero, Nat.factorial] at h
  norm_num at h
  have hpos := Real.exp_pos (-(57 / 100))
  have hmul : Real.exp (-(57 / 100)) * Real.exp (57 / 100) = 1 := by
    rw [← Real.exp_add]; norm_num
  nlinarith

theorem exp_neg_038_bounds :
    6837 / 10000 ≤ Real.exp (-(38 / 100)) ∧ Real.exp (-(38 / 100)) ≤ 6844 / 10000 := by
  have h := Real.sum_le_exp_of_nonneg (x := 38 / 100) (by norm_num) 4
  simp only [Finset.sum_range_succ, Finset.sum_range_zero, Nat.factorial] at h
  norm_num at h
  have hu := Real.exp_bound' (x := 38 / 100) (by norm_num) (by norm_num) (n := 4) (by norm_num)
  simp only [Finset.sum_range_succ, Finset.sum_range_zero, Nat.factorial] at hu
  norm_num at hu
  have hpos := Real.exp_pos (-(38 / 100))
  have hmul : Real.exp (-(38 / 100)) * Real.exp (38 / 100) = 1 := by
    rw [← Real.exp_add]; norm_num
  constructor <;> nlinarith

/-- The top-bucket entry the constructor stores is `1 - (1 + μ + μ²/2) exp (-μ)`. -/
theorem poisson_top_bucket (mean : ℝ) :
    1 - (HMMProbabilities.calculatePoissonProbability Real.exp mean 0
      + HMMProbabilities.calculatePoissonProbability Real.exp mean 1
      + HMMProbabilities.calculatePoissonProbability Real.exp mean 2)
    = 1 - (1 + mean + mean ^ 2 / 2) * Real.exp (-mean) := by
  simp [HMMProbabilities.calculatePoissonProbability, HMMProbabilities.factorial]
  ring

/-- In the driver's model the score of bucket 3 is positive. -/
theorem driver_three_score_pos {nan : ℝ} {p : HMMProbabilities ℝ}
    (hp : HMMProbabilities.Built Real.log Real.exp nan 1000000 10000 (38 / 100) (57 / 100) p) :
    ∃ s3, p.dSegmentScore Real.log 3 = Except.ok s3 ∧ 0 < s3 := by
  obtain ⟨t11, -, -, t22⟩ := driver_transitions hp
  have h57 := exp_neg_057_le
  obtain ⟨h38l, h38u⟩ := exp_neg_038_bounds
  refine ⟨Real.log ((1 - (1 + 57 / 100 + (57 / 100) ^ 2 / 2) * Real.exp (-(57 / 100)))
      * (9999 / 10000)) / Real.log 2
    - Real.log ((1 - (1 + 38 / 100 + (38 / 100) ^ 2 / 2) * Real.exp (-(38 / 100)))
      * (999999 / 1000000)) / Real.log 2, ?_, ?_⟩
  · simp only [HMMProbabilities.dSegmentScore, mapAt, hp.e13, hp.e23, poisson_top_bucket,
      t11, t22]
  · have hpos1 : 0 < (1 - (1 + 38 / 100 + (38 / 100) ^ 2 / 2) * Real.exp (-(38 / 100)))
        * (999999 / 1000000) := by
      apply mul_pos _ (by norm_num)
      nlinarith
    have hlt : (1 - (1 + 38 / 100 + (38 / 100) ^ 2 / 2) * Real.exp (-(38 / 100)))
        * (999999 / 1000000)
        < (1 - (1 + 57 / 100 + (57 / 100) ^ 2 / 2) * Real.exp (-(57 / 100)))
        * (9999 / 10000) := by
      nlinarith
    have hlog := Real.log_lt_log hpos1 hlt
    have hL : 0 < Real.log 2 := Real.log_pos (by norm_num)
    have := div_lt_div_of_pos_right hlog hL
    linarith

/-- C3 (amended). Scores and threshold are finite numbers: elements of a linearly
ordered field.  In every model that scores bucket 0 negatively and bucket 3
positively and has a positive threshold, scanning `m` observations of count 0,
then `k ≥ 1` of count 3 with `k * dSegmentScore(3) ≥ threshold`, then `n` of count
0, at the contiguous positions `1 .. m + k + n`, emits exactly one segment, which spans the
run of 3s: start `m + 1`, end `m + k`.  The model built from lengths 1000000 and
10000 and means 0.38 and 0.57 is such a model. -/
theorem C3_single_segment_spans_run :
    (∀ (α : Type) [LinearOrderedField α] (log : α → α) (p : HMMProbabilities α) (s0 s3 : α)
      (m k n : Nat),
      p.dSegmentScore log 0 = Except.ok s0 → p.dSegmentScore log 3 = Except.ok s3 →
      s0 < 0 → 0 < s3 → 0 < (DSegmentsFinder.new log p).threshold →
      1 ≤ k → (DSegmentsFinder.new log p).threshold ≤ (k : α) * s3 →
      ∃ f', DSegmentsFinder.findDSegments log (DSegmentsFinder.new log p) (embeddedRun m k n)
          = Except.ok f' ∧
        f'.segments = [Segment.mk ((m : Int) + 1) ((m : Int) + (k : Int)) ((k : α) * s3)]) ∧
    (∀ (nan : ℝ) (mem : HMMProbabilities ℝ),
      ∃ p s0 s3, HMMProbabilities.new Real.log Real.exp nan mem 1000000 10000
          (38 / 100) (57 / 100) = Except.ok p ∧
        p.dSegmentScore Real.log 0 = Except.ok s0 ∧ p.dSegmentScore Real.log 3 = Except.ok s3 ∧
        s0 < 0 ∧ 0 < s3 ∧ 0 < (DSegmentsFinder.new Real.log p).threshold) := by
  constructor
  · intro α _ log p s0 s3 m k n hz ht hs0 hs3 hthr hk hreach
    exact single_segment_spans_run log p s0 s3 m k n hz ht hs0 hs3 hthr hk hreach
  · intro nan mem
    obtain ⟨p, hp, hbuilt⟩ := HMMProbabilities.new_built Real.log Real.exp nan mem
      1000000 10000 (38 / 100) (57 / 100)
    obtain ⟨s0, hs0, hneg⟩ := driver_zero_score_neg hbuilt
    obtain ⟨s3, hs3, hpos⟩ := driver_three_score_pos hbuilt
    exact ⟨p, s0, s3, hp, hs0, hs3, hneg, hpos, driver_threshold_pos hbuilt⟩

/-- C3, witness: in the example model (scores `-1` and `1`, threshold 2) the input
0, 3, 3, 0 at the positions 1..4 yields the single segment from 2 to 3. -/
theorem C3_single_segment_spans_run_witness :
    ∃ p f', exampleModel Real.log Real.exp 0 = Except.ok p ∧
      DSegmentsFinder.findDSegments Real.log (DSegmentsFinder.new Real.log p)
        (embeddedRun 1 2 1) = Except.ok f' ∧
      f'.segments = [Segment.mk (((1 : Nat) : Int) + 1) (((1 : Nat) : Int) + ((2 : Nat) : Int))
        (((2 : Nat) : ℝ) * 1)] := by
  obtain ⟨p, hp, h0, h3, hthr⟩ := exampleModel_scores 0
  obtain ⟨f', hf, hseg⟩ := C3_single_segment_spans_run.1 ℝ Real.log p (-1) 1 1 2 1 h0 h3
    (by norm_num) (by norm_num) (by rw [hthr]; norm_num) (by norm_num)
    (by rw [hthr]; norm_num)
  exact ⟨p, f', hp, hf, hseg⟩

/-- The input of C3 is what its description says: the positions are `1, 2, ...`
and the counts are `m` zeros, `k` threes, `n` zeros. -/
theorem embeddedRun_spec (m k n : Nat) :
    (embeddedRun m k n).map Prod.snd =
      List.replicate m 0 ++ (List.replicate k 3 ++ List.replicate n 0) ∧
    (embeddedRun m k n).map Prod.fst =
      (List.range (m + k + n)).map (fun i : Nat => (i : Int) + 1) := by
  have hsnd : ∀ (c : Nat) (j : Nat) (a : Int),
      (constRun c a j).map Prod.snd = List.replicate j c := by
    intro c j
    induction j with
    | zero => intro a; rfl
    | succ j ih => intro a; simp [constRun, ih, List.replicate_succ]
  have hfst : ∀ (c : Nat) (j : Nat) (a : Int),
      (constRun c a j).map Prod.fst = (List.range j).map (fun i : Nat => a + (i : Int) + 1) := by
    intro c j
    induction j with
    | zero => intro a; rfl
    | succ j ih =>
      intro a
      rw [constRun, List.map_cons, ih, List.range_succ_eq_map, List.map_cons, List.map_map]
      simp only [Nat.cast_zero, add_zero, List.cons.injEq, true_and]
      apply List.map_congr_left
      intro i _
      simp only [Function.comp, Nat.cast_succ]
      ring
  constructor
  · simp [embeddedRun, hsnd]
  · simp only [embeddedRun, List.map_append, hfst]
    rw [List.range_add, List.range_add, List.map_append, List.map_append, List.map_map,
      List.map_map, List.append_assoc]
    refine congrArg₂ (fun a b => a ++ b) ?_ (congrArg₂ (fun a b => a ++ b) ?_ ?_) <;>
      (apply List.map_congr_left; intro i _; dsimp only [Function.comp]; push_cast; ring)

/-! ## C11, C12 and C13: what the four-parameter constructor stores -/

/-- The three Poisson entries in closed form. -/
theorem calculatePoissonProbability_eq (mean : ℝ) (k : Nat) :
    HMMProbabilities.calculatePoissonProbability Real.exp mean k
      = mean ^ k * Real.exp (-mean) / ((Nat.factorial k : Nat) : ℝ) := by
  have hf : ∀ n : Nat, HMMProbabilities.factorial n = ((Nat.factorial n : Nat) : Int) := by
    intro n
    induction n with
    | zero => rfl
    | succ n ih => rw [HMMProbabilities.factorial, ih, Nat.factorial_succ]; push_cast; ring
  unfold HMMProbabilities.calculatePoissonProbability
  rw [hf k]
  push_cast
  rfl

/-- The entries of one state after `populateEmissionProbabilities`; the other
states keep their entries. -/
theorem populateEmissionProbabilities_entries (log exp : ℝ → ℝ) (nan : ℝ)
    (p : HMMProbabilities ℝ) (state : Int) (poissonMean : ℝ)
    (h0 : p.emissionResidueMap "0" = some 0) (h1 : p.emissionResidueMap "1" = some 1)
    (h2 : p.emissionResidueMap "2" = some 2) (h3 : p.emissionResidueMap "3" = some 3) :
    ∃ p', HMMProbabilities.populateEmissionProbabilities log exp nan p state poissonMean
        = Except.ok p' ∧
      p'.emissionProbabilities state 0 =
        some (HMMProbabilities.calculatePoissonProbability exp poissonMean 0) ∧
      p'.emissionProbabilities state 1 =
        some (HMMProbabilities.calculatePoissonProbability exp poissonMean 1) ∧
      p'.emissionProbabilities state 2 =
        some (HMMProbabilities.calculatePoissonProbability exp poissonMean 2) ∧
      p'.emissionProbabilities state 3 =
        some (1 - (HMMProbabilities.calculatePoissonProbability exp poissonMean 0
          + HMMProbabilities.calculatePoissonProbability exp poissonMean 1
          + HMMProbabilities.calculatePoissonProbability exp poissonMean 2)) := by
  refine ⟨_, populateEmissionProbabilities_ok log exp nan p state poissonMean h0 h1 h2 h3,
    ?_, ?_, ?_, ?_⟩ <;> simp [mapSet]

/-- C11. On a model whose residue map holds the keys "0".."3" (as after
`createEmissionResidueMap`), `populateEmissionProbabilities` for a state and a mean
`μ` returns without error and stores `μ^k e^(-μ) / k!` for the buckets `k = 0, 1, 2`
and one minus their sum for the bucket 3; the four entries sum to 1. -/
theorem C11_populate_stores_poisson_masses (log : ℝ → ℝ) (nan : ℝ) (p : HMMProbabilities ℝ)
    (state : Int) (μ : ℝ)
    (h0 : p.emissionResidueMap "0" = some 0) (h1 : p.emissionResidueMap "1" = some 1)
    (h2 : p.emissionResidueMap "2" = some 2) (h3 : p.emissionResidueMap "3" = some 3) :
    ∃ p' e0 e1 e2 e3,
      HMMProbabilities.populateEmissionProbabilities log Real.exp nan p state μ
        = Except.ok p' ∧
      p'.emissionProbabilities state 0 = some e0 ∧ p'.emissionProbabilities state 1 = some e1 ∧
      p'.emissionProbabilities state 2 = some e2 ∧ p'.emissionProbabilities state 3 = some e3 ∧
      e0 = μ ^ 0 * Real.exp (-μ) / ((Nat.factorial 0 : Nat) : ℝ) ∧
      e1 = μ ^ 1 * Real.exp (-μ) / ((Nat.factorial 1 : Nat) : ℝ) ∧
      e2 = μ ^ 2 * Real.exp (-μ) / ((Nat.factorial 2 : Nat) : ℝ) ∧
      e3 = 1 - (e0 + e1 + e2) ∧
      e0 + e1 + e2 + e3 = 1 := by
  obtain ⟨p', hp', e0, e1, e2, e3⟩ :=
    populateEmissionProbabilities_entries log Real.exp nan p state μ h0 h1 h2 h3
  exact ⟨p', _, _, _, _, hp', e0, e1, e2, e3, calculatePoissonProbability_eq μ 0,
    calculatePoissonProbability_eq μ 1, calculatePoissonProbability_eq μ 2, rfl, by ring⟩

/-- C11, witness: state 1 with mean 0.38 on the residue map the constructor creates. -/
theorem C11_populate_stores_poisson_masses_witness :
    ∃ p' e0 e1 e2 e3,
      HMMProbabilities.populateEmissionProbabilities Real.log Real.exp 0
        (HMMProbabilities.createEmissionResidueMap HMMProbabilities.zeroMemory) 1 (38 / 100)
        = Except.ok p' ∧
      p'.emissionProbabilities 1 0 = some e0 ∧ p'.emissionProbabilities 1 1 = some e1 ∧
      p'.emissionProbabilities 1 2 = some e2 ∧ p'.emissionProbabilities 1 3 = some e3 ∧
      e0 = (38 / 100 : ℝ) ^ 0 * Real.exp (-(38 / 100)) / ((Nat.factorial 0 : Nat) : ℝ) ∧
      e1 = (38 / 100 : ℝ) ^ 1 * Real.exp (-(38 / 100)) / ((Nat.factorial 1 : Nat) : ℝ) ∧
      e2 = (38 / 100 : ℝ) ^ 2 * Real.exp (-(38 / 100)) / ((Nat.factorial 2 : Nat) : ℝ) ∧
      e3 = 1 - (e0 + e1 + e2) ∧
      e0 + e1 + e2 + e3 = 1 :=
  C11_populate_stores_poisson_masses Real.log 0
    (HMMProbabilities.createEmissionResidueMap HMMProbabilities.zeroMemory) 1 (38 / 100)
    rfl rfl rfl rfl

/-- C12, counterexample: for the mean `-1` the entry stored for bucket 1 is
`(-1)^1 e^1 / 1!`, which is negative, so the four entries are not a probability
distribution. -/
theorem C12_negative_mean_counterexample :
    ∃ p' e1,
      HMMProbabilities.populateEmissionProbabilities Real.log Real.exp 0
        (HMMProbabilities.createEmissionResidueMap HMMProbabilities.zeroMemory) 1 (-1)
        = Except.ok p' ∧
      p'.emissionProbabilities 1 1 = some e1 ∧ e1 < 0 := by
  obtain ⟨p', hp', -, e1, -, -⟩ :=
    populateEmissionProbabilities_entries Real.log Real.exp 0
      (HMMProbabilities.createEmissionResidueMap HMMProbabilities.zeroMemory) 1 (-1)
      rfl rfl rfl rfl
  refine ⟨p', _, hp', e1, ?_⟩
  rw [calculatePoissonProbability_eq]
  have := Real.exp_pos (-(-1 : ℝ))
  simp only [pow_one, Nat.factorial_one, Nat.cast_one, div_one]
  nlinarith

/-- C12 (amended). For every mean `μ ≥ 0`, the four entries that
`populateEmissionProbabilities` stores for a state each lie in `[0, 1]` and sum
to 1. -/
theorem C12_populate_valid_distribution_of_nonneg (log : ℝ → ℝ) (nan : ℝ)
    (p : HMMProbabilities ℝ) (state : Int) (μ : ℝ) (hμ : 0 ≤ μ)
    (h0 : p.emissionResidueMap "0" = some 0) (h1 : p.emissionResidueMap "1" = some 1)
    (h2 : p.emissionResidueMap "2" = some 2) (h3 : p.emissionResidueMap "3" = some 3) :
    ∃ p' e0 e1 e2 e3,
      HMMProbabilities.populateEmissionProbabilities log Real.exp nan p state μ
        = Except.ok p' ∧
      p'.emissionProbabilities state 0 = some e0 ∧ p'.emissionProbabilities state 1 = some e1 ∧
      p'.emissionProbabilities state 2 = some e2 ∧ p'.emissionProbabilities state 3 = some e3 ∧
      (0 ≤ e0 ∧ e0 ≤ 1) ∧ (0 ≤ e1 ∧ e1 ≤ 1) ∧ (0 ≤ e2 ∧ e2 ≤ 1) ∧ (0 ≤ e3 ∧ e3 ≤ 1) ∧
      e0 + e1 + e2 + e3 = 1 := by
  obtain ⟨p', hp', e0, e1, e2, e3⟩ :=
    populateEmissionProbabilities_entries log Real.exp nan p state μ h0 h1 h2 h3
  have hE := Real.exp_pos (-μ)
  have hq := Real.quadratic_le_exp_of_nonneg hμ
  have hmul : Real.exp (-μ) * Real.exp μ = 1 := by
    rw [← Real.exp_add]; simp
  have hsum : (1 + μ + μ ^ 2 / 2) * Real.exp (-μ) ≤ 1 := by nlinarith
  have c0 : HMMProbabilities.calculatePoissonProbability Real.exp μ 0 = Real.exp (-μ) := by
    rw [calculatePoissonProbability_eq]; simp
  have c1 : HMMProbabilities.calculatePoissonProbability Real.exp μ 1 = μ * Real.exp (-μ) := by
    rw [calculatePoissonProbability_eq]; simp
  have c2 : HMMProbabilities.calculatePoissonProbability Real.exp μ 2
      = μ ^ 2 / 2 * Real.exp (-μ) := by
    rw [calculatePoissonProbability_eq]
    simp only [Nat.factorial, Nat.succ_eq_add_one, zero_add, Nat.reduceAdd, mul_one,
      Nat.reduceMul, Nat.cast_ofNat]
    ring
  have p1 : 0 ≤ μ * Real.exp (-μ) := mul_nonneg hμ (le_of_lt hE)
  have p2 : 0 ≤ μ ^ 2 / 2 * Real.exp (-μ) := mul_nonneg (by positivity) (le_of_lt hE)
  have hexp : (1 + μ + μ ^ 2 / 2) * Real.exp (-μ)
      = Real.exp (-μ) + μ * Real.exp (-μ) + μ ^ 2 / 2 * Real.exp (-μ) := by ring
  rw [c0, c1, c2] at e3
  rw [c0] at e0
  rw [c1] at e1
  rw [c2] at e2
  refine ⟨p', _, _, _, _, hp', e0, e1, e2, e3, ⟨le_of_lt hE, ?_⟩, ⟨p1, ?_⟩, ⟨p2, ?_⟩,
    ⟨?_, ?_⟩, by ring⟩ <;> linarith

/-- C12 (amended), witness: state 2 with mean 0.57. -/
theorem C12_populate_valid_distribution_of_nonneg_witness :
    ∃ p' e0 e1 e2 e3,
      HMMProbabilities.populateEmissionProbabilities Real.log Real.exp 0
        (HMMProbabilities.createEmissionResidueMap HMMProbabilities.zeroMemory) 2 (57 / 100)
        = Except.ok p' ∧
      p'.emissionProbabilities 2 0 = some e0 ∧ p'.emissionProbabilities 2 1 = some e1 ∧
      p'.emissionProbabilities 2 2 = some e2 ∧ p'.emissionProbabilities 2 3 = some e3 ∧
      (0 ≤ e0 ∧ e0 ≤ 1) ∧ (0 ≤ e1 ∧ e1 ≤ 1) ∧ (0 ≤ e2 ∧ e2 ≤ 1) ∧ (0 ≤ e3 ∧ e3 ≤ 1) ∧
      e0 + e1 + e2 + e3 = 1 :=
  C12_populate_valid_distribution_of_nonneg Real.log 0
    (HMMProbabilities.createEmissionResidueMap HMMProbabilities.zeroMemory) 2 (57 / 100)
    (by norm_num) rfl rfl rfl rfl

/-- C13. For non-zero `normalLength = n` and `elevatedLength = m` the four-parameter
constructor returns without error a model with `P11 = 1 - 1/n`, `P12 = 1/n`,
`P21 = 1/m`, `P22 = 1 - 1/m`; so the transition entries out of state 1 sum to 1, as
do those out of state 2. -/
theorem C13_constructor_transition_rows (nan : ℝ) (mem : HMMProbabilities ℝ)
    (normalLength elevatedLength : Int) (normalMean elevatedMean : ℝ)
    (hn : normalLength ≠ 0) (hm : elevatedLength ≠ 0) :
    ∃ p, HMMProbabilities.new Real.log Real.exp nan mem normalLength elevatedLength
        normalMean elevatedMean = Except.ok p ∧
      p.transitionProbability 1 1 = 1 - 1 / (normalLength : ℝ) ∧
      p.transitionProbability 1 2 = 1 / (normalLength : ℝ) ∧
      p.transitionProbability 2 1 = 1 / (elevatedLength : ℝ) ∧
      p.transitionProbability 2 2 = 1 - 1 / (elevatedLength : ℝ) ∧
      p.transitionProbability 1 1 + p.transitionProbability 1 2 = 1 ∧
      p.transitionProbability 2 1 + p.transitionProbability 2 2 = 1 := by
  obtain ⟨p, hp, hb⟩ := HMMProbabilities.new_built Real.log Real.exp nan mem
    normalLength elevatedLength normalMean elevatedMean
  refine ⟨p, hp, hb.t11, hb.t12, hb.t21, hb.t22, ?_, ?_⟩
  · show p.transitionProbabilities 1 1 + p.transitionProbabilities 1 2 = 1
    rw [hb.t11, hb.t12]; ring
  · show p.transitionProbabilities 2 1 + p.transitionProbabilities 2 2 = 1
    rw [hb.t21, hb.t22]; ring

/-- C13, witness: the driver's lengths 1000000 and 10000. -/
theorem C13_constructor_transition_rows_witness :
    ∃ p, HMMProbabilities.new Real.log Real.exp 0 HMMProbabilities.zeroMemory 1000000 10000
        (38 / 100) (57 / 100) = Except.ok p ∧
      p.transitionProbability 1 1 = 1 - 1 / ((1000000 : Int) : ℝ) ∧
      p.transitionProbability 1 2 = 1 / ((1000000 : Int) : ℝ) ∧
      p.transitionProbability 2 1 = 1 / ((10000 : Int) : ℝ) ∧
      p.transitionProbability 2 2 = 1 - 1 / ((10000 : Int) : ℝ) ∧
      p.transitionProbability 1 1 + p.transitionProbability 1 2 = 1 ∧
      p.transitionProbability 2 1 + p.transitionProbability 2 2 = 1 :=
  C13_constructor_transition_rows 0 HMMProbabilities.zeroMemory 1000000 10000
    (38 / 100) (57 / 100) (by decide) (by decide)

/-! ## C14 and C18: the setters -/

section Setters

variable {α : Type} [Zero α] [DecidableEq α]

open HMMProbabilities

/-- C14. Each setter stores the value at its key and, in the log mirror at the same
key, `log value` when the value is not 0 and the sentinel when it is 0; the entries
of both tables at every other key stay as they were.  `setEmissionProbability` does
so whenever its residue is a key of the residue map (with index `i`); the lookups by
state and residue then return the stored value and its log mirror, and the lookups
that use another state or an index other than `i` return what they returned
before. -/
theorem C14_setters_keep_mirrors_in_sync (log : α → α) (nan : α) (p : HMMProbabilities α)
    (state endState : Int) (residue : String) (i : Int) (v : α)
    (hres : p.emissionResidueMap residue = some i) :
    -- setInitiationProbability
    ((setInitiationProbability log nan p state v).initiationProbability state = v ∧
      (v ≠ 0 → (setInitiationProbability log nan p state v).logInitiationProbability state
        = log v) ∧
      (v = 0 → (setInitiationProbability log nan p state v).logInitiationProbability state
        = nan) ∧
      ∀ s', s' ≠ state →
        (setInitiationProbability log nan p state v).initiationProbability s'
          = p.initiationProbability s' ∧
        (setInitiationProbability log nan p state v).logInitiationProbability s'
          = p.logInitiationProbability s') ∧
    -- setTransitionProbability
    ((setTransitionProbability log nan p state endState v).transitionProbability state endState
        = v ∧
      (v ≠ 0 → (setTransitionProbability log nan p state endState v).logTransitionProbability
        state endState = log v) ∧
      (v = 0 → (setTransitionProbability log nan p state endState v).logTransitionProbability
        state endState = nan) ∧
      ∀ s' e', (s' ≠ state ∨ e' ≠ endState) →
        (setTransitionProbability log nan p state endState v).transitionProbability s' e'
          = p.transitionProbability s' e' ∧
        (setTransitionProbability log nan p state endState v).logTransitionProbability s' e'
          = p.logTransitionProbability s' e') ∧
    -- setEmissionProbability
    (∃ p', setEmissionProbability log nan p state residue v = Except.ok p' ∧
      p'.emissionProbability state residue = Except.ok v ∧
      (v ≠ 0 → p'.logEmissionProbability state residue = Except.ok (log v)) ∧
      (v = 0 → p'.logEmissionProbability state residue = Except.ok nan) ∧
      (∀ s' j, (s' ≠ state ∨ j ≠ i) →
        p'.emissionProbabilities s' j = p.emissionProbabilities s' j ∧
        p'.logEmissionProbabilities s' j = p.logEmissionProbabilities s' j) ∧
      (∀ s' r', (s' ≠ state ∨ p.emissionResidueMap r' ≠ some i) →
        p'.emissionProbability s' r' = p.emissionProbability s' r' ∧
        p'.logEmissionProbability s' r' = p.logEmissionProbability s' r')) := by
  refine ⟨⟨?_, ?_, ?_, ?_⟩, ⟨?_, ?_, ?_, ?_⟩, ?_⟩
  · simp [setInitiationProbability, initiationProbability, arraySet]
  · intro hv
    simp [setInitiationProbability, logInitiationProbability, arraySet, logVal, hv]
  · intro hv
    simp [setInitiationProbability, logInitiationProbability, arraySet, logVal, hv]
  · intro s' hs'
    simp [setInitiationProbability, initiationProbability, logInitiationProbability,
      arraySet, hs']
  · simp [setTransitionProbability, transitionProbability, arraySet2]
  · intro hv
    simp [setTransitionProbability, logTransitionProbability, arraySet2, logVal, hv]
  · intro hv
    simp [setTransitionProbability, logTransitionProbability, arraySet2, logVal, hv]
  · intro s' e' hne
    have hnot : ¬ (s' = state ∧ e' = endState) := by
      rintro ⟨h1, h2⟩
      rcases hne with h | h
      · exact h h1
      · exact h h2
    simp [setTransitionProbability, transitionProbability, logTransitionProbability,
      arraySet2, hnot]
  · obtain ⟨p', hp', hr, -, -, he⟩ := setEmissionProbability_spec log nan p state residue v i hres
    have hl : p'.logEmissionProbabilities
        = mapSet p.logEmissionProbabilities state i (logVal log nan v) := by
      simp only [setEmissionProbability, getEmissionResidueIndex, hres] at hp'
      cases hp'
      rfl
    refine ⟨p', hp', ?_, ?_, ?_, ?_, ?_⟩
    · simp [emissionProbability, getEmissionResidueIndex, hr, hres, he, mapAt, mapSet]
    · intro hv
      simp [logEmissionProbability, getEmissionResidueIndex, hr, hres, hl, mapAt, mapSet,
        logVal, hv]
    · intro hv
      simp [logEmissionProbability, getEmissionResidueIndex, hr, hres, hl, mapAt, mapSet,
        logVal, hv]
    · intro s' j hne
      have hnot : ¬ (s' = state ∧ j = i) := by
        rintro ⟨h1, h2⟩
        rcases hne with h | h
        · exact h h1
        · exact h h2
      simp [he, hl, mapSet, hnot]
    · intro s' r' hne
      simp only [emissionProbability, logEmissionProbability, getEmissionResidueIndex, hr]
      cases hr' : p.emissionResidueMap r' with
      | none => simp
      | some j =>
        have hnot : ¬ (s' = state ∧ j = i) := by
          rintro ⟨h1, h2⟩
          rcases hne with h | h
          · exact h h1
          · exact h (by rw [hr', h2])
        simp [he, hl, mapAt, mapSet, hnot]

end Setters

/-- C14, witness: the three setters on the residue map the constructor creates, with
the value 1/2. -/
theorem C14_setters_keep_mirrors_in_sync_witness :
    (HMMProbabilities.setTransitionProbability Real.log 0
        (HMMProbabilities.createEmissionResidueMap HMMProbabilities.zeroMemory) 1 2
        (1 / 2)).transitionProbability 1 2 = 1 / 2 ∧
    (HMMProbabilities.setTransitionProbability Real.log 0
        (HMMProbabilities.createEmissionResidueMap HMMProbabilities.zeroMemory) 1 2
        (1 / 2)).logTransitionProbability 1 2 = Real.log (1 / 2) ∧
    ∃ p', HMMProbabilities.setEmissionProbability Real.log 0
        (HMMProbabilities.createEmissionResidueMap HMMProbabilities.zeroMemory) 1 "3" (1 / 2)
        = Except.ok p' ∧
      p'.emissionProbability 1 "3" = Except.ok (1 / 2) ∧
      p'.logEmissionProbability 1 "3" = Except.ok (Real.log (1 / 2)) := by
  have h := C14_setters_keep_mirrors_in_sync Real.log 0
    (HMMProbabilities.createEmissionResidueMap HMMProbabilities.zeroMemory) 1 2 "3" 3
    (1 / 2 : ℝ) rfl
  obtain ⟨-, ⟨t1, t2, -, -⟩, p', hp', e1, e2, -, -, -⟩ := h
  exact ⟨t1, t2 (by norm_num), p', hp', e1, e2 (by norm_num)⟩

section SetterOrder

variable {α : Type} [Zero α] [DecidableEq α] [Add α] [Sub α] [Div α] [OfNat α (nat_lit 2)]

open HMMProbabilities

/-- C18. Two `setTransitionProbability` calls on different keys commute: either
order yields the same model, in particular the same linear and log transition
tables, and therefore the `DSegmentsFinder` constructor computes the same
threshold from it. -/
theorem C18_transition_setters_commute (log : α → α) (nan : α) (p : HMMProbabilities α)
    (i j i' j' : Int) (v v' : α) (hne : i ≠ i' ∨ j ≠ j') :
    setTransitionProbability log nan (setTransitionProbability log nan p i j v) i' j' v'
      = setTransitionProbability log nan (setTransitionProbability log nan p i' j' v') i j v ∧
    (setTransitionProbability log nan (setTransitionProbability log nan p i j v) i' j'
        v').transitionProbabilities
      = (setTransitionProbability log nan (setTransitionProbability log nan p i' j' v') i j
        v).transitionProbabilities ∧
    (setTransitionProbability log nan (setTransitionProbability log nan p i j v) i' j'
        v').logTransitionProbabilities
      = (setTransitionProbability log nan (setTransitionProbability log nan p i' j' v') i j
        v).logTransitionProbabilities ∧
    (DSegmentsFinder.new log
        (setTransitionProbability log nan (setTransitionProbability log nan p i j v) i' j'
          v')).threshold
      = (DSegmentsFinder.new log
        (setTransitionProbability log nan (setTransitionProbability log nan p i' j' v') i j
          v)).threshold := by
  have hcomm : ∀ (a : Int → Int → α) (w w' : α),
      arraySet2 (arraySet2 a i j w) i' j' w' = arraySet2 (arraySet2 a i' j' w') i j w := by
    intro a w w'
    funext x y
    show (if x = i' ∧ y = j' then w' else if x = i ∧ y = j then w else a x y)
      = (if x = i ∧ y = j then w else if x = i' ∧ y = j' then w' else a x y)
    by_cases h1 : x = i ∧ y = j
    · by_cases h2 : x = i' ∧ y = j'
      · exfalso
        rcases hne with h | h
        · exact h (h1.1.symm.trans h2.1)
        · exact h (h1.2.symm.trans h2.2)
      · rw [if_neg h2, if_pos h1, if_pos h1]
    · by_cases h2 : x = i' ∧ y = j'
      · rw [if_pos h2, if_neg h1, if_pos h2]
      · rw [if_neg h2, if_neg h1, if_neg h1, if_neg h2]
  have heq : setTransitionProbability log nan (setTransitionProbability log nan p i j v)
        i' j' v'
      = setTransitionProbability log nan (setTransitionProbability log nan p i' j' v')
        i j v := by
    simp only [setTransitionProbability, hcomm]
  exact ⟨heq, by rw [heq], by rw [heq], by rw [heq]⟩

end SetterOrder

/-- C18, witness: setting `P(1→1) = 2/3` and `P(1→2) = 1/3` in either order. -/
theorem C18_transition_setters_commute_witness :
    (DSegmentsFinder.new Real.log
        (HMMProbabilities.setTransitionProbability Real.log 0
          (HMMProbabilities.setTransitionProbability Real.log 0 HMMProbabilities.zeroMemory
            1 1 (2 / 3)) 1 2 (1 / 3))).threshold
      = (DSegmentsFinder.new Real.log
        (HMMProbabilities.setTransitionProbability Real.log 0
          (HMMProbabilities.setTransitionProbability Real.log 0 HMMProbabilities.zeroMemory
            1 2 (1 / 3)) 1 1 (2 / 3))).threshold :=
  (C18_transition_setters_commute Real.log 0 HMMProbabilities.zeroMemory 1 1 1 2
    (2 / 3 : ℝ) (1 / 3) (Or.inr (by decide))).2.2.2

/-! ## C15: the lookups -/

/-- What the four-parameter constructor leaves alone: the initiation arrays, the
transition entries outside the keys (1,1), (1,2), (2,1), (2,2), and the residue map
outside the keys "0".."3". -/
theorem HMMProbabilities.new_untouched (log exp : ℝ → ℝ) (nan : ℝ) (mem : HMMProbabilities ℝ)
    (normalLength elevatedLength : Int) (normalMean elevatedMean : ℝ) :
    ∃ p, HMMProbabilities.new log exp nan mem normalLength elevatedLength normalMean
        elevatedMean = Except.ok p ∧
      p.initiationProbabilities = mem.initiationProbabilities ∧
      p.logInitiationProbabilities = mem.logInitiationProbabilities ∧
      p.transitionProbabilities 0 0 = mem.transitionProbabilities 0 0 ∧
      p.logTransitionProbabilities 0 0 = mem.logTransitionProbabilities 0 0 ∧
      p.emissionResidueMap "7" = none ∧
      p.emissionResidueMap "3" = some 3 ∧
      p.emissionProbabilities 0 3 = none ∧
      p.logEmissionProbabilities 0 3 = none := by
  unfold HMMProbabilities.new
  simp only
  rw [populateEmissionProbabilities_ok _ _ _ _ _ _ rfl rfl rfl rfl]
  simp only
  rw [populateEmissionProbabilities_ok _ _ _ _ _ _ rfl rfl rfl rfl]
  refine ⟨_, rfl, rfl, rfl, ?_, ?_, ?_, ?_, ?_, ?_⟩ <;>
    simp [mapSet, arraySet2, HMMProbabilities.setTransitionProbability,
      HMMProbabilities.createEmissionResidueMap, HMMProbabilities.uninitialized]

/-- C15, counterexample: in the model the four-parameter constructor builds (here
over memory that held zeros), no initiation probability was ever stored and the
transition key (0,0) was never set, yet `initiationProbability(1)`,
`logInitiationProbability(1)`, `transitionProbability(0,0)` and
`logTransitionProbability(0,0)` return the memory content 0 instead of failing.
Only the emission lookups fail: for the residue "7", and for state 0, whose
emissions were never set. -/
theorem C15_array_lookups_do_not_fail_counterexample :
    ∃ p, HMMProbabilities.new Real.log Real.exp 0 HMMProbabilities.zeroMemory 1000000 10000
        (38 / 100) (57 / 100) = Except.ok p ∧
      p.initiationProbability 1 = 0 ∧ p.logInitiationProbability 1 = 0 ∧
      p.transitionProbability 0 0 = 0 ∧ p.logTransitionProbability 0 0 = 0 ∧
      p.emissionProbability 1 "7" = Except.error Error.OutOfRange ∧
      p.emissionProbability 0 "3" = Except.error Error.OutOfRange ∧
      p.logEmissionProbability 0 "3" = Except.error Error.OutOfRange := by
  obtain ⟨p, hp, hi, hli, ht, hlt, r7, r3, e03, l03⟩ :=
    HMMProbabilities.new_untouched Real.log Real.exp 0 HMMProbabilities.zeroMemory
      1000000 10000 (38 / 100) (57 / 100)
  refine ⟨p, hp, ?_, ?_, ?_, ?_, ?_, ?_, ?_⟩
  · show p.initiationProbabilities 1 = 0
    rw [hi]; rfl
  · show p.logInitiationProbabilities 1 = 0
    rw [hli]; rfl
  · show p.transitionProbabilities 0 0 = 0
    rw [ht]; rfl
  · show p.logTransitionProbabilities 0 0 = 0
    rw [hlt]; rfl
  · simp [HMMProbabilities.emissionProbability, HMMProbabilities.getEmissionResidueIndex, r7]
  · simp [HMMProbabilities.emissionProbability, HMMProbabilities.getEmissionResidueIndex, r3,
      mapAt, e03]
  · simp [HMMProbabilities.logEmissionProbability, HMMProbabilities.getEmissionResidueIndex,
      r3, mapAt, l03]

/-- C15 (amended). `emissionProbability` and `logEmissionProbability` fail with
`OutOfRange` when the residue is not a key of the residue map or the table has no
entry for the state and the residue's index, and return the stored entry otherwise.
`initiationProbability`, `transitionProbability` and their log counterparts are
unchecked array reads: for every state they return what the array holds at that
index and never fail. -/
theorem C15_emission_lookups_checked_array_lookups_not {α : Type} (p : HMMProbabilities α)
    (state endState : Int) (residue : String) :
    (p.emissionResidueMap residue = none →
      p.emissionProbability state residue = Except.error Error.OutOfRange ∧
      p.logEmissionProbability state residue = Except.error Error.OutOfRange) ∧
    (∀ i, p.emissionResidueMap residue = some i →
      (p.emissionProbabilities state i = none →
        p.emissionProbability state residue = Except.error Error.OutOfRange) ∧
      (p.logEmissionProbabilities state i = none →
        p.logEmissionProbability state residue = Except.error Error.OutOfRange) ∧
      (∀ v, p.emissionProbabilities state i = some v →
        p.emissionProbability state residue = Except.ok v) ∧
      (∀ v, p.logEmissionProbabilities state i = some v →
        p.logEmissionProbability state residue = Except.ok v)) ∧
    p.initiationProbability state = p.initiationProbabilities state ∧
    p.logInitiationProbability state = p.logInitiationProbabilities state ∧
    p.transitionProbability state endState = p.transitionProbabilities state endState ∧
    p.logTransitionProbability state endState
      = p.logTransitionProbabilities state endState := by
  refine ⟨?_, ?_, rfl, rfl, rfl, rfl⟩
  · intro h
    simp [HMMProbabilities.emissionProbability, HMMProbabilities.logEmissionProbability,
      HMMProbabilities.getEmissionResidueIndex, h]
  · intro i h
    refine ⟨?_, ?_, ?_, ?_⟩
    · intro he
      simp [HMMProbabilities.emissionProbability, HMMProbabilities.getEmissionResidueIndex, h,
        mapAt, he]
    · intro he
      simp [HMMProbabilities.logEmissionProbability, HMMProbabilities.getEmissionResidueIndex,
        h, mapAt, he]
    · intro v he
      simp [HMMProbabilities.emissionProbability, HMMProbabilities.getEmissionResidueIndex, h,
        mapAt, he]
    · intro v he
      simp [HMMProbabilities.logEmissionProbability, HMMProbabilities.getEmissionResidueIndex,
        h, mapAt, he]

/-- C15 (amended), witness: after `setEmissionProbability(1, "0", 1/2)` on the
residue map the constructor creates, the lookup of "0" in state 1 returns 1/2. -/
theorem C15_emission_lookups_checked_array_lookups_not_witness :
    ∃ p, HMMProbabilities.setEmissionProbability Real.log 0
        (HMMProbabilities.createEmissionResidueMap HMMProbabilities.zeroMemory) 1 "0" (1 / 2)
        = Except.ok p ∧
      p.emissionProbability 1 "0" = Except.ok (1 / 2) := by
  obtain ⟨p, hp, hr, -, -, he⟩ := setEmissionProbability_spec Real.log 0
    (HMMProbabilities.createEmissionResidueMap HMMProbabilities.zeroMemory) 1 "0"
    (1 / 2 : ℝ) 0 rfl
  exact ⟨p, hp,
    ((C15_emission_lookups_checked_array_lookups_not p 1 1 "0").2.1 0
      (by rw [hr]; rfl)).2.2.1 (1 / 2) (by rw [he]; simp [mapSet])⟩

/-! ## C16: the score rounding -/

/-- C16 (what the code does). The rounding in `segmentsResultsString` sends the raw
score 2.449999 to 2.4, and sends 2.45 to 2.4 as well (`floor (24.5 + 0.05) = 24`),
where rounding half up at one decimal place gives 2.5; even 2.49 is sent to 2.4. -/
theorem C16_rounding_truncates_instead_of_half_up :
    DSegmentsFinder.roundScore (2449999 / 1000000 : ℝ) = 24 / 10 ∧
    DSegmentsFinder.roundScore (245 / 100 : ℝ) = 24 / 10 ∧
    roundHalfUp1 (245 / 100 : ℝ) = 25 / 10 ∧
    DSegmentsFinder.roundScore (249 / 100 : ℝ) = 24 / 10 := by
  have f1 : Int.floor ((2449999 / 1000000 : ℝ) * 10 + 5 / 100) = 24 := by
    rw [Int.floor_eq_iff]; norm_num
  have f2 : Int.floor ((245 / 100 : ℝ) * 10 + 5 / 100) = 24 := by
    rw [Int.floor_eq_iff]; norm_num
  have f3 : Int.floor ((245 / 100 : ℝ) * 10 + 1 / 2) = 25 := by
    rw [Int.floor_eq_iff]; norm_num
  have f4 : Int.floor ((249 / 100 : ℝ) * 10 + 5 / 100) = 24 := by
    rw [Int.floor_eq_iff]; norm_num
  refine ⟨?_, ?_, ?_, ?_⟩
  · unfold DSegmentsFinder.roundScore; rw [f1]; norm_num
  · unfold DSegmentsFinder.roundScore; rw [f2]; norm_num
  · unfold roundHalfUp1; rw [f3]; norm_num
  · unfold DSegmentsFinder.roundScore; rw [f4]; norm_num

/-! ## C17: running the scan again -/

section Rerun

variable {α : Type} [Zero α] [Add α] [Sub α] [LE α] [∀ a b : α, Decidable (a ≤ b)]

open DSegmentsFinder

theorem scanBody_inStep (A B : DSegmentsFinder α) (s t : ScanState α) (position : Int)
    (readStarts : Fin 4) (score : α) (h : InStep A B s t) :
    InStep A B (scanBody s position readStarts score) (scanBody t position readStarts score) := by
  obtain ⟨hp, ht, hc, hcum, hmax, hst, hen, ⟨new, hsA, hsB⟩, hr, hd⟩ := h
  have acum : (advance t position readStarts score).cum
      = (advance s position readStarts score).cum := by
    show t.cum + score = s.cum + score
    rw [hcum]
  have amax : (advance t position readStarts score).max
      = (advance s position readStarts score).max := by
    show (if t.cum + score ≥ t.max then t.cum + score else t.max)
      = (if s.cum + score ≥ s.max then s.cum + score else s.max)
    rw [hcum, hmax]
  have aend : (advance t position readStarts score).end_
      = (advance s position readStarts score).end_ := by
    show (if t.cum + score ≥ t.max then position else t.end_)
      = (if s.cum + score ≥ s.max then position else s.end_)
    rw [hcum, hmax, hen]
  have acur : (advance t position readStarts score).currentSegmentReadStartCounts
      = (advance s position readStarts score).currentSegmentReadStartCounts := by
    show increment t.currentSegmentReadStartCounts readStarts
      = increment s.currentSegmentReadStartCounts readStarts
    rw [hc]
  have arsc : ∀ b, (advance s position readStarts score).finder.readStartCounts b
      - A.readStartCounts b
      = (advance t position readStarts score).finder.readStartCounts b
        - B.readStartCounts b := by
    intro b
    show increment s.finder.readStartCounts readStarts b - _
      = increment t.finder.readStartCounts readStarts b - _
    have := hr b
    unfold increment
    split <;> omega
  have hreset : resetTest (advance t position readStarts score)
      ↔ resetTest (advance s position readStarts score) := by
    show ((advance t position readStarts score).cum ≤ 0 ∨
        (advance t position readStarts score).cum
          ≤ (advance t position readStarts score).max - t.finder.threshold)
      ↔ ((advance s position readStarts score).cum ≤ 0 ∨
        (advance s position readStarts score).cum
          ≤ (advance s position readStarts score).max - s.finder.threshold)
    rw [acum, amax, ht]
  have hkeepInStep : InStep A B (advance s position readStarts score)
      (advance t position readStarts score) :=
    ⟨hp, ht, acur.symm, acum.symm, amax.symm, hst, aend.symm, ⟨new, hsA, hsB⟩, arsc, hd⟩
  by_cases h1 : resetTest (advance s position readStarts score)
  · by_cases h2 : s.finder.threshold ≤ (advance s position readStarts score).max
    · rw [scanBody_of_emit s _ _ _ h1 h2,
        scanBody_of_emit t _ _ _ (hreset.mpr h1) (by rw [amax, ← ht]; exact h2)]
      refine ⟨hp, ht, rfl, rfl, rfl, rfl, rfl,
        ⟨new ++ [Segment.mk (advance s position readStarts score).start
          (advance s position readStarts score).end_
          (advance s position readStarts score).max], ?_, ?_⟩, arsc, ?_⟩
      · show s.finder.segments ++ _ = _
        rw [hsA, List.append_assoc]
      · show t.finder.segments ++ [Segment.mk t.start _ _] = _
        rw [hsB, List.append_assoc, aend, amax, ← hst]
        rfl
      · intro b
        show s.finder.dSegmentReadStartCounts b
            + (advance s position readStarts score).currentSegmentReadStartCounts b - _
          = t.finder.dSegmentReadStartCounts b
            + (advance t position readStarts score).currentSegmentReadStartCounts b - _
        rw [acur]
        have := hd b
        omega
    · rw [scanBody_of_drop s _ _ _ h1 h2,
        scanBody_of_drop t _ _ _ (hreset.mpr h1) (by rw [amax, ← ht]; exact h2)]
      exact ⟨hp, ht, rfl, rfl, rfl, rfl, rfl, ⟨new, hsA, hsB⟩, arsc, hd⟩
  · rw [scanBody_of_keep s _ _ _ h1,
      scanBody_of_keep t _ _ _ (fun h => h1 (hreset.mp h))]
    exact hkeepInStep

variable [Mul α] [Div α] [OfNat α (nat_lit 2)]

theorem scanLoop_inStep (log : α → α) (A B : DSegmentsFinder α) :
    ∀ (input : List (Int × Nat)) (s t s' : ScanState α), InStep A B s t →
      scanLoop log s input = Except.ok s' →
      ∃ t', scanLoop log t input = Except.ok t' ∧ InStep A B s' t' := by
  intro input
  induction input with
  | nil =>
    intro s t s' h hs
    cases (show Except.ok s = Except.ok s' from hs)
    exact ⟨t, rfl, h⟩
  | cons line rest ih =>
    intro s t s' h hs
    obtain ⟨s1, h1, h2⟩ := scanLoop_cons_ok log s s' line rest hs
    obtain ⟨score, hscore, rfl⟩ := scanStep_ok log s s1 line h1
    obtain ⟨t', ht', hin⟩ := ih _ (scanBody t line.1 (clampReadStarts line.2) score) s'
      (scanBody_inStep A B s t line.1 _ score h) h2
    refine ⟨t', ?_, hin⟩
    rw [scanLoop_cons_of_score log t line rest score (by rw [← h.1]; exact hscore)]
    exact ht'

/-- The scan adds to what the finder already holds: started on two finders with the
same model and threshold, it appends the same segments to both segment lists and
adds the same amounts to both pairs of histograms. -/
theorem findDSegments_additive (log : α → α) (A B A' : DSegmentsFinder α)
    (input : List (Int × Nat)) (hp : A.probabilities = B.probabilities)
    (ht : A.threshold = B.threshold) (hA : findDSegments log A input = Except.ok A') :
    ∃ B' new, findDSegments log B input = Except.ok B' ∧
      A'.segments = A.segments ++ new ∧ B'.segments = B.segments ++ new ∧
      A'.probabilities = B'.probabilities ∧ A'.threshold = B'.threshold ∧
      (∀ b, A'.readStartCounts b - A.readStartCounts b
        = B'.readStartCounts b - B.readStartCounts b) ∧
      (∀ b, A'.dSegmentReadStartCounts b - A.dSegmentReadStartCounts b
        = B'.dSegmentReadStartCounts b - B.dSegmentReadStartCounts b) := by
  obtain ⟨s, hs, rfl⟩ := findDSegments_ok log A A' input hA
  have h0 : InStep A B (initialState A) (initialState B) :=
    ⟨hp, ht, rfl, rfl, rfl, rfl, rfl, ⟨[], by simp [initialState], by simp [initialState]⟩,
      fun b => by simp [initialState], fun b => by simp [initialState]⟩
  obtain ⟨t, htl, hp', ht', hc, -, hmax, hst, hen, ⟨new, hsA, hsB⟩, hr, hd⟩ :=
    scanLoop_inStep log A B input _ _ s h0 hs
  have hfB : findDSegments log B input = Except.ok (flush t) := by
    unfold findDSegments
    rw [htl]
  by_cases hm : s.max ≥ s.finder.threshold
  · have hmt : t.max ≥ t.finder.threshold := by rw [← hmax, ← ht']; exact hm
    refine ⟨flush t, new ++ [Segment.mk s.start s.end_ s.max], hfB, ?_, ?_, ?_, ?_, ?_, ?_⟩
    · unfold flush; rw [if_pos hm]
      show s.finder.segments ++ _ = _
      rw [hsA, List.append_assoc]
    · unfold flush; rw [if_pos hmt]
      show t.finder.segments ++ [Segment.mk t.start t.end_ t.max] = _
      rw [hsB, List.append_assoc, hst, hen, hmax]
    · unfold flush; rw [if_pos hm, if_pos hmt]; exact hp'
    · unfold flush; rw [if_pos hm, if_pos hmt]; exact ht'
    · intro b
      unfold flush; rw [if_pos hm, if_pos hmt]; exact hr b
    · intro b
      unfold flush; rw [if_pos hm, if_pos hmt]
      show s.finder.dSegmentReadStartCounts b + s.currentSegmentReadStartCounts b - _
        = t.finder.dSegmentReadStartCounts b + t.currentSegmentReadStartCounts b - _
      rw [hc]
      have := hd b
      omega
  · have hmt : ¬ t.max ≥ t.finder.threshold := by rw [← hmax, ← ht']; exact hm
    refine ⟨flush t, new, hfB, ?_, ?_, ?_, ?_, ?_, ?_⟩
    · unfold flush; rw [if_neg hm]; exact hsA
    · unfold flush; rw [if_neg hmt]; exact hsB
    · unfold flush; rw [if_neg hm, if_neg hmt]; exact hp'
    · unfold flush; rw [if_neg hm, if_neg hmt]; exact ht'
    · intro b
      unfold flush; rw [if_neg hm, if_neg hmt]; exact hr b
    · intro b
      unfold flush; rw [if_neg hm, if_neg hmt]; exact hd b

end Rerun

section RerunMain

variable {α : Type} [Zero α] [Add α] [Sub α] [Mul α] [Div α] [OfNat α (nat_lit 2)] [LE α]
  [∀ a b : α, Decidable (a ≤ b)]

open DSegmentsFinder

/-- The scan returns the finder with the model and the threshold it was given. -/
theorem findDSegments_keeps_model (log : α → α) (finder f' : DSegmentsFinder α)
    (input : List (Int × Nat)) (h : findDSegments log finder input = Except.ok f') :
    f'.probabilities = finder.probabilities ∧ f'.threshold = finder.threshold := by
  obtain ⟨s, hs, rfl⟩ := findDSegments_ok log finder f' input h
  have hinv := scanLoop_invariant log
    (fun t : ScanState α => t.finder.probabilities = finder.probabilities ∧
      t.finder.threshold = finder.threshold)
    (fun t position readStarts score ht =>
      ⟨(scanBody_threshold t position readStarts score).2.trans ht.1,
        (scanBody_threshold t position readStarts score).1.trans ht.2⟩)
    input _ s ⟨rfl, rfl⟩ hs
  unfold flush
  split
  · exact hinv
  · exact hinv

/-- C17 (amended). `findDSegments` accumulates: started on any finder with the same
model and threshold, a scan of the same input appends the same segments and adds
the same counts to both histograms.  In particular a second run on the finder the
first run returned succeeds and appends the first run's segments once more and adds
its counts once more, so the segment list and the histograms are not those of the
first run unless the first run appended nothing and the input was empty. -/
theorem C17_rerun_appends_and_adds_again (log : α → α) (finder f1 : DSegmentsFinder α)
    (input : List (Int × Nat)) (h1 : findDSegments log finder input = Except.ok f1) :
    (∀ g : DSegmentsFinder α, g.probabilities = finder.probabilities →
      g.threshold = finder.threshold →
      ∃ g' new, findDSegments log g input = Except.ok g' ∧
        f1.segments = finder.segments ++ new ∧ g'.segments = g.segments ++ new ∧
        (∀ b, g'.readStartCounts b - g.readStartCounts b
          = f1.readStartCounts b - finder.readStartCounts b) ∧
        (∀ b, g'.dSegmentReadStartCounts b - g.dSegmentReadStartCounts b
          = f1.dSegmentReadStartCounts b - finder.dSegmentReadStartCounts b)) ∧
    (∃ f2 new, findDSegments log f1 input = Except.ok f2 ∧
      f1.segments = finder.segments ++ new ∧ f2.segments = f1.segments ++ new ∧
      (∀ b, f2.readStartCounts b
        = f1.readStartCounts b + (f1.readStartCounts b - finder.readStartCounts b)) ∧
      (∀ b, f2.dSegmentReadStartCounts b
        = f1.dSegmentReadStartCounts b
          + (f1.dSegmentReadStartCounts b - finder.dSegmentReadStartCounts b))) := by
  have hgen : ∀ g : DSegmentsFinder α, g.probabilities = finder.probabilities →
      g.threshold = finder.threshold →
      ∃ g' new, findDSegments log g input = Except.ok g' ∧
        f1.segments = finder.segments ++ new ∧ g'.segments = g.segments ++ new ∧
        (∀ b, g'.readStartCounts b - g.readStartCounts b
          = f1.readStartCounts b - finder.readStartCounts b) ∧
        (∀ b, g'.dSegmentReadStartCounts b - g.dSegmentReadStartCounts b
          = f1.dSegmentReadStartCounts b - finder.dSegmentReadStartCounts b) := by
    intro g hp ht
    obtain ⟨g', new, hg, hs1, hs2, -, -, hr, hd⟩ :=
      findDSegments_additive log finder g f1 input hp.symm ht.symm h1
    exact ⟨g', new, hg, hs1, hs2, fun b => (hr b).symm, fun b => (hd b).symm⟩
  refine ⟨hgen, ?_⟩
  obtain ⟨hp, ht⟩ := findDSegments_keeps_model log finder f1 input h1
  obtain ⟨f2, new, hf2, hs1, hs2, hr, hd⟩ := hgen f1 hp ht
  refine ⟨f2, new, hf2, hs1, hs2, ?_, ?_⟩
  · intro b
    have := hr b
    omega
  · intro b
    have := hd b
    omega

end RerunMain

/-! ## C19: the score of a segment is the sum of the scores at its positions -/

section WindowScores

variable {α : Type} [LinearOrderedField α]

theorem windowScore_snoc (log : α → α) (p : HMMProbabilities α) (pre : List (Int × Nat))
    (line : Int × Nat) (first last : Int) :
    windowScore log p (pre ++ [line]) first last =
      windowScore log p pre first last
        + (if first ≤ line.1 ∧ line.1 ≤ last then lineScore log p line else 0) := by
  unfold windowScore
  rw [List.filter_append, List.map_append, List.sum_append]
  congr 1
  by_cases h : first ≤ line.1 ∧ line.1 ≤ last
  · rw [if_pos h]
    simp [List.filter, h.1, h.2]
  · rw [if_neg h]
    have : (decide (first ≤ line.1) && decide (line.1 ≤ last)) = false := by
      simpa using h
    simp [List.filter, this]

/-- Lines beyond `last` do not change the window score up to `last`. -/
theorem windowScore_snoc_of_lt (log : α → α) (p : HMMProbabilities α)
    (pre : List (Int × Nat)) (line : Int × Nat) (first last : Int) (h : last < line.1) :
    windowScore log p (pre ++ [line]) first last = windowScore log p pre first last := by
  rw [windowScore_snoc, if_neg (by omega), add_zero]

/-- With every position at most `a`, the window score up to any `last ≥ a` is the
window score up to `a`. -/
theorem windowScore_of_le (log : α → α) (p : HMMProbabilities α) (pre : List (Int × Nat))
    (first a last : Int) (hpre : ∀ line ∈ pre, line.1 ≤ a) (h : a ≤ last) :
    windowScore log p pre first last = windowScore log p pre first a := by
  unfold windowScore
  congr 2
  apply List.filter_congr
  intro line hl
  have := hpre line hl
  by_cases h1 : first ≤ line.1
  · have h2 : line.1 ≤ last := by omega
    simp [h1, h2, this]
  · simp [h1]

/-- A window that starts after every position read so far has score 0. -/
theorem windowScore_empty (log : α → α) (p : HMMProbabilities α) (pre : List (Int × Nat))
    (first last : Int) (hpre : ∀ line ∈ pre, line.1 < first) :
    windowScore log p pre first last = 0 := by
  unfold windowScore
  have : pre.filter (fun line => decide (first ≤ line.1) && decide (line.1 ≤ last)) = [] := by
    rw [List.filter_eq_nil_iff]
    intro line hl
    have := hpre line hl
    simp
    omega
  rw [this]
  rfl

theorem bestPrefix_snoc (log : α → α) (p : HMMProbabilities α) (pre : List (Int × Nat))
    (line : Int × Nat) (seg : Segment α) (r : Int)
    (hline : line.1 = (pre.length : Int) + 1) (h : BestPrefix log p pre seg r) :
    BestPrefix log p (pre ++ [line]) seg r := by
  obtain ⟨h1, h2, h3, h4, h5⟩ := h
  refine ⟨h1, h2, ?_, ?_, ?_⟩
  · rw [List.length_append, List.length_singleton]; push_cast; omega
  · rw [windowScore_snoc_of_lt log p pre line _ _ (by omega)]; exact h4
  · intro q hq1 hq2
    rw [windowScore_snoc_of_lt log p pre line _ _ (by omega)]
    exact h5 q hq1 hq2

theorem closedByReset_snoc (log : α → α) (p : HMMProbabilities α) (thr : α)
    (pre : List (Int × Nat)) (line : Int × Nat) (seg : Segment α) (r : Int)
    (hline : line.1 = (pre.length : Int) + 1) (hr : r ≤ (pre.length : Int))
    (h : ClosedByReset log p thr pre seg r) :
    ClosedByReset log p thr (pre ++ [line]) seg r := by
  unfold ClosedByReset at h ⊢
  rw [windowScore_snoc_of_lt log p pre line _ _ (by omega)]
  exact h

end WindowScores

section WindowStep

variable {α : Type} [LinearOrderedField α]

open DSegmentsFinder

/-- After a reset at the last position read, the invariant holds with a new window. -/
theorem windowInvariant_reset (log : α → α) (p : HMMProbabilities α) (thr : α)
    (base : List (Segment α)) (pre : List (Int × Nat)) (finder : DSegmentsFinder α)
    (position : Int) (hpos : position = (pre.length : Int))
    (hp : finder.probabilities = p) (ht : finder.threshold = thr)
    (hpre : ∀ line ∈ pre, line.1 ≤ (pre.length : Int))
    (hseg : ∃ new, finder.segments = base ++ new ∧
      ∀ seg ∈ new, ∃ r, BestPrefix log p pre seg r ∧ ClosedByReset log p thr pre seg r) :
    WindowInvariant log p thr base pre (resetWindow finder position) := by
  refine ⟨hp, ht, hpre, ?_, ?_, Or.inl ⟨rfl, rfl, ?_⟩, hseg⟩
  · show position + 1 ≤ _
    omega
  · show (0 : α) = windowScore log p pre (position + 1) _
    rw [windowScore_empty]
    intro line hl
    have := hpre line hl
    omega
  · show position + 1 = _
    omega

/-- One line of input keeps the invariant. -/
theorem scanBody_windowInvariant (log : α → α) (p : HMMProbabilities α) (thr : α)
    (base : List (Segment α)) (pre : List (Int × Nat)) (s : ScanState α) (line : Int × Nat)
    (score : α) (hthr : 0 < thr) (hinv : WindowInvariant log p thr base pre s)
    (hline : line.1 = (pre.length : Int) + 1)
    (hscore : p.dSegmentScore log (((clampReadStarts line.2).val : Nat) : Int)
      = Except.ok score) :
    WindowInvariant log p thr base (pre ++ [line])
      (scanBody s line.1 (clampReadStarts line.2) score) := by
  obtain ⟨hp, ht, hpos, hst, hcum, hwin, new, hseg, hall⟩ := hinv
  have hlen : (((pre ++ [line]).length : Nat) : Int) = (pre.length : Int) + 1 := by
    rw [List.length_append, List.length_singleton]; push_cast; rfl
  have hls : lineScore log p line = score := by
    unfold lineScore; rw [hscore]
  have hpos' : ∀ l ∈ pre ++ [line], l.1 ≤ (((pre ++ [line]).length : Nat) : Int) := by
    intro l hl
    rw [hlen]
    rcases List.mem_append.mp hl with h | h
    · have := hpos l h; omega
    · rw [List.mem_singleton.mp h]; omega
  have hall' : ∀ seg ∈ new, ∃ r, BestPrefix log p (pre ++ [line]) seg r ∧
      ClosedByReset log p thr (pre ++ [line]) seg r := by
    intro seg hm
    obtain ⟨r, hb, hc⟩ := hall seg hm
    exact ⟨r, bestPrefix_snoc log p pre line seg r hline hb,
      closedByReset_snoc log p thr pre line seg r hline hb.2.2.1 hc⟩
  have hadvcum : s.cum + score
      = windowScore log p (pre ++ [line]) s.start ((pre.length : Int) + 1) := by
    rw [windowScore_snoc, if_pos ⟨by omega, by omega⟩, hls, hcum,
      windowScore_of_le log p pre s.start (pre.length : Int) ((pre.length : Int) + 1) hpos
        (by omega)]
  have hold : ∀ q : Int, q ≤ (pre.length : Int) →
      windowScore log p (pre ++ [line]) s.start q = windowScore log p pre s.start q :=
    fun q hq => windowScore_snoc_of_lt log p pre line s.start q (by omega)
  -- the window after lines 73-88
  have hWF : (¬ s.max ≤ s.cum + score ∧ s.cum = 0 ∧ s.max = 0) ∨
      BestPrefix log p (pre ++ [line])
        (Segment.mk s.start (advance s line.1 (clampReadStarts line.2) score).end_
          (advance s line.1 (clampReadStarts line.2) score).max) ((pre.length : Int) + 1) := by
    by_cases hu : s.max ≤ s.cum + score
    · right
      obtain ⟨hmax, hend⟩ := advance_of_ge s line.1 (clampReadStarts line.2) score hu
      rw [hmax, hend, hline]
      refine ⟨hst, le_refl _, by rw [hlen], hadvcum, ?_⟩
      intro q (hq1 : s.start ≤ q) hq2
      rcases lt_or_eq_of_le hq2 with hlt | heq
      · have hqa : q ≤ (pre.length : Int) := by omega
        refine ⟨?_, fun (h : (pre.length : Int) + 1 < q) => absurd h (by omega)⟩
        show windowScore log p (pre ++ [line]) s.start q ≤ s.cum + score
        rw [hold q hqa]
        rcases hwin with ⟨hc0, hm0, hs0⟩ | hbest
        · exfalso; omega
        · exact le_trans (hbest.2.2.2.2 q hq1 hqa).1 hu
      · rw [heq]
        refine ⟨?_, fun (h : (pre.length : Int) + 1 < (pre.length : Int) + 1) =>
          absurd h (lt_irrefl _)⟩
        show windowScore log p (pre ++ [line]) s.start _ ≤ s.cum + score
        rw [← hadvcum]
    · rcases hwin with ⟨hc0, hm0, hs0⟩ | hbest
      · exact Or.inl ⟨hu, hc0, hm0⟩
      · right
        obtain ⟨hmax, hend⟩ := advance_of_lt s line.1 (clampReadStarts line.2) score hu
        rw [hmax, hend]
        obtain ⟨b1, b2, -, b4, b5⟩ := hbest
        refine ⟨b1, by show s.end_ ≤ _; have : s.end_ ≤ (pre.length : Int) := b2; omega,
          by rw [hlen], ?_, ?_⟩
        · show s.max = windowScore log p (pre ++ [line]) s.start s.end_
          rw [hold s.end_ b2]; exact b4
        · intro q hq1 hq2
          show windowScore log p (pre ++ [line]) s.start q ≤ s.max ∧
            (s.end_ < q → windowScore log p (pre ++ [line]) s.start q < s.max)
          rcases lt_or_eq_of_le hq2 with hlt | heq
          · have hqa : q ≤ (pre.length : Int) := by omega
            rw [hold q hqa]
            exact b5 q hq1 hqa
          · rw [heq, ← hadvcum]
            exact ⟨le_of_lt (not_le.mp hu), fun _ => not_le.mp hu⟩
  refine scanBody_cases (fun u => WindowInvariant log p thr base (pre ++ [line]) u)
    s line.1 (clampReadStarts line.2) score ?_ ?_ ?_
  · -- no reset
    intro hkeep
    rcases hWF with ⟨hu, hc0, hm0⟩ | hbest
    · exfalso
      apply hkeep
      left
      show s.cum + score ≤ 0
      rw [hm0] at hu
      exact le_of_lt (not_le.mp hu)
    · refine ⟨hp, ht, hpos', ?_, ?_, Or.inr ?_, new, hseg, hall'⟩
      · show s.start ≤ _
        rw [hlen]; omega
      · show s.cum + score = _
        rw [hlen]; exact hadvcum
      · rw [hlen]; exact hbest
  · -- reset with a segment
    intro hreset hemit
    rcases hWF with ⟨hu, hc0, hm0⟩ | hbest
    · exfalso
      rw [(advance_of_lt s line.1 (clampReadStarts line.2) score hu).1, hm0, ht] at hemit
      exact absurd hemit (not_le.mpr hthr)
    · apply windowInvariant_reset log p thr base (pre ++ [line])
        (emitSegment (advance s line.1 (clampReadStarts line.2) score)) line.1
        (by rw [hlen]; exact hline) hp ht hpos'
      refine ⟨new ++ [Segment.mk s.start
        (advance s line.1 (clampReadStarts line.2) score).end_
        (advance s line.1 (clampReadStarts line.2) score).max], ?_, ?_⟩
      · show s.finder.segments ++ _ = _
        rw [hseg, List.append_assoc]
        rfl
      · intro seg hm
        rcases List.mem_append.mp hm with h | h
        · exact hall' seg h
        · rw [List.mem_singleton.mp h]
          refine ⟨(pre.length : Int) + 1, hbest, ?_⟩
          rcases hreset with h1 | h1
          · left
            show windowScore log p (pre ++ [line]) s.start _ ≤ 0
            rw [← hadvcum]; exact h1
          · right
            show windowScore log p (pre ++ [line]) s.start _ ≤ _ - thr
            rw [← hadvcum, ← ht]; exact h1
  · -- reset without a segment
    intro _ _
    exact windowInvariant_reset log p thr base (pre ++ [line])
      (advance s line.1 (clampReadStarts line.2) score).finder line.1
      (by rw [hlen]; exact hline) hp ht hpos' ⟨new, hseg, hall'⟩

end WindowStep

section WindowLoop

variable {α : Type} [LinearOrderedField α]

open DSegmentsFinder

theorem scanLoop_windowInvariant (log : α → α) (p : HMMProbabilities α) (thr : α)
    (base : List (Segment α)) (hthr : 0 < thr) :
    ∀ (rest pre : List (Int × Nat)) (s s' : ScanState α),
      WindowInvariant log p thr base pre s → ContiguousFrom (pre.length : Int) rest →
      scanLoop log s rest = Except.ok s' →
      WindowInvariant log p thr base (pre ++ rest) s' := by
  intro rest
  induction rest with
  | nil =>
    intro pre s s' hinv _ hs
    cases (show Except.ok s = Except.ok s' from hs)
    rw [List.append_nil]
    exact hinv
  | cons line rest ih =>
    intro pre s s' hinv hc hs
    obtain ⟨hline, hrest⟩ := hc
    obtain ⟨s1, h1, h2⟩ := scanLoop_cons_ok log s s' line rest hs
    obtain ⟨score, hscore, rfl⟩ := scanStep_ok log s s1 line h1
    rw [hinv.1] at hscore
    have hstep := scanBody_windowInvariant log p thr base pre s line score hthr hinv hline hscore
    have hlen : (((pre ++ [line]).length : Nat) : Int) = (pre.length : Int) + 1 := by
      rw [List.length_append, List.length_singleton]; push_cast; rfl
    have := ih (pre ++ [line]) _ s' hstep (by rw [hlen]; exact hrest) h2
    rw [List.append_assoc] at this
    exact this

/-- Every line of an input that the loop has read without error has a score. -/
theorem scanLoop_scores_defined (log : α → α) :
    ∀ (input : List (Int × Nat)) (s s' : ScanState α),
      scanLoop log s input = Except.ok s' →
      ∀ line ∈ input, s.finder.probabilities.dSegmentScore log
        (((clampReadStarts line.2).val : Nat) : Int)
        = Except.ok (lineScore log s.finder.probabilities line) := by
  intro input
  induction input with
  | nil => intro s s' _ line hl; cases hl
  | cons l rest ih =>
    intro s s' hs line hl
    obtain ⟨s1, h1, h2⟩ := scanLoop_cons_ok log s s' l rest hs
    obtain ⟨score, hscore, rfl⟩ := scanStep_ok log s s1 l h1
    rcases List.mem_cons.mp hl with h | h
    · rw [h]
      unfold lineScore
      rw [hscore]
    · have := ih _ s' h2 line h
      rw [(scanBody_threshold s l.1 (clampReadStarts l.2) score).2] at this
      exact this

/-- The windows of a scan: with a positive threshold and contiguous positions from
1, every appended segment is the best prefix of a window that was closed by a reset
or by the end of the input. -/
theorem findDSegments_windows (log : α → α) (finder f' : DSegmentsFinder α)
    (input : List (Int × Nat)) (hthr : 0 < finder.threshold) (hc : ContiguousFrom 0 input)
    (h : findDSegments log finder input = Except.ok f') :
    ∃ new, f'.segments = finder.segments ++ new ∧
      ∀ seg ∈ new, ∃ r, BestPrefix log finder.probabilities input seg r ∧
        (r = (input.length : Int) ∨
          ClosedByReset log finder.probabilities finder.threshold input seg r) := by
  obtain ⟨s, hs, rfl⟩ := findDSegments_ok log finder f' input h
  have h0 : WindowInvariant log finder.probabilities finder.threshold finder.segments []
      (initialState finder) := by
    refine ⟨rfl, rfl, ?_, ?_, ?_, Or.inl ⟨rfl, rfl, ?_⟩, [], ?_, ?_⟩
    · intro l hl
      cases hl
    · show (1 : Int) ≤ 0 + 1
      decide
    · rfl
    · show (1 : Int) = 0 + 1
      decide
    · simp [initialState]
    · intro seg hm
      cases hm
  have hinv := scanLoop_windowInvariant log finder.probabilities finder.threshold
    finder.segments hthr input [] _ s h0 hc hs
  rw [List.nil_append] at hinv
  obtain ⟨-, ht, -, -, -, hwin, new, hseg, hall⟩ := hinv
  have hall' : ∀ seg ∈ new, ∃ r, BestPrefix log finder.probabilities input seg r ∧
      (r = (input.length : Int) ∨
        ClosedByReset log finder.probabilities finder.threshold input seg r) := by
    intro seg hm
    obtain ⟨r, hb, hcl⟩ := hall seg hm
    exact ⟨r, hb, Or.inr hcl⟩
  unfold flush
  split
  · rename_i hmax
    rcases hwin with ⟨-, hm0, -⟩ | hbest
    · exfalso
      rw [hm0, ht] at hmax
      exact absurd hmax (not_le.mpr hthr)
    · refine ⟨new ++ [Segment.mk s.start s.end_ s.max], ?_, ?_⟩
      · show s.finder.segments ++ _ = _
        rw [hseg, List.append_assoc]
      · intro seg hm
        rcases List.mem_append.mp hm with h1 | h1
        · exact hall' seg h1
        · rw [List.mem_singleton.mp h1]
          exact ⟨(input.length : Int), hbest, Or.inl rfl⟩
  · exact ⟨new, hseg, hall'⟩

/-- C19. With a positive threshold and contiguous positions starting at 1, the
score of every segment the scan appends is the sum of `dSegmentScore (min count 3)`
over exactly the input lines at the positions `start .. end` of the segment; each
of these lookups succeeded during the scan. -/
theorem C19_segment_score_is_window_sum (log : α → α) (finder f' : DSegmentsFinder α)
    (input : List (Int × Nat)) (hthr : 0 < finder.threshold) (hc : ContiguousFrom 0 input)
    (h : findDSegments log finder input = Except.ok f') :
    (∀ line ∈ input, finder.probabilities.dSegmentScore log
      (((clampReadStarts line.2).val : Nat) : Int)
      = Except.ok (lineScore log finder.probabilities line)) ∧
    ∃ new, f'.segments = finder.segments ++ new ∧
      ∀ seg ∈ new, seg.score =
        ((input.filter (fun line => decide (seg.start ≤ line.1) && decide (line.1 ≤ seg.end_))).map
          (lineScore log finder.probabilities)).sum := by
  constructor
  · obtain ⟨s, hs, -⟩ := findDSegments_ok log finder f' input h
    exact scanLoop_scores_defined log input _ s hs
  · obtain ⟨new, hseg, hall⟩ := findDSegments_windows log finder f' input hthr hc h
    refine ⟨new, hseg, ?_⟩
    intro seg hm
    obtain ⟨r, hb, -⟩ := hall seg hm
    exact hb.2.2.2.1

end WindowLoop

/-- C19, witness: in the example model the scan of 3, 3, 0, 0 at the positions 1..4
appends the segment from 1 to 2, whose score 2 is the sum of the two scores 1. -/
theorem C19_segment_score_is_window_sum_witness :
    ∃ p f', exampleModel Real.log Real.exp 0 = Except.ok p ∧
      DSegmentsFinder.findDSegments Real.log (DSegmentsFinder.new Real.log p)
        [(1, 3), (2, 3), (3, 0), (4, 0)] = Except.ok f' ∧
      f'.segments = [Segment.mk 1 2 2] ∧
      ∃ new, f'.segments = (DSegmentsFinder.new Real.log p).segments ++ new ∧
        ∀ seg ∈ new, seg.score =
          ((([(1, 3), (2, 3), (3, 0), (4, 0)] : List (Int × Nat)).filter
            (fun line => decide (seg.start ≤ line.1) && decide (line.1 ≤ seg.end_))).map
            (lineScore Real.log (DSegmentsFinder.new Real.log p).probabilities)).sum := by
  obtain ⟨p, hp, h0, h3, hthr⟩ := exampleModel_scores 0
  obtain ⟨f', hf, hseg, -⟩ := trace_3300 (DSegmentsFinder.new Real.log p) h0 h3 hthr rfl rfl
  exact ⟨p, f', hp, hf, hseg,
    (C19_segment_score_is_window_sum Real.log _ f' [(1, 3), (2, 3), (3, 0), (4, 0)]
      (by rw [hthr]; norm_num) (by simp [ContiguousFrom]) hf).2⟩

/-! ## C25: clamping is all the validation the step needs -/

section StepSafety

variable {α : Type} [Zero α] [One α] [Add α] [Sub α] [Mul α] [Div α] [Neg α]
  [Pow α Nat] [IntCast α] [DecidableEq α] [OfNat α (nat_lit 2)] [LE α]
  [∀ a b : α, Decidable (a ≤ b)]

open DSegmentsFinder

/-- C25. For every count the clamped bucket is `min count 3`, an index below 4, so
it indexes inside the two four-element histograms.  On a model built by the
four-parameter constructor the `dSegmentScore` lookup of that bucket succeeds, hence
a loop iteration on any state that holds this model returns normally, and so does
the whole scan of any input. -/
theorem C25_clamped_bucket_is_safe (log exp : α → α) (nan : α) (mem : HMMProbabilities α)
    (normalLength elevatedLength : Int) (normalMean elevatedMean : α) (count : Nat) :
    (clampReadStarts count).val = min count 3 ∧ (clampReadStarts count).val < 4 ∧
    ∃ p, HMMProbabilities.new log exp nan mem normalLength elevatedLength normalMean
        elevatedMean = Except.ok p ∧
      (∃ v, p.dSegmentScore log (((clampReadStarts count).val : Nat) : Int) = Except.ok v) ∧
      (∀ (s : ScanState α) (position : Int), s.finder.probabilities = p →
        ∃ s', scanStep log s (position, count) = Except.ok s') ∧
      (∀ (finder : DSegmentsFinder α) (input : List (Int × Nat)), finder.probabilities = p →
        ∃ f', findDSegments log finder input = Except.ok f') := by
  refine ⟨clampReadStarts_val count, (clampReadStarts count).isLt, ?_⟩
  obtain ⟨p, hp, hbuilt⟩ := HMMProbabilities.new_built log exp nan mem normalLength
    elevatedLength normalMean elevatedMean
  refine ⟨p, hp, hbuilt.score_defined log _, ?_, ?_⟩
  · intro s position hs
    obtain ⟨v, hv⟩ := hbuilt.score_defined log (clampReadStarts count)
    refine ⟨scanBody s position (clampReadStarts count) v, ?_⟩
    simp only [scanStep, hs, hv]
  · intro finder input hf
    exact findDSegments_total log finder input (by rw [hf]; exact hbuilt.score_defined log)

end StepSafety

/-- C25, witness: the driver's model and a count of 7, clamped to bucket 3. -/
theorem C25_clamped_bucket_is_safe_witness :
    (clampReadStarts 7).val = 3 ∧
    ∃ p f', HMMProbabilities.new Real.log Real.exp 0 HMMProbabilities.zeroMemory 1000000 10000
        (38 / 100) (57 / 100) = Except.ok p ∧
      DSegmentsFinder.findDSegments Real.log (DSegmentsFinder.new Real.log p) [(1, 7)]
        = Except.ok f' := by
  obtain ⟨hval, -, p, hp, -, -, hscan⟩ := C25_clamped_bucket_is_safe Real.log Real.exp 0
    HMMProbabilities.zeroMemory 1000000 10000 (38 / 100) (57 / 100) 7
  obtain ⟨f', hf⟩ := hscan (DSegmentsFinder.new Real.log p) [(1, 7)] rfl
  exact ⟨hval, p, f', hp, hf⟩

/-! ## C24: the rendering of the segment list -/

section Rendering

variable {α : Type} [LinearOrderedField α] [FloorRing α]

open DSegmentsFinder

theorem segmentsLoop_two (showInt : Int → String) (showScore : α → String)
    (s1 s2 : Segment α) :
    segmentsLoop showInt showScore [s1, s2] 0 "" =
      renderTuple showInt showScore s1 ++ renderTuple showInt showScore s2 ++ "," := by
  apply String.ext
  simp [segmentsLoop, renderTuple, String.data_append]

theorem renderTuple_comma_ne (showInt : Int → String) (showScore : α → String)
    (s2 : Segment α) :
    renderTuple showInt showScore s2 ++ "," ≠ "," ++ renderTuple showInt showScore s2 := by
  intro h
  have h2 := congrArg String.data h
  simp [renderTuple, String.data_append] at h2

/-- C24. Rendering a list of two segments (for any rendering of integers and of
scores, and any wrapper `xmlResult`) hands to the wrapper the first tuple, directly
followed by the second tuple, followed by a comma: no comma separates the two
tuples and one follows the last.  This text differs from the documented format
`(s1start,s1end,s1score),(s2start,s2end,s2score)`. -/
theorem C24_comma_follows_second_tuple (showInt : Int → String) (showScore : α → String)
    (xmlResult : String → String → String) (finder : DSegmentsFinder α) (s1 s2 : Segment α) :
    segmentsResultsString showInt showScore xmlResult { finder with segments := [s1, s2] } =
      xmlResult "segment_list"
        (renderTuple showInt showScore s1 ++ renderTuple showInt showScore s2 ++ ",") ∧
    documentedFormat showInt showScore [s1, s2] =
      renderTuple showInt showScore s1 ++ "," ++ renderTuple showInt showScore s2 ∧
    renderTuple showInt showScore s1 ++ renderTuple showInt showScore s2 ++ "," ≠
      documentedFormat showInt showScore [s1, s2] := by
  refine ⟨?_, ?_, ?_⟩
  · show xmlResult "segment_list" (segmentsLoop showInt showScore [s1, s2] 0 "") = _
    rw [segmentsLoop_two]
  · simp [documentedFormat, String.intercalate, String.intercalate.go, String.append_assoc]
  · intro h
    have h2 := congrArg String.data h
    simp [documentedFormat, String.intercalate, String.intercalate.go, renderTuple,
      String.data_append] at h2

end Rendering

/-! ## C22: the invariant of the carried state -/

section StateInvariant

variable {α : Type} [LinearOrderedField α]

open DSegmentsFinder

/-- One pass through the loop body establishes the invariant of the carried state,
and moves the window counters in step with the count of lines since the reset. -/
theorem scanBody_stateInvariant (s : ScanState α) (position : Int) (readStarts : Fin 4)
    (score : α) (n : Nat)
    (hn : s.currentSegmentReadStartCounts 0 + s.currentSegmentReadStartCounts 1
      + s.currentSegmentReadStartCounts 2 + s.currentSegmentReadStartCounts 3 = (n : Int)) :
    ∀ n' : Nat, n' = (if resetTest (advance s position readStarts score) then 0 else n + 1) →
    (((scanBody s position readStarts score).cum = 0 ∧
        (scanBody s position readStarts score).max = 0) ∨
      (0 < (scanBody s position readStarts score).cum ∧
        (scanBody s position readStarts score).cum ≤ (scanBody s position readStarts score).max ∧
        (scanBody s position readStarts score).max - (scanBody s position readStarts score).cum
          < s.finder.threshold)) ∧
    (scanBody s position readStarts score).currentSegmentReadStartCounts 0
      + (scanBody s position readStarts score).currentSegmentReadStartCounts 1
      + (scanBody s position readStarts score).currentSegmentReadStartCounts 2
      + (scanBody s position readStarts score).currentSegmentReadStartCounts 3 = (n' : Int) ∧
    (n' = 0 ↔ (scanBody s position readStarts score).cum = 0) ∧
    (scanBody s position readStarts score).start + (n' : Int)
      = (if resetTest (advance s position readStarts score) then position + 1
          else s.start + (n : Int) + 1) := by
  intro n' hn'
  by_cases h : resetTest (advance s position readStarts score)
  · rw [if_pos h] at hn'
    subst hn'
    rw [if_pos h]
    have hreset : ∀ f : DSegmentsFinder α,
        (((resetWindow f position).cum = 0 ∧ (resetWindow f position).max = 0) ∨
          (0 < (resetWindow f position).cum ∧
            (resetWindow f position).cum ≤ (resetWindow f position).max ∧
            (resetWindow f position).max - (resetWindow f position).cum
              < s.finder.threshold)) ∧
        (resetWindow f position).currentSegmentReadStartCounts 0
          + (resetWindow f position).currentSegmentReadStartCounts 1
          + (resetWindow f position).currentSegmentReadStartCounts 2
          + (resetWindow f position).currentSegmentReadStartCounts 3 = ((0 : Nat) : Int) ∧
        ((0 : Nat) = 0 ↔ (resetWindow f position).cum = 0) ∧
        (resetWindow f position).start + ((0 : Nat) : Int) = position + 1 := by
      intro f
      refine ⟨Or.inl ⟨rfl, rfl⟩, ?_, ?_, ?_⟩
      · show (0 : Int) + 0 + 0 + 0 = ((0 : Nat) : Int)
        simp
      · exact ⟨fun _ => rfl, fun _ => rfl⟩
      · show position + 1 + ((0 : Nat) : Int) = position + 1
        simp
    by_cases hmax : s.finder.threshold ≤ (advance s position readStarts score).max
    · rw [scanBody_of_emit s position readStarts score h hmax]
      exact hreset _
    · rw [scanBody_of_drop s position readStarts score h hmax]
      exact hreset _
  · rw [if_neg h] at hn'
    subst hn'
    rw [if_neg h, scanBody_of_keep s position readStarts score h]
    have h1 : ¬ ((advance s position readStarts score).cum ≤ 0) := fun hc => h (Or.inl hc)
    have h2 : ¬ ((advance s position readStarts score).cum
        ≤ (advance s position readStarts score).max - s.finder.threshold) :=
      fun hc => h (Or.inr hc)
    have hpos : 0 < (advance s position readStarts score).cum := lt_of_not_le h1
    have hle : (advance s position readStarts score).cum
        ≤ (advance s position readStarts score).max := by
      show s.cum + score ≤ (if s.cum + score ≥ s.max then s.cum + score else s.max)
      by_cases hge : s.cum + score ≥ s.max
      · rw [if_pos hge]
      · rw [if_neg hge]; exact le_of_lt (lt_of_not_le hge)
    refine ⟨Or.inr ⟨hpos, hle, ?_⟩, ?_, ?_, ?_⟩
    · have := lt_of_not_le h2
      linarith
    · show increment s.currentSegmentReadStartCounts readStarts 0
        + increment s.currentSegmentReadStartCounts readStarts 1
        + increment s.currentSegmentReadStartCounts readStarts 2
        + increment s.currentSegmentReadStartCounts readStarts 3 = ((n + 1 : Nat) : Int)
      rw [increment_sum, hn]
      push_cast
      rfl
    · constructor
      · intro h0
        omega
      · intro h0
        exact absurd h0 (ne_of_gt hpos)
    · show s.start + ((n + 1 : Nat) : Int) = s.start + (n : Int) + 1
      push_cast
      ring

end StateInvariant

section StateInvariantLoop

variable {α : Type} [LinearOrderedField α]

open DSegmentsFinder

/-- A scan that succeeds on `l1 ++ l2` succeeds on `l1`. -/
theorem scanLoop_append_ok (log : α → α) :
    ∀ (l1 l2 : List (Int × Nat)) (s s' : ScanState α),
      scanLoop log s (l1 ++ l2) = Except.ok s' →
      ∃ s1, scanLoop log s l1 = Except.ok s1 ∧ scanLoop log s1 l2 = Except.ok s' := by
  intro l1
  induction l1 with
  | nil =>
    intro l2 s s' h
    exact ⟨s, rfl, h⟩
  | cons line rest ih =>
    intro l2 s s' h
    rw [List.cons_append] at h
    obtain ⟨t, ht, h2⟩ := scanLoop_cons_ok log s s' line (rest ++ l2) h
    obtain ⟨s1, hs1, hs2⟩ := ih l2 t s' h2
    refine ⟨s1, ?_, hs2⟩
    rw [scanLoop, ht]
    exact hs1

/-- The invariant of the carried state along the loop, from any state that
satisfies it. -/
theorem scanLoop_stateInvariant (log : α → α) (thr : α) :
    ∀ (input : List (Int × Nat)) (s s' : ScanState α) (n : Nat) (a : Int),
      scanLoop log s input = Except.ok s' →
      s.finder.threshold = thr →
      ((s.cum = 0 ∧ s.max = 0) ∨ (0 < s.cum ∧ s.cum ≤ s.max ∧ s.max - s.cum < thr)) →
      s.currentSegmentReadStartCounts 0 + s.currentSegmentReadStartCounts 1
        + s.currentSegmentReadStartCounts 2 + s.currentSegmentReadStartCounts 3 = (n : Int) →
      (n = 0 ↔ s.cum = 0) →
      ∃ n' : Nat, observationsSinceReset log s n input = Except.ok n' ∧
        ((s'.cum = 0 ∧ s'.max = 0) ∨
          (0 < s'.cum ∧ s'.cum ≤ s'.max ∧ s'.max - s'.cum < thr)) ∧
        s'.currentSegmentReadStartCounts 0 + s'.currentSegmentReadStartCounts 1
          + s'.currentSegmentReadStartCounts 2 + s'.currentSegmentReadStartCounts 3
          = (n' : Int) ∧
        (n' = 0 ↔ s'.cum = 0) ∧ n' ≤ n + input.length ∧
        (ContiguousFrom a input → s.start + (n : Int) = a + 1 →
          s'.start + (n' : Int) = a + (input.length : Int) + 1) := by
  intro input
  induction input with
  | nil =>
    intro s s' n a hs hthr hinv hn hz
    cases (show Except.ok s = Except.ok s' from hs)
    refine ⟨n, rfl, hinv, hn, hz, Nat.le_refl _, ?_⟩
    intro _ hst
    rw [hst]
    simp
  | cons line rest ih =>
    intro s s' n a hs hthr hinv hn hz
    obtain ⟨s1, h1, h2⟩ := scanLoop_cons_ok log s s' line rest hs
    obtain ⟨score, hscore, rfl⟩ := scanStep_ok log s s1 line h1
    obtain ⟨hinv1, hn1, hz1, hst1⟩ :=
      scanBody_stateInvariant s line.1 (clampReadStarts line.2) score n hn _ rfl
    rw [hthr] at hinv1
    have hthr1 : (scanBody s line.1 (clampReadStarts line.2) score).finder.threshold = thr :=
      (scanBody_threshold s line.1 (clampReadStarts line.2) score).1.trans hthr
    obtain ⟨n', hobs, hinv', hn', hz', hle', hst'⟩ :=
      ih _ s' _ (a + 1) h2 hthr1 hinv1 hn1 hz1
    refine ⟨n', ?_, hinv', hn', hz', ?_, ?_⟩
    · rw [observationsSinceReset]
      simp only [hscore]
      exact hobs
    · rw [List.length_cons]
      by_cases hr : resetTest (advance s line.1 (clampReadStarts line.2) score)
      · rw [if_pos hr] at hle'
        omega
      · rw [if_neg hr] at hle'
        omega
    · intro hc hst
      obtain ⟨hline, hrest⟩ := hc
      have := hst' hrest (by
        rw [hst1]
        by_cases hr : resetTest (advance s line.1 (clampReadStarts line.2) score)
        · rw [if_pos hr, hline]
        · rw [if_neg hr, hst])
      rw [this, List.length_cons]
      push_cast
      ring

/-- C22 (amended). The invariant of the carried state for finite scores: the scores
and the threshold are elements of a linearly ordered field.  After every prefix
`pre` of an input that the scan reads without error (the empty prefix included),
the scan of `pre` ends in a state `s` in which either
the cumulative score and the running maximum are both 0, or
`0 < cum ≤ max` and `max - cum < threshold`; and the four window counters sum to
the number `n` of lines read since the last reset.  That number is 0 exactly when
the cumulative score is 0, and with positions `1, 2, ...` it is the distance from
the window start to the position after the last line read. -/
theorem C22_carried_state_invariant (log : α → α) (finder f' : DSegmentsFinder α)
    (input : List (Int × Nat)) (h : findDSegments log finder input = Except.ok f') :
    ∀ pre : List (Int × Nat), pre <+: input →
      ∃ (s : ScanState α) (n : Nat),
        scanLoop log (initialState finder) pre = Except.ok s ∧
        observationsSinceReset log (initialState finder) 0 pre = Except.ok n ∧
        ((s.cum = 0 ∧ s.max = 0) ∨
          (0 < s.cum ∧ s.cum ≤ s.max ∧ s.max - s.cum < finder.threshold)) ∧
        s.currentSegmentReadStartCounts 0 + s.currentSegmentReadStartCounts 1
          + s.currentSegmentReadStartCounts 2 + s.currentSegmentReadStartCounts 3
          = (n : Int) ∧
        (n = 0 ↔ s.cum = 0) ∧ n ≤ pre.length ∧
        (ContiguousFrom 0 pre → s.start + (n : Int) = (pre.length : Int) + 1) := by
  intro pre hpre
  obtain ⟨rest, rfl⟩ := hpre
  obtain ⟨sEnd, hEnd, -⟩ := findDSegments_ok log finder f' _ h
  obtain ⟨s, hs, -⟩ := scanLoop_append_ok log pre rest _ sEnd hEnd
  obtain ⟨n, hobs, hinv, hn, hz, hle, hst⟩ :=
    scanLoop_stateInvariant log finder.threshold pre (initialState finder) s 0 0 hs rfl
      (Or.inl ⟨rfl, rfl⟩) (by show (0 : Int) + 0 + 0 + 0 = ((0 : Nat) : Int); simp)
      ⟨fun _ => rfl, fun _ => rfl⟩
  refine ⟨s, n, hs, hobs, hinv, hn, hz, by omega, ?_⟩
  intro hc
  have := hst hc (by show (1 : Int) + ((0 : Nat) : Int) = 0 + 1; simp)
  rw [this]
  ring

end StateInvariantLoop

/-! ## C21: a block that reaches the threshold is detected -/

section Detection

variable {α : Type} [LinearOrderedField α]

open DSegmentsFinder

/-- The running maximum never decreases in the first part of the loop body, and
the cumulative score never exceeds it afterwards. -/
theorem advance_max_bounds (s : ScanState α) (position : Int) (readStarts : Fin 4)
    (score : α) :
    s.max ≤ (advance s position readStarts score).max ∧
    (advance s position readStarts score).cum ≤ (advance s position readStarts score).max ∧
    (advance s position readStarts score).cum = s.cum + score := by
  refine ⟨?_, ?_, rfl⟩
  · show s.max ≤ (if s.cum + score ≥ s.max then s.cum + score else s.max)
    by_cases hge : s.cum + score ≥ s.max
    · rw [if_pos hge]; exact hge
    · rw [if_neg hge]
  · show s.cum + score ≤ (if s.cum + score ≥ s.max then s.cum + score else s.max)
    by_cases hge : s.cum + score ≥ s.max
    · rw [if_pos hge]
    · rw [if_neg hge]; exact le_of_lt (lt_of_not_le hge)

/-- Once a segment has been appended or the running maximum has reached the
threshold, the same holds after the loop body. -/
theorem scanBody_detected (base : List (Segment α)) (thr : α) (s : ScanState α)
    (position : Int) (readStarts : Fin 4) (score : α)
    (h : s.finder.threshold = thr ∧
      ∃ new, s.finder.segments = base ++ new ∧ (new ≠ [] ∨ thr ≤ s.max)) :
    (scanBody s position readStarts score).finder.threshold = thr ∧
    ∃ new, (scanBody s position readStarts score).finder.segments = base ++ new ∧
      (new ≠ [] ∨ thr ≤ (scanBody s position readStarts score).max) := by
  obtain ⟨hthr, new, hseg, hk⟩ := h
  obtain ⟨hmax, -, -⟩ := advance_max_bounds s position readStarts score
  refine scanBody_cases (fun u => u.finder.threshold = thr ∧
    ∃ new, u.finder.segments = base ++ new ∧ (new ≠ [] ∨ thr ≤ u.max))
    s position readStarts score ?_ ?_ ?_
  · intro _
    refine ⟨hthr, new, hseg, ?_⟩
    rcases hk with hk | hk
    · exact Or.inl hk
    · exact Or.inr (le_trans hk hmax)
  · intro _ _
    refine ⟨hthr, new ++ [Segment.mk s.start (advance s position readStarts score).end_
      (advance s position readStarts score).max], ?_, Or.inl (by simp)⟩
    show s.finder.segments ++ _ = _
    rw [hseg, List.append_assoc]
    rfl
  · intro _ hlt
    refine ⟨hthr, new, hseg, ?_⟩
    rcases hk with hk | hk
    · exact Or.inl hk
    · exact absurd (le_trans (hthr ▸ hk) hmax) hlt

/-- While a block is being read, either a segment has been appended, or the
running maximum has reached the threshold, or the cumulative score is at least
the sum `σ` of the block scores read so far. -/
theorem scanBody_detecting (base : List (Segment α)) (thr σ : α) (s : ScanState α)
    (position : Int) (readStarts : Fin 4) (score : α)
    (h : s.finder.threshold = thr ∧
      ∃ new, s.finder.segments = base ++ new ∧
        (new ≠ [] ∨ thr ≤ s.max ∨ (σ ≤ s.cum ∧ s.cum ≤ s.max))) :
    (scanBody s position readStarts score).finder.threshold = thr ∧
    ∃ new, (scanBody s position readStarts score).finder.segments = base ++ new ∧
      (new ≠ [] ∨ thr ≤ (scanBody s position readStarts score).max ∨
        (σ + score ≤ (scanBody s position readStarts score).cum ∧
          (scanBody s position readStarts score).cum
            ≤ (scanBody s position readStarts score).max)) := by
  obtain ⟨hthr, new, hseg, hk⟩ := h
  rcases hk with hk | hk | ⟨hσ, hcm⟩
  · obtain ⟨h1, new1, h2, h3⟩ := scanBody_detected base thr s position readStarts score
      ⟨hthr, new, hseg, Or.inl hk⟩
    exact ⟨h1, new1, h2, h3.elim Or.inl (fun h => Or.inr (Or.inl h))⟩
  · obtain ⟨h1, new1, h2, h3⟩ := scanBody_detected base thr s position readStarts score
      ⟨hthr, new, hseg, Or.inr hk⟩
    exact ⟨h1, new1, h2, h3.elim Or.inl (fun h => Or.inr (Or.inl h))⟩
  · obtain ⟨hmax, hle, hcum⟩ := advance_max_bounds s position readStarts score
    refine scanBody_cases (fun u => u.finder.threshold = thr ∧
      ∃ new, u.finder.segments = base ++ new ∧
        (new ≠ [] ∨ thr ≤ u.max ∨ (σ + score ≤ u.cum ∧ u.cum ≤ u.max)))
      s position readStarts score ?_ ?_ ?_
    · intro _
      refine ⟨hthr, new, hseg, Or.inr (Or.inr ⟨?_, hle⟩)⟩
      rw [hcum]
      linarith
    · intro _ _
      refine ⟨hthr, new ++ [Segment.mk s.start (advance s position readStarts score).end_
        (advance s position readStarts score).max], ?_, Or.inl (by simp)⟩
      show s.finder.segments ++ _ = _
      rw [hseg, List.append_assoc]
      rfl
    · intro hreset hlt
      refine ⟨hthr, new, hseg, Or.inr (Or.inr ⟨?_, le_refl _⟩)⟩
      show σ + score ≤ 0
      have hlt' : (advance s position readStarts score).max < thr := by
        rw [← hthr]; exact lt_of_not_le hlt
      rcases hreset with hr | hr
      · rw [hcum] at hr
        linarith
      · have hr' : (advance s position readStarts score).cum
            ≤ (advance s position readStarts score).max - s.finder.threshold := hr
        rw [hcum, hthr] at hr'
        linarith

end Detection

section DetectionLoop

variable {α : Type} [LinearOrderedField α]

open DSegmentsFinder

/-- The loop over a block `block`, from a state whose cumulative score is at least
`σ`: a segment is appended, or the running maximum reaches the threshold, or the
cumulative score is at least `σ` plus the sum of the scores of the block. -/
theorem scanLoop_detecting (log : α → α) (p : HMMProbabilities α) (base : List (Segment α))
    (thr : α) :
    ∀ (block : List (Int × Nat)) (s s' : ScanState α) (σ : α),
      scanLoop log s block = Except.ok s' → s.finder.probabilities = p →
      (s.finder.threshold = thr ∧
        ∃ new, s.finder.segments = base ++ new ∧
          (new ≠ [] ∨ thr ≤ s.max ∨ (σ ≤ s.cum ∧ s.cum ≤ s.max))) →
      s'.finder.threshold = thr ∧
        ∃ new, s'.finder.segments = base ++ new ∧
          (new ≠ [] ∨ thr ≤ s'.max ∨
            (σ + (block.map (lineScore log p)).sum ≤ s'.cum ∧ s'.cum ≤ s'.max)) := by
  intro block
  induction block with
  | nil =>
    intro s s' σ hs _ h
    cases (show Except.ok s = Except.ok s' from hs)
    simpa using h
  | cons line rest ih =>
    intro s s' σ hs hp h
    obtain ⟨s1, h1, h2⟩ := scanLoop_cons_ok log s s' line rest hs
    obtain ⟨score, hscore, rfl⟩ := scanStep_ok log s s1 line h1
    have hline : lineScore log p line = score := by
      rw [← hp]
      unfold lineScore
      rw [hscore]
    have hstep := scanBody_detecting base thr σ s line.1 (clampReadStarts line.2) score h
    have hp1 := (scanBody_threshold s line.1 (clampReadStarts line.2) score).2.trans hp
    have := ih _ s' (σ + score) h2 hp1 hstep
    rw [List.map_cons, List.sum_cons, hline, ← add_assoc]
    exact this

/-- The scan of an input with a block whose scores sum to the threshold or more
ends with a segment appended or with the running maximum at the threshold or
above. -/
theorem scanLoop_block_detected (log : α → α) (finder : DSegmentsFinder α)
    (before block after : List (Int × Nat)) (sEnd : ScanState α)
    (hs : scanLoop log (initialState finder) (before ++ block ++ after) = Except.ok sEnd)
    (hsum : finder.threshold ≤ (block.map (lineScore log finder.probabilities)).sum) :
    sEnd.finder.threshold = finder.threshold ∧
    ∃ new, sEnd.finder.segments = finder.segments ++ new ∧
      (new ≠ [] ∨ finder.threshold ≤ sEnd.max) := by
  obtain ⟨sAB, hAB, hC⟩ := scanLoop_append_ok log (before ++ block) after _ sEnd hs
  obtain ⟨sA, hA, hB⟩ := scanLoop_append_ok log before block _ sAB hAB
  -- the state after the lines before the block
  have hpA : sA.finder.probabilities = finder.probabilities :=
    scanLoop_invariant log (fun u => u.finder.probabilities = finder.probabilities)
      (fun s position readStarts score hP =>
        (scanBody_threshold s position readStarts score).2.trans hP) before _ sA rfl hA
  obtain ⟨-, -, hinvA, -⟩ := scanLoop_stateInvariant log finder.threshold before
    (initialState finder) sA 0 0 hA rfl (Or.inl ⟨rfl, rfl⟩)
    (by show (0 : Int) + 0 + 0 + 0 = ((0 : Nat) : Int); simp) ⟨fun _ => rfl, fun _ => rfl⟩
  obtain ⟨hthrA, newA, hsegA, -⟩ := scanLoop_detecting log finder.probabilities
    finder.segments finder.threshold before (initialState finder) sA 0 hA rfl
    ⟨rfl, [], (List.append_nil _).symm, Or.inr (Or.inr ⟨le_refl _, le_refl _⟩)⟩
  have hcumA : (0 : α) ≤ sA.cum ∧ sA.cum ≤ sA.max := by
    rcases hinvA with ⟨h0, h1⟩ | ⟨h0, h1, -⟩
    · rw [h0, h1]; exact ⟨le_refl _, le_refl _⟩
    · exact ⟨le_of_lt h0, h1⟩
  -- the block
  obtain ⟨hthrB, newB, hsegB, hB'⟩ := scanLoop_detecting log finder.probabilities
    finder.segments finder.threshold block sA sAB 0 hB hpA
    ⟨hthrA, newA, hsegA, Or.inr (Or.inr hcumA)⟩
  have hK : sAB.finder.threshold = finder.threshold ∧
      ∃ new, sAB.finder.segments = finder.segments ++ new ∧
        (new ≠ [] ∨ finder.threshold ≤ sAB.max) := by
    refine ⟨hthrB, newB, hsegB, ?_⟩
    rcases hB' with h | h | ⟨h1, h2⟩
    · exact Or.inl h
    · exact Or.inr h
    · refine Or.inr (le_trans hsum (le_trans ?_ (le_trans h1 h2)))
      rw [zero_add]
  -- the lines after the block
  exact scanLoop_invariant log (fun u => u.finder.threshold = finder.threshold ∧
      ∃ new, u.finder.segments = finder.segments ++ new ∧
        (new ≠ [] ∨ finder.threshold ≤ u.max))
    (fun s position readStarts score hP =>
      scanBody_detected finder.segments finder.threshold s position readStarts score hP)
    after sAB sEnd hK hC

/-- C21 (amended). Completeness of detection for finite scores: the scores and the
threshold are elements of a linearly ordered field.  Let the scan of `input` from
`finder` succeed with the finder `f'`.  If a block of consecutive lines of the input has scores that
sum to the threshold or more, the scan has appended at least one segment; put the
other way round, if it has appended none, the scores of every block of consecutive
lines sum to less than the threshold.  The scores summed are the values that
`dSegmentScore` returns on the lines.  (This holds for every threshold, so in
particular for every threshold above 0.) -/
theorem C21_block_reaching_threshold_is_detected (log : α → α) (finder f' : DSegmentsFinder α)
    (input : List (Int × Nat)) (h : findDSegments log finder input = Except.ok f') :
    (∀ line ∈ input, finder.probabilities.dSegmentScore log
        (((clampReadStarts line.2).val : Nat) : Int)
        = Except.ok (lineScore log finder.probabilities line)) ∧
    (∀ block : List (Int × Nat), block <:+: input →
      finder.threshold ≤ (block.map (lineScore log finder.probabilities)).sum →
      ∃ new, f'.segments = finder.segments ++ new ∧ new ≠ []) ∧
    (f'.segments = finder.segments →
      ∀ block : List (Int × Nat), block <:+: input →
        (block.map (lineScore log finder.probabilities)).sum < finder.threshold) := by
  obtain ⟨sEnd, hEnd, rfl⟩ := findDSegments_ok log finder f' input h
  have hdetect : ∀ block : List (Int × Nat), block <:+: input →
      finder.threshold ≤ (block.map (lineScore log finder.probabilities)).sum →
      ∃ new, (flush sEnd).segments = finder.segments ++ new ∧ new ≠ [] := by
    intro block hblock hsum
    obtain ⟨before, after, hin⟩ := hblock
    rw [← hin] at hEnd
    obtain ⟨hthr, new, hseg, hk⟩ :=
      scanLoop_block_detected log finder before block after sEnd hEnd hsum
    unfold flush
    by_cases hmax : sEnd.max ≥ sEnd.finder.threshold
    · rw [if_pos hmax]
      refine ⟨new ++ [Segment.mk sEnd.start sEnd.end_ sEnd.max], ?_, by simp⟩
      show sEnd.finder.segments ++ _ = _
      rw [hseg, List.append_assoc]
    · rw [if_neg hmax]
      rcases hk with hk | hk
      · exact ⟨new, hseg, hk⟩
      · exact absurd (hthr ▸ hk) hmax
  refine ⟨scanLoop_scores_defined log input (initialState finder) sEnd hEnd, hdetect, ?_⟩
  intro hnone block hblock
  by_contra hge
  obtain ⟨new, hseg, hne⟩ := hdetect block hblock (le_of_not_lt hge)
  rw [hnone] at hseg
  exact hne (List.append_right_eq_self.mp hseg.symm)

end DetectionLoop

/-! ## C23: a bucket with an emission probability of 0 -/

section ZeroEmission

variable {α : Type} [LinearOrderedField α]

theorem FloatValue.log_finite_zero (ln : α → α) :
    FloatValue.log ln (FloatValue.finite 0) = FloatValue.negInf := by
  simp [FloatValue.log]

theorem FloatValue.log_finite_pos (ln : α → α) (x : α) (hx : 0 < x) :
    FloatValue.log ln (FloatValue.finite x) = FloatValue.finite (ln x) := by
  simp [FloatValue.log, ne_of_gt hx, not_lt.mpr (le_of_lt hx)]

theorem FloatValue.negInf_div_finite (y : α) (hy : 0 < y) :
    (FloatValue.negInf : FloatValue α) / FloatValue.finite y = FloatValue.negInf := by
  show FloatValue.div _ _ = _
  simp [FloatValue.div, le_of_lt hy]

theorem FloatValue.finite_div_finite (x y : α) (hy : 0 < y) :
    (FloatValue.finite x : FloatValue α) / FloatValue.finite y = FloatValue.finite (x / y) := by
  show FloatValue.div _ _ = _
  simp [FloatValue.div, ne_of_gt hy]

/-- The value of `dSegmentScore` over floating-point values, for finite table
entries. -/
theorem dSegmentScore_float (ln : α → α) (hln : 0 < ln 2)
    (p : HMMProbabilities (FloatValue α)) (b : Int) (e1 e2 t11 t22 : α)
    (h1 : mapAt p.emissionProbabilities 1 b = Except.ok (FloatValue.finite e1))
    (h2 : mapAt p.emissionProbabilities 2 b = Except.ok (FloatValue.finite e2))
    (ht1 : p.transitionProbability 1 1 = FloatValue.finite t11)
    (ht2 : p.transitionProbability 2 2 = FloatValue.finite t22) :
    p.dSegmentScore (FloatValue.log ln) b = Except.ok
      (FloatValue.log ln (FloatValue.finite (e2 * t22)) / FloatValue.finite (ln 2)
        - FloatValue.log ln (FloatValue.finite (e1 * t11)) / FloatValue.finite (ln 2)) := by
  have h2' : FloatValue.log ln (2 : FloatValue α) = FloatValue.finite (ln 2) :=
    FloatValue.log_finite_pos ln 2 (by norm_num)
  unfold HMMProbabilities.dSegmentScore
  rw [h1]
  simp only [h2, ht1, ht2, h2']
  rfl

end ZeroEmission

section ZeroEmissionModel

variable {α : Type} [LinearOrderedField α]

/-- The model `zeroEmissionModel ln e1 e2` is built without error, and has the
entries it was given. -/
theorem zeroEmissionModel_spec (ln : α → α) (e1 e2 : α) :
    ∃ p, zeroEmissionModel ln e1 e2 = Except.ok p ∧
      mapAt p.emissionProbabilities 1 0 = Except.ok (FloatValue.finite e1) ∧
      mapAt p.emissionProbabilities 2 0 = Except.ok (FloatValue.finite e2) ∧
      p.transitionProbability 1 1 = FloatValue.finite (2 / 3) ∧
      p.transitionProbability 2 2 = FloatValue.finite (2 / 3) ∧
      p.emissionProbability 1 "0" = Except.ok (FloatValue.finite e1) ∧
      p.logEmissionProbability 1 "0" = Except.ok
        (HMMProbabilities.logVal (FloatValue.log ln) FloatValue.nan (FloatValue.finite e1)) := by
  have hr : (HMMProbabilities.createEmissionResidueMap
      (HMMProbabilities.zeroMemory : HMMProbabilities (FloatValue α))).emissionResidueMap "0"
      = some 0 := by
    simp [HMMProbabilities.createEmissionResidueMap]
  obtain ⟨p3, hp3, r3, t3, l3, m3⟩ := setEmissionProbability_spec (FloatValue.log ln)
    FloatValue.nan
    (((HMMProbabilities.createEmissionResidueMap
      (HMMProbabilities.zeroMemory : HMMProbabilities (FloatValue α))).setTransitionProbability
        (FloatValue.log ln) FloatValue.nan 1 1
        (FloatValue.finite (2 / 3))).setTransitionProbability
        (FloatValue.log ln) FloatValue.nan 2 2 (FloatValue.finite (2 / 3)))
    1 "0" (FloatValue.finite e1) 0 hr
  obtain ⟨p4, hp4, r4, t4, l4, m4⟩ := setEmissionProbability_spec (FloatValue.log ln)
    FloatValue.nan p3 2 "0" (FloatValue.finite e2) 0 (by rw [r3]; exact hr)
  refine ⟨p4, ?_, ?_, ?_, ?_, ?_, ?_, ?_⟩
  · simp only [zeroEmissionModel, bind, Except.bind, hp3, hp4]
  · rw [m4, m3]; simp [mapAt, mapSet]
  · rw [m4, m3]; simp [mapAt, mapSet]
  · show p4.transitionProbabilities 1 1 = _
    rw [t4, t3]
    simp [HMMProbabilities.setTransitionProbability, arraySet2]
  · show p4.transitionProbabilities 2 2 = _
    rw [t4, t3]
    simp [HMMProbabilities.setTransitionProbability, arraySet2]
  · have hr4 : p4.emissionResidueMap "0" = some 0 := by rw [r4, r3]; exact hr
    simp [HMMProbabilities.emissionProbability, HMMProbabilities.getEmissionResidueIndex, hr4,
      m4, m3, mapAt, mapSet]
  · have hr3 : p3.emissionResidueMap "0" = some 0 := by rw [r3]; exact hr
    have hr4 : p4.emissionResidueMap "0" = some 0 := by rw [r4, r3]; exact hr
    simp only [HMMProbabilities.setEmissionProbability,
      HMMProbabilities.getEmissionResidueIndex, hr, hr3] at hp3 hp4
    cases hp3
    cases hp4
    simp [HMMProbabilities.logEmissionProbability, HMMProbabilities.getEmissionResidueIndex,
      HMMProbabilities.createEmissionResidueMap, HMMProbabilities.setTransitionProbability,
      mapAt, mapSet]

end ZeroEmissionModel

section ZeroEmissionScore

variable {α : Type} [LinearOrderedField α]

/-- C23, amended.  Over floating-point values, with `log(0) = -inf` as the C
library has it: for a bucket `b` with finite emission probabilities `e1, e2 ≥ 0`
of which at least one is 0, and positive self-transition probabilities,
`dSegmentScore` does not fail and returns a value that is not finite:
`+inf` if only the state-1 probability is 0, `-inf` if only the state-2
probability is 0, and not-a-number exactly if both are 0.  A finite cumulative
score that adds this value becomes this value, so it is undefined (not-a-number)
only in the case that both probabilities are 0. -/
theorem C23_zero_emission_score_is_infinite_or_nan (ln : α → α) (hln : 0 < ln 2)
    (p : HMMProbabilities (FloatValue α)) (b : Int) (e1 e2 t11 t22 : α)
    (h1 : mapAt p.emissionProbabilities 1 b = Except.ok (FloatValue.finite e1))
    (h2 : mapAt p.emissionProbabilities 2 b = Except.ok (FloatValue.finite e2))
    (ht1 : p.transitionProbability 1 1 = FloatValue.finite t11)
    (ht2 : p.transitionProbability 2 2 = FloatValue.finite t22)
    (h11 : 0 < t11) (h22 : 0 < t22) (he1 : 0 ≤ e1) (he2 : 0 ≤ e2)
    (hz : e1 = 0 ∨ e2 = 0) :
    ∃ v, p.dSegmentScore (FloatValue.log ln) b = Except.ok v ∧
      (∀ x : α, v ≠ FloatValue.finite x) ∧
      (e1 = 0 ∧ 0 < e2 → v = FloatValue.posInf) ∧
      (0 < e1 ∧ e2 = 0 → v = FloatValue.negInf) ∧
      (v = FloatValue.nan ↔ e1 = 0 ∧ e2 = 0) ∧
      (∀ c : α, FloatValue.finite c + v = v) ∧
      (∀ cum : FloatValue α, v = FloatValue.nan → cum + v = FloatValue.nan) := by
  have hscore := dSegmentScore_float ln hln p b e1 e2 t11 t22 h1 h2 ht1 ht2
  have hnan : ∀ cum : FloatValue α, cum + FloatValue.nan = FloatValue.nan := by
    intro cum
    cases cum <;> rfl
  rcases lt_or_eq_of_le he1 with hp1 | hz1
  · -- only the state-2 probability is 0
    have hz2 : e2 = 0 := hz.resolve_left (ne_of_gt hp1)
    subst hz2
    rw [zero_mul, FloatValue.log_finite_zero, FloatValue.log_finite_pos ln _ (mul_pos hp1 h11),
      FloatValue.negInf_div_finite _ hln, FloatValue.finite_div_finite _ _ hln] at hscore
    refine ⟨FloatValue.negInf, hscore, ?_, ?_, ?_, ?_, ?_, ?_⟩
    · intro x hx; cases hx
    · intro h; exact absurd h.2 (lt_irrefl _)
    · intro _; rfl
    · constructor
      · intro h; cases h
      · intro h; exact absurd h.1 (ne_of_gt hp1)
    · intro c; rfl
    · intro cum h; cases h
  · subst hz1
    rcases lt_or_eq_of_le he2 with hp2 | hz2
    · -- only the state-1 probability is 0
      rw [zero_mul, FloatValue.log_finite_zero,
        FloatValue.log_finite_pos ln _ (mul_pos hp2 h22),
        FloatValue.negInf_div_finite _ hln, FloatValue.finite_div_finite _ _ hln] at hscore
      refine ⟨FloatValue.posInf, hscore, ?_, ?_, ?_, ?_, ?_, ?_⟩
      · intro x hx; cases hx
      · intro _; rfl
      · intro h; exact absurd h.1 (lt_irrefl _)
      · constructor
        · intro h; cases h
        · intro h; exact absurd h.2 (ne_of_gt hp2)
      · intro c; rfl
      · intro cum h; cases h
    · -- both probabilities are 0
      subst hz2
      rw [zero_mul, zero_mul, FloatValue.log_finite_zero,
        FloatValue.negInf_div_finite _ hln] at hscore
      refine ⟨FloatValue.nan, hscore, ?_, ?_, ?_, ?_, ?_, ?_⟩
      · intro x hx; cases hx
      · intro h; exact absurd h.2 (lt_irrefl _)
      · intro h; exact absurd h.1 (lt_irrefl _)
      · exact ⟨fun _ => ⟨rfl, rfl⟩, fun _ => rfl⟩
      · intro c; rfl
      · intro cum _; exact hnan cum

end ZeroEmissionScore

/-- C23, counterexample: bucket 0 of a model whose state-1 emission probability
was set to exactly 0 through `setEmissionProbability` (the log mirror holds the
not-a-number sentinel), with the state-2 probability `1/4` and self-transition
probabilities `2/3`.  `dSegmentScore` returns `+inf`, which is an infinity and not
the sentinel, and a cumulative score 0 that adds it is `+inf`, not undefined. -/
theorem C23_one_zero_emission_counterexample :
    ∃ p, zeroEmissionModel Real.log 0 (1 / 4) = Except.ok p ∧
      p.emissionProbability 1 "0" = Except.ok (FloatValue.finite 0) ∧
      p.logEmissionProbability 1 "0" = Except.ok FloatValue.nan ∧
      p.dSegmentScore (FloatValue.log Real.log) 0 = Except.ok FloatValue.posInf ∧
      (FloatValue.posInf : FloatValue ℝ) ≠ FloatValue.nan ∧
      (0 : FloatValue ℝ) + FloatValue.posInf = FloatValue.posInf := by
  obtain ⟨p, hp, h1, h2, ht1, ht2, he, hl⟩ := zeroEmissionModel_spec Real.log 0 (1 / 4)
  have hscore := dSegmentScore_float Real.log (Real.log_pos (by norm_num)) p 0 0 (1 / 4)
    (2 / 3) (2 / 3) h1 h2 ht1 ht2
  rw [zero_mul, FloatValue.log_finite_zero,
    FloatValue.log_finite_pos Real.log _ (by norm_num),
    FloatValue.negInf_div_finite _ (Real.log_pos (by norm_num)),
    FloatValue.finite_div_finite _ _ (Real.log_pos (by norm_num))] at hscore
  refine ⟨p, hp, he, ?_, hscore, ?_, rfl⟩
  · rw [hl]
    have hzero : (FloatValue.finite 0 : FloatValue ℝ) = 0 := rfl
    rw [hzero, HMMProbabilities.logVal, if_pos rfl]
  · intro h; cases h

/-- C23, witness: the model with both emission probabilities of bucket 0 set to 0;
the score is not-a-number. -/
theorem C23_zero_emission_score_is_infinite_or_nan_witness :
    ∃ p v, zeroEmissionModel Real.log 0 0 = Except.ok p ∧
      p.dSegmentScore (FloatValue.log Real.log) 0 = Except.ok v ∧
      (v = FloatValue.nan ↔ (0 : ℝ) = 0 ∧ (0 : ℝ) = 0) ∧
      ∀ cum : FloatValue ℝ, v = FloatValue.nan → cum + v = FloatValue.nan := by
  obtain ⟨p, hp, h1, h2, ht1, ht2, -⟩ := zeroEmissionModel_spec Real.log 0 0
  obtain ⟨v, hv, -, -, -, hnan, -, hcum⟩ :=
    C23_zero_emission_score_is_infinite_or_nan Real.log (Real.log_pos (by norm_num)) p 0 0 0
      (2 / 3) (2 / 3) h1 h2 ht1 ht2 (by norm_num) (by norm_num) (le_refl _) (le_refl _)
      (Or.inl rfl)
  exact ⟨p, v, hp, hv, hnan, hcum⟩

/-! ## Scans over floating-point special values -/

section SpecialValues

variable {α : Type} [LinearOrderedField α]

theorem FloatValue.zero_def : (0 : FloatValue α) = FloatValue.finite 0 := rfl

theorem FloatValue.finite_add_finite (x y : α) :
    (FloatValue.finite x : FloatValue α) + FloatValue.finite y = FloatValue.finite (x + y) :=
  rfl

theorem FloatValue.finite_sub_finite (x y : α) :
    (FloatValue.finite x : FloatValue α) - FloatValue.finite y = FloatValue.finite (x - y) :=
  rfl

theorem FloatValue.finite_le_finite (x y : α) :
    (FloatValue.finite x : FloatValue α) ≤ FloatValue.finite y ↔ x ≤ y := Iff.rfl

theorem FloatValue.finite_lt_finite (x y : α) :
    (FloatValue.finite x : FloatValue α) < FloatValue.finite y ↔ x < y := Iff.rfl

theorem FloatValue.not_nan_le (a : FloatValue α) : ¬ (FloatValue.nan : FloatValue α) ≤ a :=
  fun h => h

theorem FloatValue.not_le_nan (a : FloatValue α) : ¬ a ≤ (FloatValue.nan : FloatValue α) := by
  cases a <;> exact fun h => h

theorem FloatValue.not_nan_lt (a : FloatValue α) : ¬ (FloatValue.nan : FloatValue α) < a :=
  fun h => h

theorem FloatValue.not_lt_nan (a : FloatValue α) : ¬ a < (FloatValue.nan : FloatValue α) := by
  cases a <;> exact fun h => h

theorem FloatValue.nan_add (a : FloatValue α) :
    (FloatValue.nan : FloatValue α) + a = FloatValue.nan := rfl

theorem FloatValue.add_nan (a : FloatValue α) :
    a + (FloatValue.nan : FloatValue α) = FloatValue.nan := by
  cases a <;> rfl

theorem FloatValue.finite_ne_zero (x : α) (hx : x ≠ 0) :
    (FloatValue.finite x : FloatValue α) ≠ 0 := by
  intro h
  exact hx (FloatValue.finite.inj h)

/-- The special-values model is built without error; its tables hold the entries
it was given, and the log mirrors of its transitions hold their logs. -/
theorem specialValuesModel_spec (ln : α → α) :
    ∃ p, specialValuesModel ln = Except.ok p ∧
      mapAt p.emissionProbabilities 1 0 = Except.ok (FloatValue.finite (3 / 4)) ∧
      mapAt p.emissionProbabilities 1 1 = Except.ok (FloatValue.finite 0) ∧
      mapAt p.emissionProbabilities 1 2 = Except.ok (FloatValue.finite (1 / 4)) ∧
      mapAt p.emissionProbabilities 1 3 = Except.ok (FloatValue.finite 0) ∧
      mapAt p.emissionProbabilities 2 0 = Except.ok (FloatValue.finite (3 / 8)) ∧
      mapAt p.emissionProbabilities 2 1 = Except.ok (FloatValue.finite 0) ∧
      mapAt p.emissionProbabilities 2 2 = Except.ok (FloatValue.finite (1 / 2)) ∧
      mapAt p.emissionProbabilities 2 3 = Except.ok (FloatValue.finite (1 / 8)) ∧
      p.transitionProbability 1 1 = FloatValue.finite (2 / 3) ∧
      p.transitionProbability 2 2 = FloatValue.finite (2 / 3) ∧
      p.logTransitionProbability 1 1 = FloatValue.log ln (FloatValue.finite (2 / 3)) ∧
      p.logTransitionProbability 1 2 = FloatValue.log ln (FloatValue.finite (1 / 3)) ∧
      p.logTransitionProbability 2 1 = FloatValue.log ln (FloatValue.finite (1 / 3)) ∧
      p.logTransitionProbability 2 2 = FloatValue.log ln (FloatValue.finite (2 / 3)) := by
  have r0 : (specialValuesTransitions ln).emissionResidueMap "0" = some 0 := by
    simp [specialValuesTransitions, HMMProbabilities.createEmissionResidueMap,
      HMMProbabilities.setTransitionProbability]
  have r1 : (specialValuesTransitions ln).emissionResidueMap "1" = some 1 := by
    simp [specialValuesTransitions, HMMProbabilities.createEmissionResidueMap,
      HMMProbabilities.setTransitionProbability]
  have r2 : (specialValuesTransitions ln).emissionResidueMap "2" = some 2 := by
    simp [specialValuesTransitions, HMMProbabilities.createEmissionResidueMap,
      HMMProbabilities.setTransitionProbability]
  have r3 : (specialValuesTransitions ln).emissionResidueMap "3" = some 3 := by
    simp [specialValuesTransitions, HMMProbabilities.createEmissionResidueMap,
      HMMProbabilities.setTransitionProbability]
  obtain ⟨q1, hq1, m1, t1, l1, e1⟩ := setEmissionProbability_spec (FloatValue.log ln)
    FloatValue.nan (specialValuesTransitions ln) 1 "0" (FloatValue.finite (3 / 4)) 0 r0
  obtain ⟨q2, hq2, m2, t2, l2, e2⟩ := setEmissionProbability_spec (FloatValue.log ln)
    FloatValue.nan q1 1 "1" (FloatValue.finite 0) 1 (by rw [m1]; exact r1)
  obtain ⟨q3, hq3, m3, t3, l3, e3⟩ := setEmissionProbability_spec (FloatValue.log ln)
    FloatValue.nan q2 1 "2" (FloatValue.finite (1 / 4)) 2 (by rw [m2, m1]; exact r2)
  obtain ⟨q4, hq4, m4, t4, l4, e4⟩ := setEmissionProbability_spec (FloatValue.log ln)
    FloatValue.nan q3 1 "3" (FloatValue.finite 0) 3 (by rw [m3, m2, m1]; exact r3)
  obtain ⟨q5, hq5, m5, t5, l5, e5⟩ := setEmissionProbability_spec (FloatValue.log ln)
    FloatValue.nan q4 2 "0" (FloatValue.finite (3 / 8)) 0 (by rw [m4, m3, m2, m1]; exact r0)
  obtain ⟨q6, hq6, m6, t6, l6, e6⟩ := setEmissionProbability_spec (FloatValue.log ln)
    FloatValue.nan q5 2 "1" (FloatValue.finite 0) 1
    (by rw [m5, m4, m3, m2, m1]; exact r1)
  obtain ⟨q7, hq7, m7, t7, l7, e7⟩ := setEmissionProbability_spec (FloatValue.log ln)
    FloatValue.nan q6 2 "2" (FloatValue.finite (1 / 2)) 2
    (by rw [m6, m5, m4, m3, m2, m1]; exact r2)
  obtain ⟨q8, hq8, m8, t8, l8, e8⟩ := setEmissionProbability_spec (FloatValue.log ln)
    FloatValue.nan q7 2 "3" (FloatValue.finite (1 / 8)) 3
    (by rw [m7, m6, m5, m4, m3, m2, m1]; exact r3)
  have hem : q8.emissionProbabilities = mapSet (mapSet (mapSet (mapSet (mapSet (mapSet (mapSet
      (mapSet (specialValuesTransitions ln).emissionProbabilities 1 0 (FloatValue.finite (3 / 4)))
          1 1 (FloatValue.finite 0))
      1 2 (FloatValue.finite (1 / 4))) 1 3 (FloatValue.finite 0))
      2 0 (FloatValue.finite (3 / 8))) 2 1 (FloatValue.finite 0))
      2 2 (FloatValue.finite (1 / 2))) 2 3 (FloatValue.finite (1 / 8)) := by
    rw [e8, e7, e6, e5, e4, e3, e2, e1]
  have h23 : (FloatValue.finite (2 / 3) : FloatValue α) ≠ 0 :=
    FloatValue.finite_ne_zero _ (by norm_num)
  refine ⟨q8, ?_, ?_, ?_, ?_, ?_, ?_, ?_, ?_, ?_, ?_, ?_, ?_, ?_, ?_, ?_⟩
  · simp only [specialValuesModel, bind, Except.bind, hq1, hq2, hq3, hq4, hq5, hq6, hq7, hq8]
  · rw [hem]; simp [mapAt, mapSet]
  · rw [hem]; simp [mapAt, mapSet]
  · rw [hem]; simp [mapAt, mapSet]
  · rw [hem]; simp [mapAt, mapSet]
  · rw [hem]; simp [mapAt, mapSet]
  · rw [hem]; simp [mapAt, mapSet]
  · rw [hem]; simp [mapAt, mapSet]
  · rw [hem]; simp [mapAt, mapSet]
  · show q8.transitionProbabilities 1 1 = _
    rw [t8, t7, t6, t5, t4, t3, t2, t1]
    simp [specialValuesTransitions, HMMProbabilities.setTransitionProbability, arraySet2]
  · show q8.transitionProbabilities 2 2 = _
    rw [t8, t7, t6, t5, t4, t3, t2, t1]
    simp [specialValuesTransitions, HMMProbabilities.setTransitionProbability, arraySet2]
  · show q8.logTransitionProbabilities 1 1 = _
    rw [l8, l7, l6, l5, l4, l3, l2, l1]
    simp [specialValuesTransitions, HMMProbabilities.setTransitionProbability, arraySet2,
      HMMProbabilities.logVal, h23]
  · show q8.logTransitionProbabilities 1 2 = _
    rw [l8, l7, l6, l5, l4, l3, l2, l1]
    simp [specialValuesTransitions, HMMProbabilities.setTransitionProbability, arraySet2,
      HMMProbabilities.logVal]
    intro h
    exact absurd h (FloatValue.finite_ne_zero _ (by norm_num))
  · show q8.logTransitionProbabilities 2 1 = _
    rw [l8, l7, l6, l5, l4, l3, l2, l1]
    simp [specialValuesTransitions, HMMProbabilities.setTransitionProbability, arraySet2,
      HMMProbabilities.logVal]
    intro h
    exact absurd h (FloatValue.finite_ne_zero _ (by norm_num))
  · show q8.logTransitionProbabilities 2 2 = _
    rw [l8, l7, l6, l5, l4, l3, l2, l1]
    simp [specialValuesTransitions, HMMProbabilities.setTransitionProbability, arraySet2,
      HMMProbabilities.logVal, h23]

end SpecialValues

/-- The scores and the threshold of the special-values model over the reals:
`-1` for bucket 0, not-a-number for bucket 1 (both emission probabilities are 0),
`1` for bucket 2, `+inf` for bucket 3 (only the state-1 probability is 0), and
threshold 2. -/
theorem specialValuesModel_scores :
    ∃ p, specialValuesModel Real.log = Except.ok p ∧
      p.dSegmentScore (FloatValue.log Real.log) 0 = Except.ok (FloatValue.finite (-1)) ∧
      p.dSegmentScore (FloatValue.log Real.log) 1 = Except.ok FloatValue.nan ∧
      p.dSegmentScore (FloatValue.log Real.log) 2 = Except.ok (FloatValue.finite 1) ∧
      p.dSegmentScore (FloatValue.log Real.log) 3 = Except.ok FloatValue.posInf ∧
      (DSegmentsFinder.new (FloatValue.log Real.log) p).threshold = FloatValue.finite 2 := by
  obtain ⟨p, hp, a0, a1, a2, a3, b0, b1, b2, b3, t11, t22, l11, l12, l21, l22⟩ :=
    specialValuesModel_spec Real.log
  have hL : 0 < Real.log 2 := Real.log_pos (by norm_num)
  have hL' : Real.log 2 ≠ 0 := ne_of_gt hL
  have h3 : Real.log (1 / 3) = Real.log (2 / 3) - Real.log 2 := by
    rw [← Real.log_div (by norm_num) (by norm_num)]
    norm_num
  have h6 : Real.log (1 / 6) = Real.log (2 / 3) - 2 * Real.log 2 := by
    have : (1 / 6 : ℝ) = (1 / 3) / 2 := by norm_num
    rw [this, Real.log_div (by norm_num) (by norm_num), h3]
    ring
  refine ⟨p, hp, ?_, ?_, ?_, ?_, ?_⟩
  · have h := dSegmentScore_float Real.log hL p 0 (3 / 4) (3 / 8) (2 / 3) (2 / 3) a0 b0 t11 t22
    rw [FloatValue.log_finite_pos Real.log _ (by norm_num),
      FloatValue.log_finite_pos Real.log _ (by norm_num),
      FloatValue.finite_div_finite _ _ hL, FloatValue.finite_div_finite _ _ hL,
      FloatValue.finite_sub_finite] at h
    rw [h]
    have e1 : (3 / 8 * (2 / 3) : ℝ) = 1 / 4 := by norm_num
    have e2 : (3 / 4 * (2 / 3) : ℝ) = 1 / 2 := by norm_num
    rw [e1, e2, log_quarter, log_half]
    congr 2
    field_simp
    ring
  · have h := dSegmentScore_float Real.log hL p 1 0 0 (2 / 3) (2 / 3) a1 b1 t11 t22
    rw [zero_mul, FloatValue.log_finite_zero, FloatValue.negInf_div_finite _ hL] at h
    exact h
  · have h := dSegmentScore_float Real.log hL p 2 (1 / 4) (1 / 2) (2 / 3) (2 / 3) a2 b2 t11 t22
    rw [FloatValue.log_finite_pos Real.log _ (by norm_num),
      FloatValue.log_finite_pos Real.log _ (by norm_num),
      FloatValue.finite_div_finite _ _ hL, FloatValue.finite_div_finite _ _ hL,
      FloatValue.finite_sub_finite] at h
    rw [h]
    have e1 : (1 / 2 * (2 / 3) : ℝ) = 1 / 3 := by norm_num
    have e2 : (1 / 4 * (2 / 3) : ℝ) = 1 / 6 := by norm_num
    rw [e1, e2, h3, h6]
    congr 2
    field_simp
    ring
  · have h := dSegmentScore_float Real.log hL p 3 0 (1 / 8) (2 / 3) (2 / 3) a3 b3 t11 t22
    rw [zero_mul, FloatValue.log_finite_zero,
      FloatValue.log_finite_pos Real.log _ (by norm_num),
      FloatValue.negInf_div_finite _ hL, FloatValue.finite_div_finite _ _ hL] at h
    exact h
  · show (p.logTransitionProbability 1 1 + p.logTransitionProbability 2 2
      - (p.logTransitionProbability 1 2 + p.logTransitionProbability 2 1))
      / FloatValue.log Real.log 2 = _
    have h2 : FloatValue.log Real.log (2 : FloatValue ℝ) = FloatValue.finite (Real.log 2) :=
      FloatValue.log_finite_pos Real.log 2 (by norm_num)
    rw [l11, l12, l21, l22, h2, FloatValue.log_finite_pos Real.log _ (by norm_num),
      FloatValue.log_finite_pos Real.log _ (by norm_num), FloatValue.finite_add_finite,
      FloatValue.finite_add_finite, FloatValue.finite_sub_finite,
      FloatValue.finite_div_finite _ _ hL, h3]
    congr 1
    field_simp
    ring

/-! ## Evaluating the loop on explicit states -/

section ExplicitSteps

variable {α : Type} [Zero α] [Add α] [Sub α] [LE α] [∀ a b : α, Decidable (a ≤ b)]

open DSegmentsFinder

/-- The loop body on an explicit state, no reset. -/
theorem scanBody_mk_keep (p : HMMProbabilities α) (segs : List (Segment α))
    (g d cur : Fin 4 → Int) (thr c m : α) (st en position : Int) (r : Fin 4)
    (score c' m' : α) (e' : Int)
    (hc : c + score = c')
    (hm : (if c + score ≥ m then c + score else m) = m')
    (he : (if c + score ≥ m then position else en) = e')
    (hk : ¬ (c' ≤ 0 ∨ c' ≤ m' - thr)) :
    scanBody (ScanState.mk (DSegmentsFinder.mk p segs g d thr) cur c m st en) position r score
      = ScanState.mk (DSegmentsFinder.mk p segs (increment g r) d thr) (increment cur r)
          c' m' st e' := by
  subst hc hm he
  rw [scanBody_of_keep
    (ScanState.mk (DSegmentsFinder.mk p segs g d thr) cur c m st en) position r score hk]
  rfl

/-- The loop body on an explicit state, reset with a segment appended. -/
theorem scanBody_mk_emit (p : HMMProbabilities α) (segs : List (Segment α))
    (g d cur : Fin 4 → Int) (thr c m : α) (st en position : Int) (r : Fin 4)
    (score c' m' : α) (e' : Int)
    (hc : c + score = c')
    (hm : (if c + score ≥ m then c + score else m) = m')
    (he : (if c + score ≥ m then position else en) = e')
    (hr : c' ≤ 0 ∨ c' ≤ m' - thr) (hemit : thr ≤ m') :
    scanBody (ScanState.mk (DSegmentsFinder.mk p segs g d thr) cur c m st en) position r score
      = ScanState.mk (DSegmentsFinder.mk p (segs ++ [Segment.mk st e' m']) (increment g r)
          (fun i => d i + increment cur r i) thr) (fun _ => 0) 0 0 (position + 1)
          (position + 1) := by
  subst hc hm he
  rw [scanBody_of_emit
    (ScanState.mk (DSegmentsFinder.mk p segs g d thr) cur c m st en) position r score hr hemit]
  rfl

/-- The loop body on an explicit state, reset without a segment. -/
theorem scanBody_mk_drop (p : HMMProbabilities α) (segs : List (Segment α))
    (g d cur : Fin 4 → Int) (thr c m : α) (st en position : Int) (r : Fin 4)
    (score c' m' : α) (e' : Int)
    (hc : c + score = c')
    (hm : (if c + score ≥ m then c + score else m) = m')
    (he : (if c + score ≥ m then position else en) = e')
    (hr : c' ≤ 0 ∨ c' ≤ m' - thr) (hdrop : ¬ thr ≤ m') :
    scanBody (ScanState.mk (DSegmentsFinder.mk p segs g d thr) cur c m st en) position r score
      = ScanState.mk (DSegmentsFinder.mk p segs (increment g r) d thr) (fun _ => 0) 0 0
          (position + 1) (position + 1) := by
  subst hc hm he
  rw [scanBody_of_drop
    (ScanState.mk (DSegmentsFinder.mk p segs g d thr) cur c m st en) position r score hr hdrop]
  rfl

/-- The final check on an explicit state whose running maximum reaches the
threshold. -/
theorem flush_mk_emit (p : HMMProbabilities α) (segs : List (Segment α))
    (g d cur : Fin 4 → Int) (thr c m : α) (st en : Int) (h : thr ≤ m) :
    flush (ScanState.mk (DSegmentsFinder.mk p segs g d thr) cur c m st en)
      = DSegmentsFinder.mk p (segs ++ [Segment.mk st en m]) g (fun i => d i + cur i) thr := by
  unfold flush
  rw [if_pos (show m ≥ thr from h)]
  rfl

/-- The final check on an explicit state whose running maximum is below the
threshold. -/
theorem flush_mk_none (p : HMMProbabilities α) (segs : List (Segment α))
    (g d cur : Fin 4 → Int) (thr c m : α) (st en : Int) (h : ¬ thr ≤ m) :
    flush (ScanState.mk (DSegmentsFinder.mk p segs g d thr) cur c m st en)
      = DSegmentsFinder.mk p segs g d thr := by
  unfold flush
  rw [if_neg (show ¬ m ≥ thr from h)]

variable [Mul α] [Div α] [OfNat α (nat_lit 2)]

/-- The local variables at loop entry for a freshly constructed finder. -/
theorem initialState_new (log : α → α) (p : HMMProbabilities α) (thr : α)
    (h : (DSegmentsFinder.new log p).threshold = thr) :
    initialState (DSegmentsFinder.new log p)
      = ScanState.mk (DSegmentsFinder.mk p [] (fun _ => 0) (fun _ => 0) thr) (fun _ => 0)
          0 0 1 1 := by
  subst h
  rfl

/-- The result of `findDSegments` from the state in which the loop ends. -/
theorem findDSegments_of_scan (log : α → α) (finder : DSegmentsFinder α)
    (input : List (Int × Nat)) (s : ScanState α)
    (h : scanLoop log (initialState finder) input = Except.ok s) :
    findDSegments log finder input = Except.ok (flush s) := by
  unfold findDSegments
  rw [h]

end ExplicitSteps

theorem FloatValue.add_def {α : Type} [LinearOrderedField α] (a b : FloatValue α) :
    a + b = FloatValue.add a b := rfl

theorem FloatValue.sub_def {α : Type} [LinearOrderedField α] (a b : FloatValue α) :
    a - b = FloatValue.sub a b := rfl

theorem FloatValue.le_def {α : Type} [LinearOrderedField α] (a b : FloatValue α) :
    a ≤ b ↔ FloatValue.le a b := Iff.rfl

theorem FloatValue.lt_def {α : Type} [LinearOrderedField α] (a b : FloatValue α) :
    a < b ↔ FloatValue.lt a b := Iff.rfl

theorem FloatValue.mul_def {α : Type} [LinearOrderedField α] (a b : FloatValue α) :
    a * b = FloatValue.mul a b := rfl

attribute [simp] FloatValue.zero_def FloatValue.add_def FloatValue.sub_def FloatValue.le_def
  FloatValue.lt_def FloatValue.mul_def FloatValue.add FloatValue.sub FloatValue.le
  FloatValue.lt FloatValue.mul

/-! ## C22: a not-a-number score -/

open DSegmentsFinder in
/-- C22, counterexample.  In the special-values model bucket 1 has both emission
probabilities 0, so its score is not-a-number.  After the single line with count 1
the cumulative score is not-a-number and the running maximum is 0: no comparison
with not-a-number holds, so the loop has neither reset nor raised the maximum, and
the state satisfies neither `cum = max = 0` nor `0 < cum ≤ max`. -/
theorem C22_nan_score_breaks_invariant_counterexample :
    ∃ p s, specialValuesModel Real.log = Except.ok p ∧
      p.dSegmentScore (FloatValue.log Real.log) 1 = Except.ok FloatValue.nan ∧
      scanLoop (FloatValue.log Real.log)
        (initialState (DSegmentsFinder.new (FloatValue.log Real.log) p)) [(1, 1)]
        = Except.ok s ∧
      s.cum = FloatValue.nan ∧ s.max = 0 ∧
      ¬ ((s.cum = 0 ∧ s.max = 0) ∨
        (0 < s.cum ∧ s.cum ≤ s.max ∧
          s.max - s.cum < (DSegmentsFinder.new (FloatValue.log Real.log) p).threshold)) := by
  obtain ⟨p, hp, h0, h1, h2, h3, hthr⟩ := specialValuesModel_scores
  have hloop : scanLoop (FloatValue.log Real.log)
      (initialState (DSegmentsFinder.new (FloatValue.log Real.log) p)) [(1, 1)] =
      Except.ok
        (ScanState.mk
           (DSegmentsFinder.mk p [] (increment (fun _ => 0) (clampReadStarts 1)) (fun _ => 0)
              (FloatValue.finite 2)) (increment (fun _ => 0) (clampReadStarts 1)) FloatValue.nan 0
           1 1) := by
    rw [initialState_new (FloatValue.log Real.log) p _ hthr,
      scanLoop_cons_of_score (FloatValue.log Real.log) _ (1, 1) _ FloatValue.nan h1,
      scanBody_mk_keep p [] (fun _ => 0) (fun _ => 0) (fun _ => 0) (FloatValue.finite 2) 0 0 1 1 1
        (clampReadStarts 1) FloatValue.nan FloatValue.nan 0 1 (by norm_num) (by norm_num)
        (by norm_num) (by norm_num),
      scanLoop_nil]
  refine ⟨p, _, hp, h1, hloop, rfl, rfl, ?_⟩
  rintro (⟨h, -⟩ | ⟨h, -⟩)
  · cases h
  · exact FloatValue.not_lt_nan _ h

/-! ## C21: a block hidden by a not-a-number score -/

open DSegmentsFinder in
/-- C21, counterexample.  In the special-values model (threshold 2, which is above
0) the lines with the counts 1, 2, 2, 2 have the scores not-a-number, 1, 1, 1.  The
block of the last three lines scores `1 + 1 + 1 = 3`, above the threshold, yet the
scan appends no segment: after the first line the cumulative score is not-a-number
and stays so, the running maximum stays 0, and the final check fails. -/
theorem C21_nan_score_hides_block_counterexample :
    ∃ p f', specialValuesModel Real.log = Except.ok p ∧
      (0 : FloatValue ℝ) < (DSegmentsFinder.new (FloatValue.log Real.log) p).threshold ∧
      findDSegments (FloatValue.log Real.log)
        (DSegmentsFinder.new (FloatValue.log Real.log) p) [(1, 1), (2, 2), (3, 2), (4, 2)]
        = Except.ok f' ∧
      ([(2, 2), (3, 2), (4, 2)] : List (Int × Nat)) <:+: [(1, 1), (2, 2), (3, 2), (4, 2)] ∧
      (([(2, 2), (3, 2), (4, 2)] : List (Int × Nat)).map
        (lineScore (FloatValue.log Real.log) p)).sum = FloatValue.finite 3 ∧
      (DSegmentsFinder.new (FloatValue.log Real.log) p).threshold
        ≤ (([(2, 2), (3, 2), (4, 2)] : List (Int × Nat)).map
            (lineScore (FloatValue.log Real.log) p)).sum ∧
      f'.segments = [] := by
  obtain ⟨p, hp, h0, h1, h2, h3, hthr⟩ := specialValuesModel_scores
  have hloop : scanLoop (FloatValue.log Real.log)
      (initialState (DSegmentsFinder.new (FloatValue.log Real.log) p))
      [(1, 1), (2, 2), (3, 2), (4, 2)] =
      Except.ok
        (ScanState.mk
           (DSegmentsFinder.mk p []
              (increment
                 (increment
                    (increment (increment (fun _ => 0) (clampReadStarts 1)) (clampReadStarts 2))
                    (clampReadStarts 2)) (clampReadStarts 2)) (fun _ => 0) (FloatValue.finite 2))
           (increment
              (increment
                 (increment (increment (fun _ => 0) (clampReadStarts 1)) (clampReadStarts 2))
                 (clampReadStarts 2)) (clampReadStarts 2)) FloatValue.nan 0 1 1) := by
    rw [initialState_new (FloatValue.log Real.log) p _ hthr,
      scanLoop_cons_of_score (FloatValue.log Real.log) _ (1, 1) _ FloatValue.nan h1,
      scanBody_mk_keep p [] (fun _ => 0) (fun _ => 0) (fun _ => 0) (FloatValue.finite 2) 0 0 1 1 1
        (clampReadStarts 1) FloatValue.nan FloatValue.nan 0 1 (by norm_num) (by norm_num)
        (by norm_num) (by norm_num),
      scanLoop_cons_of_score (FloatValue.log Real.log) _ (2, 2) _ (FloatValue.finite 1) h2,
      scanBody_mk_keep p [] (increment (fun _ => 0) (clampReadStarts 1)) (fun _ => 0)
        (increment (fun _ => 0) (clampReadStarts 1)) (FloatValue.finite 2) FloatValue.nan 0 1 1 2
        (clampReadStarts 2) (FloatValue.finite 1) FloatValue.nan 0 1 (by norm_num) (by norm_num)
        (by norm_num) (by norm_num),
      scanLoop_cons_of_score (FloatValue.log Real.log) _ (3, 2) _ (FloatValue.finite 1) h2,
      scanBody_mk_keep p []
        (increment (increment (fun _ => 0) (clampReadStarts 1)) (clampReadStarts 2)) (fun _ => 0)
        (increment (increment (fun _ => 0) (clampReadStarts 1)) (clampReadStarts 2))
        (FloatValue.finite 2) FloatValue.nan 0 1 1 3 (clampReadStarts 2) (FloatValue.finite 1)
        FloatValue.nan 0 1 (by norm_num) (by norm_num) (by norm_num) (by norm_num),
      scanLoop_cons_of_score (FloatValue.log Real.log) _ (4, 2) _ (FloatValue.finite 1) h2,
      scanBody_mk_keep p []
        (increment (increment (increment (fun _ => 0) (clampReadStarts 1)) (clampReadStarts 2))
           (clampReadStarts 2)) (fun _ => 0)
        (increment (increment (increment (fun _ => 0) (clampReadStarts 1)) (clampReadStarts 2))
           (clampReadStarts 2)) (FloatValue.finite 2) FloatValue.nan 0 1 1 4 (clampReadStarts 2)
        (FloatValue.finite 1) FloatValue.nan 0 1 (by norm_num) (by norm_num) (by norm_num)
        (by norm_num),
      scanLoop_nil]
  have hfind : findDSegments (FloatValue.log Real.log)
      (DSegmentsFinder.new (FloatValue.log Real.log) p) [(1, 1), (2, 2), (3, 2), (4, 2)] =
      Except.ok
        (DSegmentsFinder.mk p []
           (increment
              (increment
                 (increment (increment (fun _ => 0) (clampReadStarts 1)) (clampReadStarts 2))
                 (clampReadStarts 2)) (clampReadStarts 2)) (fun _ => 0) (FloatValue.finite 2)) := by
    rw [findDSegments_of_scan (FloatValue.log Real.log) _ _ _ hloop,
      flush_mk_none p []
        (increment
           (increment (increment (increment (fun _ => 0) (clampReadStarts 1)) (clampReadStarts 2))
              (clampReadStarts 2)) (clampReadStarts 2)) (fun _ => 0)
        (increment
           (increment (increment (increment (fun _ => 0) (clampReadStarts 1)) (clampReadStarts 2))
              (clampReadStarts 2)) (clampReadStarts 2)) (FloatValue.finite 2) FloatValue.nan 0 1 1
        (by norm_num)]
  have hline : ∀ a : Int, lineScore (FloatValue.log Real.log) p (a, 2) = FloatValue.finite 1 := by
    intro a
    have hc : p.dSegmentScore (FloatValue.log Real.log)
        (((clampReadStarts ((a, 2) : Int × Nat).2).val : Nat) : Int)
        = Except.ok (FloatValue.finite 1) := h2
    unfold lineScore
    rw [hc]
  have hsum : (([(2, 2), (3, 2), (4, 2)] : List (Int × Nat)).map
      (lineScore (FloatValue.log Real.log) p)).sum = FloatValue.finite 3 := by
    rw [List.map_cons, List.map_cons, List.map_cons, List.map_nil, List.sum_cons,
      List.sum_cons, List.sum_cons, List.sum_nil, hline, hline, hline]
    norm_num
  refine ⟨p, _, hp, ?_, hfind, ⟨[(1, 1)], [], rfl⟩, hsum, ?_, rfl⟩
  · rw [hthr]
    norm_num
  · rw [hthr, hsum]
    norm_num

/-! ## C3: a run with an infinite score -/

open DSegmentsFinder in
/-- C3, counterexample.  In the special-values model the state-1 emission
probability of bucket 3 is 0, so `dSegmentScore(3) = +inf`; `dSegmentScore(0) = -1`
and the threshold is 2, so `dSegmentScore(0) < 0 < dSegmentScore(3)`, the threshold
is above 0 and `2 * dSegmentScore(3)` reaches it.  On the input 0, 3, 3, 0 at the
positions 1..4 (`m = 1`, `k = 2`, `n = 1`) every line of the run resets the window,
because `+inf ≤ +inf - threshold` holds, and the scan emits two segments of one
position each, not one segment from 2 to 3. -/
theorem C3_infinite_score_splits_run_counterexample :
    ∃ p f', specialValuesModel Real.log = Except.ok p ∧
      p.dSegmentScore (FloatValue.log Real.log) 0 = Except.ok (FloatValue.finite (-1)) ∧
      (FloatValue.finite (-1) : FloatValue ℝ) < 0 ∧
      p.dSegmentScore (FloatValue.log Real.log) 3 = Except.ok FloatValue.posInf ∧
      (0 : FloatValue ℝ) < FloatValue.posInf ∧
      (0 : FloatValue ℝ) < (DSegmentsFinder.new (FloatValue.log Real.log) p).threshold ∧
      (DSegmentsFinder.new (FloatValue.log Real.log) p).threshold
        ≤ FloatValue.finite 2 * FloatValue.posInf ∧
      embeddedRun 1 2 1 = [(1, 0), (2, 3), (3, 3), (4, 0)] ∧
      findDSegments (FloatValue.log Real.log)
        (DSegmentsFinder.new (FloatValue.log Real.log) p) (embeddedRun 1 2 1)
        = Except.ok f' ∧
      f'.segments = [Segment.mk 2 2 FloatValue.posInf, Segment.mk 3 3 FloatValue.posInf] := by
  obtain ⟨p, hp, h0, h1, h2, h3, hthr⟩ := specialValuesModel_scores
  have hloop : scanLoop (FloatValue.log Real.log)
      (initialState (DSegmentsFinder.new (FloatValue.log Real.log) p))
      [(1, 0), (2, 3), (3, 3), (4, 0)] =
      Except.ok
        (ScanState.mk
           (DSegmentsFinder.mk p
              (([] ++ [Segment.mk (1 + 1) 2 FloatValue.posInf]) ++
                 [Segment.mk (2 + 1) 3 FloatValue.posInf])
              (increment
                 (increment
                    (increment (increment (fun _ => 0) (clampReadStarts 0)) (clampReadStarts 3))
                    (clampReadStarts 3)) (clampReadStarts 0))
              (fun i => (fun i => (fun _ => 0) i + increment (fun _ => 0) (clampReadStarts 3) i)
                 i + increment (fun _ => 0) (clampReadStarts 3) i) (FloatValue.finite 2))
           (fun _ => 0) 0 0 (4 + 1) (4 + 1)) := by
    rw [initialState_new (FloatValue.log Real.log) p _ hthr,
      scanLoop_cons_of_score (FloatValue.log Real.log) _ (1, 0) _ (FloatValue.finite (-1)) h0,
      scanBody_mk_drop p [] (fun _ => 0) (fun _ => 0) (fun _ => 0) (FloatValue.finite 2) 0 0 1 1 1
        (clampReadStarts 0) (FloatValue.finite (-1)) (FloatValue.finite (-1)) 0 1 (by norm_num)
        (by norm_num) (by norm_num) (by norm_num) (by norm_num),
      scanLoop_cons_of_score (FloatValue.log Real.log) _ (2, 3) _ FloatValue.posInf h3,
      scanBody_mk_emit p [] (increment (fun _ => 0) (clampReadStarts 0)) (fun _ => 0) (fun _ => 0)
        (FloatValue.finite 2) 0 0 (1 + 1) (1 + 1) 2 (clampReadStarts 3) FloatValue.posInf
        FloatValue.posInf FloatValue.posInf 2 (by norm_num) (by norm_num) (by norm_num)
        (by norm_num) (by norm_num),
      scanLoop_cons_of_score (FloatValue.log Real.log) _ (3, 3) _ FloatValue.posInf h3,
      scanBody_mk_emit p ([] ++ [Segment.mk (1 + 1) 2 FloatValue.posInf])
        (increment (increment (fun _ => 0) (clampReadStarts 0)) (clampReadStarts 3))
        (fun i => (fun _ => 0) i + increment (fun _ => 0) (clampReadStarts 3) i) (fun _ => 0)
        (FloatValue.finite 2) 0 0 (2 + 1) (2 + 1) 3 (clampReadStarts 3) FloatValue.posInf
        FloatValue.posInf FloatValue.posInf 3 (by norm_num) (by norm_num) (by norm_num)
        (by norm_num) (by norm_num),
      scanLoop_cons_of_score (FloatValue.log Real.log) _ (4, 0) _ (FloatValue.finite (-1)) h0,
      scanBody_mk_drop p
        (([] ++ [Segment.mk (1 + 1) 2 FloatValue.posInf]) ++
           [Segment.mk (2 + 1) 3 FloatValue.posInf])
        (increment (increment (increment (fun _ => 0) (clampReadStarts 0)) (clampReadStarts 3))
           (clampReadStarts 3))
        (fun i => (fun i => (fun _ => 0) i + increment (fun _ => 0) (clampReadStarts 3) i) i +
           increment (fun _ => 0) (clampReadStarts 3) i) (fun _ => 0) (FloatValue.finite 2) 0 0
        (3 + 1) (3 + 1) 4 (clampReadStarts 0) (FloatValue.finite (-1)) (FloatValue.finite (-1)) 0
        (3 + 1) (by norm_num) (by norm_num) (by norm_num) (by norm_num) (by norm_num),
      scanLoop_nil]
  have hfind : findDSegments (FloatValue.log Real.log)
      (DSegmentsFinder.new (FloatValue.log Real.log) p) [(1, 0), (2, 3), (3, 3), (4, 0)] =
      Except.ok
        (DSegmentsFinder.mk p
           (([] ++ [Segment.mk (1 + 1) 2 FloatValue.posInf]) ++
              [Segment.mk (2 + 1) 3 FloatValue.posInf])
           (increment
              (increment
                 (increment (increment (fun _ => 0) (clampReadStarts 0)) (clampReadStarts 3))
                 (clampReadStarts 3)) (clampReadStarts 0))
           (fun i => (fun i => (fun _ => 0) i + increment (fun _ => 0) (clampReadStarts 3) i) i +
              increment (fun _ => 0) (clampReadStarts 3) i) (FloatValue.finite 2)) := by
    rw [findDSegments_of_scan (FloatValue.log Real.log) _ _ _ hloop,
      flush_mk_none p
        (([] ++ [Segment.mk (1 + 1) 2 FloatValue.posInf]) ++
           [Segment.mk (2 + 1) 3 FloatValue.posInf])
        (increment
           (increment (increment (increment (fun _ => 0) (clampReadStarts 0)) (clampReadStarts 3))
              (clampReadStarts 3)) (clampReadStarts 0))
        (fun i => (fun i => (fun _ => 0) i + increment (fun _ => 0) (clampReadStarts 3) i) i +
           increment (fun _ => 0) (clampReadStarts 3) i) (fun _ => 0) (FloatValue.finite 2) 0 0
        (4 + 1) (4 + 1) (by norm_num)]
  have hin : embeddedRun 1 2 1 = [(1, 0), (2, 3), (3, 3), (4, 0)] := by
    simp [embeddedRun, constRun]
  rw [← hin] at hfind
  refine ⟨p, _, hp, h0, ?_, h3, ?_, ?_, ?_, hin, hfind, rfl⟩
  · norm_num
  · norm_num
  · rw [hthr]
    norm_num
  · rw [hthr]
    norm_num

/-! ## C20: a not-a-number score inside a window -/

open DSegmentsFinder in
/-- C20, counterexample.  In the special-values model (threshold 2) the lines with
the counts 2, 2, 2, 1 have the scores 1, 1, 1, not-a-number.  The scan emits the
segment from 1 to 3 with score 3 in the final check; its window runs to position
4, where the input ends.  The cumulative score from the start to position 4 is
not-a-number, which is neither `≤ 3` nor `< 3`. -/
theorem C20_nan_score_in_window_counterexample :
    ∃ p f', specialValuesModel Real.log = Except.ok p ∧
      (0 : FloatValue ℝ) < (DSegmentsFinder.new (FloatValue.log Real.log) p).threshold ∧
      findDSegments (FloatValue.log Real.log)
        (DSegmentsFinder.new (FloatValue.log Real.log) p) [(1, 2), (2, 2), (3, 2), (4, 1)]
        = Except.ok f' ∧
      f'.segments = [Segment.mk 1 3 (FloatValue.finite 3)] ∧
      (([(1, 2), (2, 2), (3, 2), (4, 1)] : List (Int × Nat)).map
        (lineScore (FloatValue.log Real.log) p)).sum = FloatValue.nan ∧
      ¬ (FloatValue.nan : FloatValue ℝ) ≤ FloatValue.finite 3 ∧
      ¬ (FloatValue.nan : FloatValue ℝ) < FloatValue.finite 3 := by
  obtain ⟨p, hp, h0, h1, h2, h3, hthr⟩ := specialValuesModel_scores
  have hloop : scanLoop (FloatValue.log Real.log)
      (initialState (DSegmentsFinder.new (FloatValue.log Real.log) p))
      [(1, 2), (2, 2), (3, 2), (4, 1)] =
      Except.ok
        (ScanState.mk
           (DSegmentsFinder.mk p []
              (increment
                 (increment
                    (increment (increment (fun _ => 0) (clampReadStarts 2)) (clampReadStarts 2))
                    (clampReadStarts 2)) (clampReadStarts 1)) (fun _ => 0) (FloatValue.finite 2))
           (increment
              (increment
                 (increment (increment (fun _ => 0) (clampReadStarts 2)) (clampReadStarts 2))
                 (clampReadStarts 2)) (clampReadStarts 1)) FloatValue.nan (FloatValue.finite 3) 1 3) := by
    rw [initialState_new (FloatValue.log Real.log) p _ hthr,
      scanLoop_cons_of_score (FloatValue.log Real.log) _ (1, 2) _ (FloatValue.finite 1) h2,
      scanBody_mk_keep p [] (fun _ => 0) (fun _ => 0) (fun _ => 0) (FloatValue.finite 2) 0 0 1 1 1
        (clampReadStarts 2) (FloatValue.finite 1) (FloatValue.finite 1) (FloatValue.finite 1) 1
        (by norm_num) (by norm_num) (by norm_num) (by norm_num),
      scanLoop_cons_of_score (FloatValue.log Real.log) _ (2, 2) _ (FloatValue.finite 1) h2,
      scanBody_mk_keep p [] (increment (fun _ => 0) (clampReadStarts 2)) (fun _ => 0)
        (increment (fun _ => 0) (clampReadStarts 2)) (FloatValue.finite 2) (FloatValue.finite 1)
        (FloatValue.finite 1) 1 1 2 (clampReadStarts 2) (FloatValue.finite 1) (FloatValue.finite 2)
        (FloatValue.finite 2) 2 (by norm_num) (by norm_num) (by norm_num) (by norm_num),
      scanLoop_cons_of_score (FloatValue.log Real.log) _ (3, 2) _ (FloatValue.finite 1) h2,
      scanBody_mk_keep p []
        (increment (increment (fun _ => 0) (clampReadStarts 2)) (clampReadStarts 2)) (fun _ => 0)
        (increment (increment (fun _ => 0) (clampReadStarts 2)) (clampReadStarts 2))
        (FloatValue.finite 2) (FloatValue.finite 2) (FloatValue.finite 2) 1 2 3 (clampReadStarts 2)
        (FloatValue.finite 1) (FloatValue.finite 3) (FloatValue.finite 3) 3 (by norm_num)
        (by norm_num) (by norm_num) (by norm_num),
      scanLoop_cons_of_score (FloatValue.log Real.log) _ (4, 1) _ FloatValue.nan h1,
      scanBody_mk_keep p []
        (increment (increment (increment (fun _ => 0) (clampReadStarts 2)) (clampReadStarts 2))
           (clampReadStarts 2)) (fun _ => 0)
        (increment (increment (increment (fun _ => 0) (clampReadStarts 2)) (clampReadStarts 2))
           (clampReadStarts 2)) (FloatValue.finite 2) (FloatValue.finite 3) (FloatValue.finite 3) 1
        3 4 (clampReadStarts 1) FloatValue.nan FloatValue.nan (FloatValue.finite 3) 3 (by norm_num)
        (by norm_num) (by norm_num) (by norm_num),
      scanLoop_nil]
  have hfind : findDSegments (FloatValue.log Real.log)
      (DSegmentsFinder.new (FloatValue.log Real.log) p) [(1, 2), (2, 2), (3, 2), (4, 1)] =
      Except.ok
        (DSegmentsFinder.mk p ([] ++ [Segment.mk 1 3 (FloatValue.finite 3)])
           (increment
              (increment
                 (increment (increment (fun _ => 0) (clampReadStarts 2)) (clampReadStarts 2))
                 (clampReadStarts 2)) (clampReadStarts 1))
           (fun i => (fun _ => 0) i +
              (increment
                 (increment
                    (increment (increment (fun _ => 0) (clampReadStarts 2)) (clampReadStarts 2))
                    (clampReadStarts 2)) (clampReadStarts 1)) i) (FloatValue.finite 2)) := by
    rw [findDSegments_of_scan (FloatValue.log Real.log) _ _ _ hloop,
      flush_mk_emit p []
        (increment
           (increment (increment (increment (fun _ => 0) (clampReadStarts 2)) (clampReadStarts 2))
              (clampReadStarts 2)) (clampReadStarts 1)) (fun _ => 0)
        (increment
           (increment (increment (increment (fun _ => 0) (clampReadStarts 2)) (clampReadStarts 2))
              (clampReadStarts 2)) (clampReadStarts 1)) (FloatValue.finite 2) FloatValue.nan
        (FloatValue.finite 3) 1 3 (by norm_num)]
  have hline2 : ∀ a : Int,
      lineScore (FloatValue.log Real.log) p (a, 2) = FloatValue.finite 1 := by
    intro a
    have hc : p.dSegmentScore (FloatValue.log Real.log)
        (((clampReadStarts ((a, 2) : Int × Nat).2).val : Nat) : Int)
        = Except.ok (FloatValue.finite 1) := h2
    unfold lineScore
    rw [hc]
  have hline1 : ∀ a : Int, lineScore (FloatValue.log Real.log) p (a, 1) = FloatValue.nan := by
    intro a
    have hc : p.dSegmentScore (FloatValue.log Real.log)
        (((clampReadStarts ((a, 1) : Int × Nat).2).val : Nat) : Int)
        = Except.ok FloatValue.nan := h1
    unfold lineScore
    rw [hc]
  refine ⟨p, _, hp, ?_, hfind, rfl, ?_, FloatValue.not_nan_le _, FloatValue.not_nan_lt _⟩
  · rw [hthr]
    norm_num
  · rw [List.map_cons, List.map_cons, List.map_cons, List.map_cons, List.map_nil,
      List.sum_cons, List.sum_cons, List.sum_cons, List.sum_cons, List.sum_nil, hline2, hline2,
      hline2, hline1]
    norm_num

/-! ## C20: the score of a segment is the best prefix score of its window -/

section LinesScores

variable {α : Type} [LinearOrderedField α]

theorem linesScore_nil (log : α → α) (p : HMMProbabilities α) :
    linesScore log p [] = 0 := rfl

theorem linesScore_concat (log : α → α) (p : HMMProbabilities α) (lines : List (Int × Nat))
    (line : Int × Nat) :
    linesScore log p (lines ++ [line]) = linesScore log p lines + lineScore log p line := by
  unfold linesScore
  rw [List.map_append, List.sum_append, List.map_cons, List.map_nil, List.sum_cons,
    List.sum_nil, add_zero]

theorem windowStart_concat (pre : List (Int × Nat)) (line : Int × Nat) :
    windowStart (pre ++ [line]) = line.1 + 1 := by
  unfold windowStart
  rw [List.getLast?_concat]

/-- A best prefix of a window stays the best prefix when a line is added that
brings the cumulative score below its score. -/
theorem bestLines_concat_of_lt (log : α → α) (p : HMMProbabilities α)
    (window : List (Int × Nat)) (line : Int × Nat) (seg : Segment α)
    (h : BestLines log p window seg)
    (hlt : linesScore log p (window ++ [line]) < seg.score) :
    BestLines log p (window ++ [line]) seg := by
  obtain ⟨best, last, hpre, hlast, hend, hscore, hle, hlt'⟩ := h
  refine ⟨best, last, hpre.trans (List.prefix_append _ _), hlast, hend, hscore, ?_, ?_⟩
  · intro w hw
    rcases List.prefix_concat_iff.mp hw with h1 | h1
    · rw [h1]; exact le_of_lt hlt
    · exact hle w h1
  · intro w hw hlen
    rcases List.prefix_concat_iff.mp hw with h1 | h1
    · rw [h1]; exact hlt
    · exact hlt' w h1 hlen

/-- A line that brings the cumulative score of the window to a value that no
prefix exceeds makes the whole window its best prefix. -/
theorem bestLines_concat_of_ge (log : α → α) (p : HMMProbabilities α)
    (window : List (Int × Nat)) (line : Int × Nat) (start : Int)
    (hle : ∀ w : List (Int × Nat), w <+: window →
      linesScore log p w ≤ linesScore log p (window ++ [line])) :
    BestLines log p (window ++ [line])
      (Segment.mk start line.1 (linesScore log p (window ++ [line]))) := by
  refine ⟨window ++ [line], line, List.prefix_rfl, List.getLast?_concat _, rfl, rfl, ?_, ?_⟩
  · intro w hw
    rcases List.prefix_concat_iff.mp hw with h1 | h1
    · rw [h1]
    · exact hle w h1
  · intro w hw hlen
    exact absurd (List.IsPrefix.length_le hw) (not_le.mpr hlen)

/-- In an input with strictly increasing positions, a line of a window whose
position is above that of the last line of a prefix `best` of the window comes
after `best`. -/
theorem prefix_shorter_of_position_lt (input before window after best w : List (Int × Nat))
    (last line : Int × Nat) (hsorted : input.Pairwise (fun a b => a.1 < b.1))
    (hin : input = before ++ window ++ after) (hbest : best <+: window)
    (hlast : best.getLast? = some last) (hw : w ++ [line] <+: window)
    (hlt : last.1 < line.1) :
    best.length < (w ++ [line]).length := by
  by_contra hlen
  obtain ⟨r, hr⟩ := List.prefix_of_prefix_length_le hw hbest (not_lt.mp hlen)
  have hwindow : window.Pairwise (fun a b => a.1 < b.1) := by
    rw [hin] at hsorted
    exact (List.pairwise_append.mp (List.pairwise_append.mp hsorted).1).2.1
  have hbestSorted : (w ++ [line] ++ r).Pairwise (fun a b => a.1 < b.1) := by
    rw [hr]
    exact List.Pairwise.sublist hbest.sublist hwindow
  have hmem : last ∈ r ∨ last = line := by
    rw [← hr, List.getLast?_append] at hlast
    cases hrl : r.getLast? with
    | none =>
      rw [hrl, List.getLast?_concat] at hlast
      right
      cases hlast
      rfl
    | some x =>
      rw [hrl] at hlast
      left
      cases hlast
      exact List.mem_of_mem_getLast? hrl
  rcases hmem with h1 | h1
  · have := (List.pairwise_append.mp hbestSorted).2.2 line (by simp) last h1
    exact absurd (lt_trans hlt this) (lt_irrefl _)
  · rw [h1] at hlt
    exact absurd hlt (lt_irrefl _)

end LinesScores

section LinesStep

variable {α : Type} [LinearOrderedField α]

open DSegmentsFinder

/-- The state after one more line, read from the state in which a scan ended. -/
theorem scanLoop_concat (log : α → α) (s0 s : ScanState α) (pre : List (Int × Nat))
    (line : Int × Nat) (score : α) (hrun : scanLoop log s0 pre = Except.ok s)
    (hscore : s.finder.probabilities.dSegmentScore log
      (((clampReadStarts line.2).val : Nat) : Int) = Except.ok score) :
    scanLoop log s0 (pre ++ [line])
      = Except.ok (scanBody s line.1 (clampReadStarts line.2) score) := by
  rw [scanLoop_append log pre [line] s0 s hrun, scanLoop_cons_of_score log s line [] score hscore]
  rfl

/-- A segment closed after the lines `pre` is closed after the lines
`pre ++ [line]`. -/
theorem closedLines_concat (log : α → α) (p : HMMProbabilities α) (thr : α)
    (s0 : ScanState α) (pre : List (Int × Nat)) (line : Int × Nat) (seg : Segment α)
    (h : ClosedLines log p thr s0 pre seg) :
    ClosedLines log p thr s0 (pre ++ [line]) seg := by
  obtain ⟨before, window, after, sb, hpre, hsb, hc, hm, hst, hws, hbest, hclosed⟩ := h
  refine ⟨before, window, after ++ [line], sb, ?_, hsb, hc, hm, hst, hws, hbest, hclosed⟩
  rw [hpre]
  simp only [List.append_assoc]

/-- The loop body keeps the invariant behind C20. -/
theorem scanBody_linesInvariant (log : α → α) (p : HMMProbabilities α) (thr : α)
    (base : List (Segment α)) (s0 : ScanState α) (pre : List (Int × Nat)) (s : ScanState α)
    (line : Int × Nat) (score : α) (hthr : 0 < thr)
    (hinv : LinesInvariant log p thr base s0 pre s)
    (hscore : p.dSegmentScore log (((clampReadStarts line.2).val : Nat) : Int)
      = Except.ok score) :
    LinesInvariant log p thr base s0 (pre ++ [line])
      (scanBody s line.1 (clampReadStarts line.2) score) := by
  obtain ⟨hp, ht, hrun, ⟨before, window, sb, hpre, hsb, hsbc, hsbm, hsbst, hws, hcum, hopen⟩,
    new, hseg, hall⟩ := hinv
  have hline : lineScore log p line = score := by
    unfold lineScore
    rw [hscore]
  have hrun' : scanLoop log s0 (pre ++ [line])
      = Except.ok (scanBody s line.1 (clampReadStarts line.2) score) :=
    scanLoop_concat log s0 s pre line score hrun (by rw [hp]; exact hscore)
  have hcum' : (advance s line.1 (clampReadStarts line.2) score).cum
      = linesScore log p (window ++ [line]) := by
    rw [linesScore_concat, hline, ← hcum]
    rfl
  have hpre' : pre ++ [line] = before ++ (window ++ [line]) := by
    rw [hpre, List.append_assoc]
  -- every prefix of the open window scores at most the running maximum
  have hbound : ∀ w : List (Int × Nat), w <+: window → linesScore log p w ≤ s.max := by
    intro w hw
    rcases hopen with ⟨hnil, hm0⟩ | hbest
    · rw [hnil] at hw
      rw [List.prefix_nil.mp hw, hm0]
      exact le_refl _
    · obtain ⟨-, -, -, -, -, -, hle, -⟩ := hbest
      exact hle w hw
  -- the best prefix of the window with the new line, whenever there is one
  have hbest' : (0 < (advance s line.1 (clampReadStarts line.2) score).cum ∨
      thr ≤ (advance s line.1 (clampReadStarts line.2) score).max) →
      BestLines log p (window ++ [line]) (Segment.mk s.start
        (advance s line.1 (clampReadStarts line.2) score).end_
        (advance s line.1 (clampReadStarts line.2) score).max) := by
    intro hcase
    by_cases hge : s.max ≤ s.cum + score
    · obtain ⟨hmax, hend⟩ := advance_of_ge s line.1 (clampReadStarts line.2) score hge
      have hmax' : (advance s line.1 (clampReadStarts line.2) score).max
          = linesScore log p (window ++ [line]) := by
        rw [hmax, ← hcum']
        rfl
      rw [hmax', hend]
      apply bestLines_concat_of_ge
      intro w hw
      rw [← hcum']
      exact le_trans (hbound w hw) hge
    · obtain ⟨hmax, hend⟩ := advance_of_lt s line.1 (clampReadStarts line.2) score hge
      have hlt : linesScore log p (window ++ [line]) < s.max := by
        rw [← hcum']
        exact lt_of_not_le hge
      rw [hmax, hend]
      rcases hopen with ⟨hnil, hm0⟩ | hbest
      · exfalso
        rw [hm0] at hlt
        rcases hcase with h1 | h1
        · rw [hcum'] at h1
          exact absurd (lt_trans h1 hlt) (lt_irrefl _)
        · rw [hmax, hm0] at h1
          exact absurd (lt_of_lt_of_le hthr h1) (lt_irrefl _)
      · exact bestLines_concat_of_lt log p window line _ hbest hlt
  have hold : ∀ seg ∈ new, ClosedLines log p thr s0 (pre ++ [line]) seg :=
    fun seg hm => closedLines_concat log p thr s0 pre line seg (hall seg hm)
  -- the state after a reset
  have hresetOpen : ∀ f : DSegmentsFinder α,
      scanLoop log s0 (pre ++ [line]) = Except.ok (resetWindow f line.1) →
      ∃ (before window : List (Int × Nat)) (sb : ScanState α),
        pre ++ [line] = before ++ window ∧
        scanLoop log s0 before = Except.ok sb ∧ sb.cum = 0 ∧ sb.max = 0 ∧
        sb.start = (resetWindow f line.1).start ∧
        (before ≠ [] → (resetWindow f line.1).start = windowStart before) ∧
        (resetWindow f line.1).cum = linesScore log p window ∧
        ((window = [] ∧ (resetWindow f line.1).max = 0) ∨
          BestLines log p window (Segment.mk (resetWindow f line.1).start
            (resetWindow f line.1).end_ (resetWindow f line.1).max)) := by
    intro f hf
    refine ⟨pre ++ [line], [], resetWindow f line.1, (List.append_nil _).symm, hf, rfl, rfl,
      rfl, ?_, rfl, Or.inl ⟨rfl, rfl⟩⟩
    intro _
    rw [windowStart_concat]
    rfl
  refine scanBody_cases (fun u => scanLoop log s0 (pre ++ [line]) = Except.ok u →
      LinesInvariant log p thr base s0 (pre ++ [line]) u)
    s line.1 (clampReadStarts line.2) score ?_ ?_ ?_ hrun'
  · -- no reset
    intro hkeep hu
    have hpos : 0 < (advance s line.1 (clampReadStarts line.2) score).cum :=
      lt_of_not_le (fun hc => hkeep (Or.inl hc))
    exact ⟨hp, ht, hu, ⟨before, window ++ [line], sb, hpre', hsb, hsbc, hsbm, hsbst, hws,
      hcum', Or.inr (hbest' (Or.inl hpos))⟩, new, hseg, hold⟩
  · -- reset, with a segment
    intro hreset hemit hu
    rw [ht] at hemit
    refine ⟨hp, ht, hu, hresetOpen _ hu, new ++ [Segment.mk s.start
      (advance s line.1 (clampReadStarts line.2) score).end_
      (advance s line.1 (clampReadStarts line.2) score).max], ?_, ?_⟩
    · show s.finder.segments ++ _ = _
      rw [hseg, List.append_assoc]
      rfl
    · intro seg hm
      rcases List.mem_append.mp hm with h1 | h1
      · exact hold seg h1
      · rw [List.mem_singleton.mp h1]
        refine ⟨before, window ++ [line], [], sb, ?_, hsb, hsbc, hsbm, hsbst, hws,
          hbest' (Or.inr hemit), ?_⟩
        · rw [List.append_nil, hpre']
        · rw [← hcum']
          have hr : (advance s line.1 (clampReadStarts line.2) score).cum ≤ 0 ∨
              (advance s line.1 (clampReadStarts line.2) score).cum
                ≤ (advance s line.1 (clampReadStarts line.2) score).max
                  - s.finder.threshold := hreset
          rw [ht] at hr
          exact hr
  · -- reset, without a segment
    intro _ _ hu
    exact ⟨hp, ht, hu, hresetOpen _ hu, new, hseg, hold⟩

end LinesStep

section LinesLoop

variable {α : Type} [LinearOrderedField α]

open DSegmentsFinder

/-- The loop keeps the invariant behind C20. -/
theorem scanLoop_linesInvariant (log : α → α) (p : HMMProbabilities α) (thr : α)
    (base : List (Segment α)) (s0 : ScanState α) (hthr : 0 < thr) :
    ∀ (rest pre : List (Int × Nat)) (s s' : ScanState α),
      LinesInvariant log p thr base s0 pre s → scanLoop log s rest = Except.ok s' →
      LinesInvariant log p thr base s0 (pre ++ rest) s' := by
  intro rest
  induction rest with
  | nil =>
    intro pre s s' hinv hs
    cases (show Except.ok s = Except.ok s' from hs)
    rw [List.append_nil]
    exact hinv
  | cons line rest ih =>
    intro pre s s' hinv hs
    obtain ⟨s1, h1, h2⟩ := scanLoop_cons_ok log s s' line rest hs
    obtain ⟨score, hscore, rfl⟩ := scanStep_ok log s s1 line h1
    rw [hinv.1] at hscore
    have hstep := scanBody_linesInvariant log p thr base s0 pre s line score hthr hinv hscore
    have := ih (pre ++ [line]) _ s' hstep h2
    rw [List.append_assoc] at this
    exact this

/-- C20 (amended). Scores and threshold are finite numbers: elements of a linearly
ordered field.  With a positive threshold, for every input (whatever its positions
are) that the scan reads without error, every segment the scan appends has a window:
the input splits into the lines before the window, the window and the lines after
it, such that
* the scan of the lines before the window ends in a state with `cum = max = 0`
  whose window start is the segment's start (position 1 at the start of the input,
  else one past the position of the line at which the loop reset);
* the window was closed by the end of the input or by the reset test on its last
  line;
* the segment ends at the position of the last line of a non-empty prefix `best`
  of the window, and its score is the cumulative score of `best`;
* the cumulative score from the start of the window to any of its lines is at
  most the segment's score, and strictly less for every line read after the
  segment's end; with strictly increasing positions these are the lines at the
  positions above the segment's end.
The cumulative scores are sums of the values that `dSegmentScore` returned. -/
theorem C20_segment_score_is_best_prefix (log : α → α) (finder f' : DSegmentsFinder α)
    (input : List (Int × Nat)) (hthr : 0 < finder.threshold)
    (h : findDSegments log finder input = Except.ok f') :
    (∀ line ∈ input, finder.probabilities.dSegmentScore log
        (((clampReadStarts line.2).val : Nat) : Int)
        = Except.ok (lineScore log finder.probabilities line)) ∧
    ∃ new, f'.segments = finder.segments ++ new ∧
      ∀ seg ∈ new, ∃ (before window after best : List (Int × Nat)) (last : Int × Nat)
          (sb : ScanState α),
        input = before ++ window ++ after ∧
        scanLoop log (initialState finder) before = Except.ok sb ∧
        sb.cum = 0 ∧ sb.max = 0 ∧ sb.start = seg.start ∧
        seg.start = windowStart before ∧
        (after = [] ∨ linesScore log finder.probabilities window ≤ 0 ∨
          linesScore log finder.probabilities window ≤ seg.score - finder.threshold) ∧
        best <+: window ∧ best.getLast? = some last ∧ seg.end_ = last.1 ∧
        seg.score = linesScore log finder.probabilities best ∧
        (∀ w : List (Int × Nat), w <+: window →
          linesScore log finder.probabilities w ≤ seg.score) ∧
        (∀ w : List (Int × Nat), w <+: window → best.length < w.length →
          linesScore log finder.probabilities w < seg.score) ∧
        (input.Pairwise (fun a b => a.1 < b.1) →
          ∀ (w : List (Int × Nat)) (line : Int × Nat), w ++ [line] <+: window →
            seg.end_ < line.1 →
            linesScore log finder.probabilities (w ++ [line]) < seg.score) := by
  obtain ⟨s, hs, rfl⟩ := findDSegments_ok log finder f' input h
  refine ⟨scanLoop_scores_defined log input (initialState finder) s hs, ?_⟩
  have h0 : LinesInvariant log finder.probabilities finder.threshold finder.segments
      (initialState finder) [] (initialState finder) :=
    ⟨rfl, rfl, rfl, ⟨[], [], initialState finder, rfl, rfl, rfl, rfl, rfl,
      fun hne => absurd rfl hne, rfl, Or.inl ⟨rfl, rfl⟩⟩, [], (List.append_nil _).symm,
      fun seg hm => absurd hm (List.not_mem_nil seg)⟩
  have hinv := scanLoop_linesInvariant log finder.probabilities finder.threshold
    finder.segments (initialState finder) hthr input [] _ s h0 hs
  rw [List.nil_append] at hinv
  obtain ⟨-, ht, -, ⟨before, window, sb, hpre, hsb, hsbc, hsbm, hsbst, hws, -, hopen⟩,
    new, hseg, hall⟩ := hinv
  -- the start of a window is the position after the lines before it
  have hstart : ∀ (before : List (Int × Nat)) (sb : ScanState α) (start : Int),
      scanLoop log (initialState finder) before = Except.ok sb → sb.start = start →
      (before ≠ [] → start = windowStart before) → start = windowStart before := by
    intro before sb start hrun hst hne
    by_cases hb : before = []
    · subst hb
      cases (show Except.ok (initialState finder) = Except.ok sb from hrun)
      rw [← hst]
      rfl
    · exact hne hb
  -- from a best prefix to the statement about the segment
  have hpack : ∀ (seg : Segment α) (before window after : List (Int × Nat))
      (sb : ScanState α), input = before ++ window ++ after →
      scanLoop log (initialState finder) before = Except.ok sb → sb.cum = 0 → sb.max = 0 →
      sb.start = seg.start → (before ≠ [] → seg.start = windowStart before) →
      BestLines log finder.probabilities window seg →
      (after = [] ∨ linesScore log finder.probabilities window ≤ 0 ∨
        linesScore log finder.probabilities window ≤ seg.score - finder.threshold) →
      ∃ (before window after best : List (Int × Nat)) (last : Int × Nat) (sb : ScanState α),
        input = before ++ window ++ after ∧
        scanLoop log (initialState finder) before = Except.ok sb ∧
        sb.cum = 0 ∧ sb.max = 0 ∧ sb.start = seg.start ∧
        seg.start = windowStart before ∧
        (after = [] ∨ linesScore log finder.probabilities window ≤ 0 ∨
          linesScore log finder.probabilities window ≤ seg.score - finder.threshold) ∧
        best <+: window ∧ best.getLast? = some last ∧ seg.end_ = last.1 ∧
        seg.score = linesScore log finder.probabilities best ∧
        (∀ w : List (Int × Nat), w <+: window →
          linesScore log finder.probabilities w ≤ seg.score) ∧
        (∀ w : List (Int × Nat), w <+: window → best.length < w.length →
          linesScore log finder.probabilities w < seg.score) ∧
        (input.Pairwise (fun a b => a.1 < b.1) →
          ∀ (w : List (Int × Nat)) (line : Int × Nat), w ++ [line] <+: window →
            seg.end_ < line.1 →
            linesScore log finder.probabilities (w ++ [line]) < seg.score) := by
    intro seg b w a sb' hin hrun hc hmx hst hne hbest hcl
    obtain ⟨best, last, h1, h2, h3, h4, h5, h6⟩ := hbest
    refine ⟨b, w, a, best, last, sb', hin, hrun, hc, hmx, hst,
      hstart b sb' seg.start hrun hst hne, hcl, h1, h2, h3, h4, h5, h6, ?_⟩
    intro hsorted w' line hw' hlt
    rw [h3] at hlt
    exact h6 (w' ++ [line]) hw'
      (prefix_shorter_of_position_lt input b w a best w' last line hsorted hin h1 h2 hw' hlt)
  have hclosed : ∀ seg ∈ new, ∃ (before window after best : List (Int × Nat))
      (last : Int × Nat) (sb : ScanState α),
      input = before ++ window ++ after ∧
      scanLoop log (initialState finder) before = Except.ok sb ∧
      sb.cum = 0 ∧ sb.max = 0 ∧ sb.start = seg.start ∧
      seg.start = windowStart before ∧
      (after = [] ∨ linesScore log finder.probabilities window ≤ 0 ∨
        linesScore log finder.probabilities window ≤ seg.score - finder.threshold) ∧
      best <+: window ∧ best.getLast? = some last ∧ seg.end_ = last.1 ∧
      seg.score = linesScore log finder.probabilities best ∧
      (∀ w : List (Int × Nat), w <+: window →
        linesScore log finder.probabilities w ≤ seg.score) ∧
      (∀ w : List (Int × Nat), w <+: window → best.length < w.length →
        linesScore log finder.probabilities w < seg.score) ∧
      (input.Pairwise (fun a b => a.1 < b.1) →
        ∀ (w : List (Int × Nat)) (line : Int × Nat), w ++ [line] <+: window →
          seg.end_ < line.1 →
          linesScore log finder.probabilities (w ++ [line]) < seg.score) := by
    intro seg hm
    obtain ⟨b, w, a, sb', hin, hrun, hc, hmx, hst, hne, hbest, hcl⟩ := hall seg hm
    exact hpack seg b w a sb' hin hrun hc hmx hst hne hbest (Or.inr hcl)
  unfold flush
  split
  · rename_i hmax
    rcases hopen with ⟨-, hm0⟩ | hbest
    · exfalso
      rw [hm0, ht] at hmax
      exact absurd hmax (not_le.mpr hthr)
    · refine ⟨new ++ [Segment.mk s.start s.end_ s.max], ?_, ?_⟩
      · show s.finder.segments ++ _ = _
        rw [hseg, List.append_assoc]
      · intro seg hm
        rcases List.mem_append.mp hm with h1 | h1
        · exact hclosed seg h1
        · rw [List.mem_singleton.mp h1]
          exact hpack (Segment.mk s.start s.end_ s.max) before window [] sb
            (by rw [List.append_nil]; exact hpre) hsb hsbc hsbm hsbst hws hbest (Or.inl rfl)
  · exact ⟨new, hseg, hclosed⟩

end LinesLoop

/-! ## A second worked example -/

open DSegmentsFinder in
/-- The scan of 3, 3, 3, 3, 0, 0 at the positions 1..6 with the scores `1` and `-1`
and threshold 2, by a freshly constructed finder: the window opened at 1 peaks at
position 4 with score 4 and is reset at position 6; the one segment goes from 1 to
4, and the counts of all six lines go into both histograms. -/
theorem trace_333300 (p : HMMProbabilities ℝ)
    (h0 : p.dSegmentScore Real.log 0 = Except.ok (-1))
    (h3 : p.dSegmentScore Real.log 3 = Except.ok 1)
    (hthr : (DSegmentsFinder.new Real.log p).threshold = 2) :
    ∃ f', findDSegments Real.log (DSegmentsFinder.new Real.log p)
        [(1, 3), (2, 3), (3, 3), (4, 3), (5, 0), (6, 0)] = Except.ok f' ∧
      f'.segments = [Segment.mk 1 4 4] ∧
      f'.dSegmentReadStartCounts 0 = 2 ∧ f'.dSegmentReadStartCounts 1 = 0 ∧
      f'.dSegmentReadStartCounts 2 = 0 ∧ f'.dSegmentReadStartCounts 3 = 4 ∧
      f'.readStartCounts 0 = 2 ∧ f'.readStartCounts 1 = 0 ∧
      f'.readStartCounts 2 = 0 ∧ f'.readStartCounts 3 = 4 := by
  have hloop : scanLoop Real.log (initialState (DSegmentsFinder.new Real.log p))
      [(1, 3), (2, 3), (3, 3), (4, 3), (5, 0), (6, 0)] =
      Except.ok
        (ScanState.mk
           (DSegmentsFinder.mk p ([] ++ [Segment.mk 1 4 4])
              (increment
                 (increment
                    (increment
                       (increment
                          (increment (increment (fun _ => 0) (clampReadStarts 3))
                             (clampReadStarts 3)) (clampReadStarts 3)) (clampReadStarts 3))
                    (clampReadStarts 0)) (clampReadStarts 0))
              (fun i => (fun _ => 0) i + increment
                 (increment
                    (increment
                       (increment
                          (increment (increment (fun _ => 0) (clampReadStarts 3))
                             (clampReadStarts 3)) (clampReadStarts 3)) (clampReadStarts 3))
                    (clampReadStarts 0)) (clampReadStarts 0) i) 2) (fun _ => 0) 0 0 (6 + 1) (6 + 1)) := by
    rw [initialState_new Real.log p _ hthr,
      scanLoop_cons_of_score Real.log _ (1, 3) _ 1 h3,
      scanBody_mk_keep p [] (fun _ => 0) (fun _ => 0) (fun _ => 0) 2 0 0 1 1 1 (clampReadStarts 3) 1
        1 1 1 (by norm_num) (by norm_num) (by norm_num) (by norm_num),
      scanLoop_cons_of_score Real.log _ (2, 3) _ 1 h3,
      scanBody_mk_keep p [] (increment (fun _ => 0) (clampReadStarts 3)) (fun _ => 0)
        (increment (fun _ => 0) (clampReadStarts 3)) 2 1 1 1 1 2 (clampReadStarts 3) 1 2 2 2
        (by norm_num) (by norm_num) (by norm_num) (by norm_num),
      scanLoop_cons_of_score Real.log _ (3, 3) _ 1 h3,
      scanBody_mk_keep p []
        (increment (increment (fun _ => 0) (clampReadStarts 3)) (clampReadStarts 3)) (fun _ => 0)
        (increment (increment (fun _ => 0) (clampReadStarts 3)) (clampReadStarts 3)) 2 2 2 1 2 3
        (clampReadStarts 3) 1 3 3 3 (by norm_num) (by norm_num) (by norm_num) (by norm_num),
      scanLoop_cons_of_score Real.log _ (4, 3) _ 1 h3,
      scanBody_mk_keep p []
        (increment (increment (increment (fun _ => 0) (clampReadStarts 3)) (clampReadStarts 3))
           (clampReadStarts 3)) (fun _ => 0)
        (increment (increment (increment (fun _ => 0) (clampReadStarts 3)) (clampReadStarts 3))
           (clampReadStarts 3)) 2 3 3 1 3 4 (clampReadStarts 3) 1 4 4 4 (by norm_num) (by norm_num)
        (by norm_num) (by norm_num),
      scanLoop_cons_of_score Real.log _ (5, 0) _ (-1) h0,
      scanBody_mk_keep p []
        (increment
           (increment (increment (increment (fun _ => 0) (clampReadStarts 3)) (clampReadStarts 3))
              (clampReadStarts 3)) (clampReadStarts 3)) (fun _ => 0)
        (increment
           (increment (increment (increment (fun _ => 0) (clampReadStarts 3)) (clampReadStarts 3))
              (clampReadStarts 3)) (clampReadStarts 3)) 2 4 4 1 4 5 (clampReadStarts 0) (-1) 3 4 4
        (by norm_num) (by norm_num) (by norm_num) (by norm_num),
      scanLoop_cons_of_score Real.log _ (6, 0) _ (-1) h0,
      scanBody_mk_emit p []
        (increment
           (increment
              (increment
                 (increment (increment (fun _ => 0) (clampReadStarts 3)) (clampReadStarts 3))
                 (clampReadStarts 3)) (clampReadStarts 3)) (clampReadStarts 0)) (fun _ => 0)
        (increment
           (increment
              (increment
                 (increment (increment (fun _ => 0) (clampReadStarts 3)) (clampReadStarts 3))
                 (clampReadStarts 3)) (clampReadStarts 3)) (clampReadStarts 0)) 2 3 4 1 4 6
        (clampReadStarts 0) (-1) 2 4 4 (by norm_num) (by norm_num) (by norm_num) (by norm_num)
        (by norm_num),
      scanLoop_nil]
  have hfind : findDSegments Real.log (DSegmentsFinder.new Real.log p)
      [(1, 3), (2, 3), (3, 3), (4, 3), (5, 0), (6, 0)] =
      Except.ok
        (DSegmentsFinder.mk p ([] ++ [Segment.mk 1 4 4])
           (increment
              (increment
                 (increment
                    (increment
                       (increment (increment (fun _ => 0) (clampReadStarts 3))
                          (clampReadStarts 3)) (clampReadStarts 3)) (clampReadStarts 3))
                 (clampReadStarts 0)) (clampReadStarts 0))
           (fun i => (fun _ => 0) i + increment
              (increment
                 (increment
                    (increment
                       (increment (increment (fun _ => 0) (clampReadStarts 3))
                          (clampReadStarts 3)) (clampReadStarts 3)) (clampReadStarts 3))
                 (clampReadStarts 0)) (clampReadStarts 0) i) 2) := by
    rw [findDSegments_of_scan Real.log _ _ _ hloop,
      flush_mk_none p ([] ++ [Segment.mk 1 4 4])
        (increment
           (increment
              (increment
                 (increment
                    (increment (increment (fun _ => 0) (clampReadStarts 3)) (clampReadStarts 3))
                    (clampReadStarts 3)) (clampReadStarts 3)) (clampReadStarts 0))
           (clampReadStarts 0))
        (fun i => (fun _ => 0) i + increment
           (increment
              (increment
                 (increment
                    (increment (increment (fun _ => 0) (clampReadStarts 3)) (clampReadStarts 3))
                    (clampReadStarts 3)) (clampReadStarts 3)) (clampReadStarts 0))
           (clampReadStarts 0) i) (fun _ => 0) 2 0 0 (6 + 1) (6 + 1) (by norm_num)]
  exact ⟨_, hfind, rfl, rfl, rfl, rfl, rfl, rfl, rfl, rfl, rfl⟩

/-! ## C7: what the segment-restricted histogram holds -/

/-- C7 (what the code does). In the example model, scanning 3, 3, 3, 3, 0, 0 at the
positions 1..6 with a fresh finder emits the single segment from 1 to 4, yet the
segment-restricted histogram holds the counts of all six lines of the window:
bucket 0 holds 2 although no observation of count 0 lies inside the segment, and
the four buckets sum to 6 although the segment has length 4. -/
theorem C7_histogram_counts_window_past_segment_end :
    ∃ p f', exampleModel Real.log Real.exp 0 = Except.ok p ∧
      DSegmentsFinder.findDSegments Real.log (DSegmentsFinder.new Real.log p)
        [(1, 3), (2, 3), (3, 3), (4, 3), (5, 0), (6, 0)] = Except.ok f' ∧
      f'.segments = [Segment.mk 1 4 4] ∧
      f'.dSegmentReadStartCounts 0 = 2 ∧ f'.dSegmentReadStartCounts 3 = 4 ∧
      insideSegmentsCount f'.segments [(1, 3), (2, 3), (3, 3), (4, 3), (5, 0), (6, 0)] 0 = 0 ∧
      insideSegmentsCount f'.segments [(1, 3), (2, 3), (3, 3), (4, 3), (5, 0), (6, 0)] 3 = 4 ∧
      f'.dSegmentReadStartCounts 0 + f'.dSegmentReadStartCounts 1
        + f'.dSegmentReadStartCounts 2 + f'.dSegmentReadStartCounts 3 = 6 ∧
      totalLength f'.segments = 4 := by
  obtain ⟨p, hp, h0, h3, hthr⟩ := exampleModel_scores 0
  obtain ⟨f', hf, hseg, d0, d1, d2, d3, -⟩ := trace_333300 p h0 h3 hthr
  refine ⟨p, f', hp, hf, hseg, d0, d3, ?_, ?_, ?_, ?_⟩
  · rw [hseg]
    rfl
  · rw [hseg]
    rfl
  · rw [d0, d1, d2, d3]
    rfl
  · rw [hseg]
    rfl

/-! ## C17: the second run, on the second worked example -/

/-- C17, counterexample: in the example model the scan of 3, 3, 3, 3, 0, 0 leaves a
fresh finder with one segment, 4 in bucket 3 of the global histogram and 2 in
bucket 0 of the segment-restricted histogram; run again on that finder it leaves
two segments, 8 in bucket 3 of the global histogram and 4 in bucket 0 of the
segment-restricted one. -/
theorem C17_second_run_differs_counterexample :
    ∃ p f1 f2, exampleModel Real.log Real.exp 0 = Except.ok p ∧
      DSegmentsFinder.findDSegments Real.log (DSegmentsFinder.new Real.log p)
        [(1, 3), (2, 3), (3, 3), (4, 3), (5, 0), (6, 0)] = Except.ok f1 ∧
      DSegmentsFinder.findDSegments Real.log f1 [(1, 3), (2, 3), (3, 3), (4, 3), (5, 0), (6, 0)]
        = Except.ok f2 ∧
      f1.segments = [Segment.mk 1 4 4] ∧
      f2.segments = [Segment.mk 1 4 4, Segment.mk 1 4 4] ∧
      f1.readStartCounts 3 = 4 ∧ f2.readStartCounts 3 = 8 ∧
      f1.dSegmentReadStartCounts 0 = 2 ∧ f2.dSegmentReadStartCounts 0 = 4 := by
  obtain ⟨p, hp, h0, h3, hthr⟩ := exampleModel_scores 0
  obtain ⟨f1, hf1, hseg, d0, -, -, -, -, -, -, g3⟩ := trace_333300 p h0 h3 hthr
  obtain ⟨hpm, htm⟩ := findDSegments_keeps_model Real.log _ f1 _ hf1
  obtain ⟨f2, new, hf2, hs1, hs2, -, -, hr, hd⟩ :=
    findDSegments_additive Real.log (DSegmentsFinder.new Real.log p) f1 f1 _
      hpm.symm htm.symm hf1
  have hnew : new = [Segment.mk 1 4 4] := by
    rw [hseg] at hs1
    exact hs1.symm
  refine ⟨p, f1, f2, hp, hf1, hf2, hseg, ?_, g3, ?_, d0, ?_⟩
  · rw [hs2, hseg, hnew]
    rfl
  · have h := hr 3
    rw [g3] at h
    have hz : (DSegmentsFinder.new Real.log p).readStartCounts 3 = 0 := rfl
    rw [hz] at h
    omega
  · have h := hd 0
    rw [d0] at h
    have hz : (DSegmentsFinder.new Real.log p).dSegmentReadStartCounts 0 = 0 := rfl
    rw [hz] at h
    omega

/-- C17 (amended), witness: the second run of the same example. -/
theorem C17_rerun_appends_and_adds_again_witness :
    ∃ p f1 f2 new, exampleModel Real.log Real.exp 0 = Except.ok p ∧
      DSegmentsFinder.findDSegments Real.log (DSegmentsFinder.new Real.log p)
        [(1, 3), (2, 3), (3, 3), (4, 3), (5, 0), (6, 0)] = Except.ok f1 ∧
      DSegmentsFinder.findDSegments Real.log f1 [(1, 3), (2, 3), (3, 3), (4, 3), (5, 0), (6, 0)]
        = Except.ok f2 ∧
      f1.segments = (DSegmentsFinder.new Real.log p).segments ++ new ∧
      f2.segments = f1.segments ++ new := by
  obtain ⟨p, hp, h0, h3, hthr⟩ := exampleModel_scores 0
  obtain ⟨f1, hf1, -⟩ := trace_333300 p h0 h3 hthr
  obtain ⟨f2, new, hf2, hs1, hs2, -, -⟩ :=
    (C17_rerun_appends_and_adds_again Real.log _ f1 _ hf1).2
  exact ⟨p, f1, f2, new, hp, hf1, hf2, hs1, hs2⟩

/-! ## Witnesses on the second worked example -/

/-- C22, witness: in the example model, after the first three lines of
3, 3, 3, 3, 0, 0 the invariant holds of the carried state. -/
theorem C22_carried_state_invariant_witness :
    ∃ p f', exampleModel Real.log Real.exp 0 = Except.ok p ∧
      DSegmentsFinder.findDSegments Real.log (DSegmentsFinder.new Real.log p)
        [(1, 3), (2, 3), (3, 3), (4, 3), (5, 0), (6, 0)] = Except.ok f' ∧
      ∃ (s : ScanState ℝ) (n : Nat),
        DSegmentsFinder.scanLoop Real.log
          (DSegmentsFinder.initialState (DSegmentsFinder.new Real.log p))
          [(1, 3), (2, 3), (3, 3)] = Except.ok s ∧
        DSegmentsFinder.observationsSinceReset Real.log
          (DSegmentsFinder.initialState (DSegmentsFinder.new Real.log p)) 0
          [(1, 3), (2, 3), (3, 3)] = Except.ok n ∧
        ((s.cum = 0 ∧ s.max = 0) ∨
          (0 < s.cum ∧ s.cum ≤ s.max ∧
            s.max - s.cum < (DSegmentsFinder.new Real.log p).threshold)) ∧
        s.currentSegmentReadStartCounts 0 + s.currentSegmentReadStartCounts 1
          + s.currentSegmentReadStartCounts 2 + s.currentSegmentReadStartCounts 3
          = (n : Int) := by
  obtain ⟨p, hp, h0, h3, hthr⟩ := exampleModel_scores 0
  obtain ⟨f', hf, -⟩ := trace_333300 p h0 h3 hthr
  obtain ⟨s, n, hs, hobs, hinv, hn, -⟩ :=
    C22_carried_state_invariant Real.log _ f' [(1, 3), (2, 3), (3, 3), (4, 3), (5, 0), (6, 0)] hf
      [(1, 3), (2, 3), (3, 3)] ⟨[(4, 3), (5, 0), (6, 0)], rfl⟩
  exact ⟨p, f', hp, hf, s, n, hs, hobs, hinv, hn⟩

/-- C21, witness: in the example model (threshold 2) the block of the four lines
with count 3 in 3, 3, 3, 3, 0, 0 scores 4, and the scan appends a segment. -/
theorem C21_block_reaching_threshold_is_detected_witness :
    ∃ p f', exampleModel Real.log Real.exp 0 = Except.ok p ∧
      DSegmentsFinder.findDSegments Real.log (DSegmentsFinder.new Real.log p)
        [(1, 3), (2, 3), (3, 3), (4, 3), (5, 0), (6, 0)] = Except.ok f' ∧
      (DSegmentsFinder.new Real.log p).threshold
        ≤ (([(1, 3), (2, 3), (3, 3), (4, 3)] : List (Int × Nat)).map
            (lineScore Real.log (DSegmentsFinder.new Real.log p).probabilities)).sum ∧
      ∃ new, f'.segments = (DSegmentsFinder.new Real.log p).segments ++ new ∧ new ≠ [] := by
  obtain ⟨p, hp, h0, h3, hthr⟩ := exampleModel_scores 0
  obtain ⟨f', hf, -⟩ := trace_333300 p h0 h3 hthr
  have hline : ∀ a : Int,
      lineScore Real.log (DSegmentsFinder.new Real.log p).probabilities (a, 3) = 1 := by
    intro a
    have hc : (DSegmentsFinder.new Real.log p).probabilities.dSegmentScore Real.log
        (((clampReadStarts ((a, 3) : Int × Nat).2).val : Nat) : Int) = Except.ok 1 := h3
    unfold lineScore
    rw [hc]
  have hsum : (DSegmentsFinder.new Real.log p).threshold
      ≤ (([(1, 3), (2, 3), (3, 3), (4, 3)] : List (Int × Nat)).map
          (lineScore Real.log (DSegmentsFinder.new Real.log p).probabilities)).sum := by
    rw [hthr, List.map_cons, List.map_cons, List.map_cons, List.map_cons, List.map_nil,
      List.sum_cons, List.sum_cons, List.sum_cons, List.sum_cons, List.sum_nil, hline, hline,
      hline, hline]
    norm_num
  exact ⟨p, f', hp, hf, hsum,
    (C21_block_reaching_threshold_is_detected Real.log _ f' [(1, 3), (2, 3), (3, 3), (4, 3), (5,
        0), (6, 0)]
      hf).2.1 [(1, 3), (2, 3), (3, 3), (4, 3)] ⟨[], [(5, 0), (6, 0)], rfl⟩ hsum⟩

/-- C20, witness: in the example model the scan of 3, 3, 3, 3, 0, 0 at the positions
1..6 appends the segment from 1 to 4 with score 4, which is the best prefix of its
window. -/
theorem C20_segment_score_is_best_prefix_witness :
    ∃ p f', exampleModel Real.log Real.exp 0 = Except.ok p ∧
      DSegmentsFinder.findDSegments Real.log (DSegmentsFinder.new Real.log p)
        [(1, 3), (2, 3), (3, 3), (4, 3), (5, 0), (6, 0)] = Except.ok f' ∧
      f'.segments = [Segment.mk 1 4 4] ∧
      ∃ new, f'.segments = (DSegmentsFinder.new Real.log p).segments ++ new ∧
        ∀ seg ∈ new, ∃ (before window after best : List (Int × Nat)) (last : Int × Nat),
          [(1, 3), (2, 3), (3, 3), (4, 3), (5, 0), (6, 0)] = before ++ window ++ after ∧
          seg.start = windowStart before ∧
          best <+: window ∧ best.getLast? = some last ∧ seg.end_ = last.1 ∧
          seg.score = linesScore Real.log (DSegmentsFinder.new Real.log p).probabilities best ∧
          (∀ w : List (Int × Nat), w <+: window →
            linesScore Real.log (DSegmentsFinder.new Real.log p).probabilities w ≤ seg.score) ∧
          (∀ w : List (Int × Nat), w <+: window → best.length < w.length →
            linesScore Real.log (DSegmentsFinder.new Real.log p).probabilities w
              < seg.score) := by
  obtain ⟨p, hp, h0, h3, hthr⟩ := exampleModel_scores 0
  obtain ⟨f', hf, hseg, -⟩ := trace_333300 p h0 h3 hthr
  obtain ⟨-, new, hnew, hall⟩ :=
    C20_segment_score_is_best_prefix Real.log (DSegmentsFinder.new Real.log p) f'
      [(1, 3), (2, 3), (3, 3), (4, 3), (5, 0), (6, 0)] (by rw [hthr]; norm_num) hf
  refine ⟨p, f', hp, hf, hseg, new, hnew, ?_⟩
  intro seg hm
  obtain ⟨before, window, after, best, last, -, hin, -, -, -, -, hst, -, h1, h2, h3, h4, h5,
    h6, -⟩ := hall seg hm
  exact ⟨before, window, after, best, last, hin, hst, h1, h2, h3, h4, h5, h6⟩
